import Mathlib

/-!
# WeightTransferTool: resampling a per-vertex weight field

A shallow embedding of `src/weightedMesh.cpp` and `src/weightTransfer.cpp`.

The numeric code is embedded twice.

* The exact embedding (section `Model`).  A C++ `double` is an element of a
  linearly ordered field `K` and arithmetic is exact.  Every definition is
  computable for a computable `K`, the comparisons are decidable.  `abs` is the
  absolute value of `K`, and `MVector::length` takes its square root as a
  parameter `sqrt : K → K`; a theorem that depends on it being a square root
  assumes `IsSqrt sqrt`.  This embedding carries the theorems on dispatch,
  vertex matching, arrays and the construction of the weight source.
* The double embedding (section `DoubleModel`, namespace `Fp`).  A C++ `double`
  is a value of the type `Double`, a model of IEEE 754 binary64 with signed
  zeros, infinities and NaNs.  Each `+`, `-`, `*`, `/` and `sqrt` is rounded
  once to the nearest value, ties to even, without fused operations or extended
  precision, and a comparison with a NaN is false.  This embedding carries the
  theorems on the numeric functions of `weightedMesh.cpp`; its statements are
  evaluated on concrete inputs by kernel computation.

Conventions of both embeddings.

* The Maya vector classes (`MVector`, `MPoint`) are not part of the repository.
  They are embedded with their textbook meaning: an operator works component by
  component, `MVector::length` is the square root of `x*x + y*y + z*z` summed
  from the left, and `MVector::normalize` leaves a vector of length zero
  unchanged.
* A pointer to a vertex is the vertex itself (vertices are never changed after
  construction), a C array with its length is a `List`, `NULL` is `none`, and
  an access outside an array is `none`.
-/

namespace WeightTransferTool

/-! ## Maya vector types -/

/-- Three component vector, the part of Maya's `MVector` used by the code. -/
structure MVector (K : Type) where
  x : K
  y : K
  z : K

/-- Homogeneous point, the part of Maya's `MPoint` used by the code. -/
structure MPoint (K : Type) where
  x : K
  y : K
  z : K
  w : K

/-- A two dimensional point position (`struct Point2d`). -/
structure Point2d (K : Type) where
  x : K
  y : K

/-- Enumeration to indicate the largest axis of a vector (`enum MajorAxis`). -/
inductive MajorAxis where
  | X_AXIS
  | Y_AXIS
  | Z_AXIS
  deriving DecidableEq, Repr

/-- The attribute types of `MFnData::Type` that the code distinguishes; every
other member of the Maya enumeration is `kOther`. -/
inductive MFnDataType where
  | kDoubleArray
  | kVectorArray
  | kPointArray
  | kOther
  deriving DecidableEq, Repr

section Model

variable {K : Type} [LinearOrderedField K]

/-- A small number for comparing double values (`EPSILON = 1E-5`). -/
def EPSILON : K := 1 / 100000

/-- The conversion `MVector(MPoint)`: the cartesian part of a point. -/
def MPoint.toVector (p : MPoint K) : MVector K := ⟨p.x, p.y, p.z⟩

/-- The difference `MPoint - MPoint`, a vector. -/
def MPoint.sub (a b : MPoint K) : MVector K := ⟨a.x - b.x, a.y - b.y, a.z - b.z⟩

/-- The update `MPoint += MVector`. -/
def MPoint.addVector (p : MPoint K) (v : MVector K) : MPoint K :=
  ⟨p.x + v.x, p.y + v.y, p.z + v.z, p.w⟩

/-- The quotient `MPoint / double` (the `w` component is never read by the code). -/
def MPoint.div (p : MPoint K) (s : K) : MPoint K := ⟨p.x / s, p.y / s, p.z / s, p.w⟩

/-- The difference `MVector - MVector`. -/
def MVector.sub (a b : MVector K) : MVector K := ⟨a.x - b.x, a.y - b.y, a.z - b.z⟩

/-- The cross product `a ^ b`. -/
def MVector.cross (a b : MVector K) : MVector K :=
  ⟨a.y * b.z - a.z * b.y, a.z * b.x - a.x * b.z, a.x * b.y - a.y * b.x⟩

/-- The dot product `a * b`. -/
def MVector.dot (a b : MVector K) : K := a.x * b.x + a.y * b.y + a.z * b.z

/-- The quotient `MVector / double`. -/
def MVector.div (v : MVector K) (s : K) : MVector K := ⟨v.x / s, v.y / s, v.z / s⟩

/-- The Euclidean norm `MVector::length`. -/
def MVector.length (sqrt : K → K) (v : MVector K) : K :=
  sqrt (v.x * v.x + v.y * v.y + v.z * v.z)

/-- The in-place `MVector::normalize`: a vector of length zero is left unchanged. -/
def MVector.normalize (sqrt : K → K) (v : MVector K) : MVector K :=
  if MVector.length sqrt v = 0 then v else MVector.div v (MVector.length sqrt v)

/-! ## Free functions of `weightedMesh.cpp` -/

/-- Returns true if the number is greater than or equal to zero, false otherwise. -/
def simple_sign (number : K) : Bool := decide (number ≥ 0)

/-- Tests two 2D points to see if the line segment they define crosses the
positive X-axis. -/
def edge_crosses_x_axis (p0 p1 : Point2d K) : Bool :=
  if p0.y = 0 ∧ p1.y = 0 then
    decide (p0.x > 0 ∨ p1.x > 0)
  else if simple_sign p0.y = simple_sign p1.y then
    false
  else if simple_sign p0.x && simple_sign p1.x then
    true
  else if !simple_sign p0.x && !simple_sign p1.x then
    false
  else
    let inv_slope := (p1.x - p0.x) / (p1.y - p0.y)
    let x_int := p0.x - inv_slope * p0.y
    simple_sign x_int

/-- Appends a value to an integer array if it is not already present; the
result is the array afterwards and the returned flag. -/
def append_if_unique (int_array : List Nat) (new_value : Nat) : List Nat × Bool :=
  if int_array.any (fun a => a == new_value) then (int_array, false)
  else (int_array ++ [new_value], true)

/-- The loop `for i: if test(a[i]) return a[i]` followed by `return NULL`. -/
def linear_scan {α : Type} (test : α → Bool) : List α → Option α
  | [] => none
  | a :: rest => if test a then some a else linear_scan test rest

/-! ## WeightedVertex -/

/-- A surface sample: position in world space and an array of 4 weights. -/
structure WeightedVertex (K : Type) where
  position : MPoint K
  weights : Fin 4 → K

/-- Sets this vertex's position and weights. -/
def WeightedVertex.set_vertex (new_position : MPoint K) (new_weights : Fin 4 → K) :
    WeightedVertex K :=
  { position := new_position, weights := new_weights }

/-- Tests the sample point to see if it equals vertex position. -/
def WeightedVertex.equals_position (v : WeightedVertex K) (sample_point : MPoint K) : Bool :=
  let delta := MPoint.sub sample_point v.position
  decide (|delta.x| < EPSILON) && decide (|delta.y| < EPSILON) && decide (|delta.z| < EPSILON)

/-- Gets a copy of this vertex's weights (the `memcpy` of 4 doubles). -/
def WeightedVertex.copy_weights (v : WeightedVertex K) : Fin 4 → K :=
  fun i => v.weights i

/-! ## WeightedTriangle -/

/-- Three vertices and the geometric data `set_vertices` derives from them. -/
structure WeightedTriangle (K : Type) where
  v0 : WeightedVertex K
  v1 : WeightedVertex K
  v2 : WeightedVertex K
  centroid : MPoint K
  normal : MVector K
  major_axis : MajorAxis
  area_times_2 : K
  v0_2d : Point2d K
  v1_2d : Point2d K
  v2_2d : Point2d K

/-- Projects a 3D point into 2D by removing a vector component; the member
`major_axis` that the method reads is its first argument. -/
def project_to_2d (major_axis : MajorAxis) (position : MPoint K) : Point2d K :=
  match major_axis with
  | MajorAxis.X_AXIS => ⟨position.y, position.z⟩
  | MajorAxis.Y_AXIS => ⟨position.x, position.z⟩
  | MajorAxis.Z_AXIS => ⟨position.x, position.y⟩

/-- Set the three vertices that make up this triangle and store relevant
triangle information. -/
def set_vertices (sqrt : K → K) (new_v0 new_v1 new_v2 : WeightedVertex K) :
    WeightedTriangle K :=
  let p0 := new_v0.position
  let p1 := new_v1.position
  let p2 := new_v2.position
  let centroid : MPoint K := ⟨0, 0, 0, 1⟩
  let centroid := MPoint.addVector centroid (MPoint.toVector p0)
  let centroid := MPoint.addVector centroid (MPoint.toVector p1)
  let centroid := MPoint.addVector centroid (MPoint.toVector p2)
  let centroid := MPoint.div centroid 3
  let e0 := MPoint.sub p1 p0
  let e1 := MPoint.sub p2 p0
  let normal := MVector.cross e0 e1
  let area_times_2 := MVector.length sqrt normal
  let normal := MVector.div normal area_times_2
  let abs_normal : MVector K := ⟨|normal.x|, |normal.y|, |normal.z|⟩
  let major_axis :=
    if abs_normal.x > abs_normal.y then
      if abs_normal.x > abs_normal.z then MajorAxis.X_AXIS
      else if abs_normal.y > abs_normal.z then MajorAxis.Y_AXIS
      else MajorAxis.Z_AXIS
    else
      if abs_normal.y > abs_normal.z then MajorAxis.Y_AXIS
      else MajorAxis.Z_AXIS
  { v0 := new_v0, v1 := new_v1, v2 := new_v2,
    centroid := centroid, normal := normal,
    major_axis := major_axis, area_times_2 := area_times_2,
    v0_2d := project_to_2d major_axis p0,
    v1_2d := project_to_2d major_axis p1,
    v2_2d := project_to_2d major_axis p2 }

/-- Calculates the barycentric coordinates of the sample point in this triangle. -/
def get_bary_coords (sqrt : K → K) (t : WeightedTriangle K) (sample_point : MVector K)
    (normalized : Bool) : MVector K :=
  let e0 := MVector.sub (MPoint.toVector t.v0.position) sample_point
  let e1 := MVector.sub (MPoint.toVector t.v1.position) sample_point
  let e2 := MVector.sub (MPoint.toVector t.v2.position) sample_point
  let bx := MVector.length sqrt (MVector.cross e2 e1) / t.area_times_2
  let by_ := MVector.length sqrt (MVector.cross e0 e2) / t.area_times_2
  if normalized then
    ⟨bx, by_, 1 - (by_ + bx)⟩
  else
    ⟨bx, by_, MVector.length sqrt (MVector.cross e0 e1) / t.area_times_2⟩

/-- Calculates and returns the weights of this triangle at the specified
sample position. -/
def sample_weights (sqrt : K → K) (t : WeightedTriangle K) (sample_point : MPoint K) :
    Fin 4 → K :=
  let bary_coords := get_bary_coords sqrt t (MPoint.toVector sample_point) true
  fun i =>
    let w0 := t.v0.weights i * bary_coords.x
    let w1 := t.v1.weights i * bary_coords.y
    let w2 := t.v2.weights i * bary_coords.z
    w0 + w1 + w2

/-- Tests the sample point to see if it lies in the plane of the triangle. -/
def point_is_on_plane (sqrt : K → K) (t : WeightedTriangle K) (sample_point : MPoint K) :
    Bool :=
  let sample_direction := MVector.normalize sqrt (MPoint.sub sample_point t.centroid)
  let cos_theta := MVector.dot sample_direction t.normal
  decide (|cos_theta| < EPSILON)

/-- The number of adjusted triangle edges that `point_is_inside` counts as
intersecting the positive X-axis (its local variable `intersections`). -/
def count_intersections (t : WeightedTriangle K) (sample_point : MPoint K) : Nat :=
  let sample_2d := project_to_2d t.major_axis sample_point
  let adj_v0 : Point2d K := ⟨t.v0_2d.x - sample_2d.x, t.v0_2d.y - sample_2d.y⟩
  let adj_v1 : Point2d K := ⟨t.v1_2d.x - sample_2d.x, t.v1_2d.y - sample_2d.y⟩
  let adj_v2 : Point2d K := ⟨t.v2_2d.x - sample_2d.x, t.v2_2d.y - sample_2d.y⟩
  let intersections := 0
  let intersections :=
    if edge_crosses_x_axis adj_v0 adj_v1 then intersections + 1 else intersections
  let intersections :=
    if edge_crosses_x_axis adj_v1 adj_v2 then intersections + 1 else intersections
  let intersections :=
    if edge_crosses_x_axis adj_v0 adj_v2 then intersections + 1 else intersections
  intersections

/-- Performs a fast test of the sample point to see if it is inside this triangle. -/
def point_is_inside (sqrt : K → K) (t : WeightedTriangle K) (sample_point : MPoint K) :
    Bool :=
  if !point_is_on_plane sqrt t sample_point then false
  else decide (count_intersections t sample_point % 2 = 1)

/-- Tests the sample point to see if it is inside this triangle using
barycentric coordinates. -/
def point_is_inside_bary (sqrt : K → K) (t : WeightedTriangle K) (sample_point : MPoint K) :
    Bool :=
  let bary_coords := get_bary_coords sqrt t (MPoint.toVector sample_point) false
  let total_area := bary_coords.x + bary_coords.y + bary_coords.z
  decide (|1 - total_area| < EPSILON)

/-! ## WeightedPolygon -/

/-- A polygon: its face index, its triangles and its unique vertices.  The
members `triangle_count` and `vertex_count` are the lengths of the two lists. -/
structure WeightedPolygon (K : Type) where
  face_index : Nat
  tris : List (WeightedTriangle K)
  verts : List (WeightedVertex K)

/-- The number of triangles in this polygon. -/
def WeightedPolygon.triangle_count (poly : WeightedPolygon K) : Nat := poly.tris.length

/-- The number of vertices in this polygon. -/
def WeightedPolygon.vertex_count (poly : WeightedPolygon K) : Nat := poly.verts.length

/-- The first loop of `update_triangles`: `n` triangles are still to be read
from the flat stream at `start_index`; the state is the triangles built so far
and the array of unique vertex indexes. -/
def update_triangles_loop (sqrt : K → K) (tri_vert_indexes : List Nat)
    (all_verts : List (WeightedVertex K)) :
    Nat → Nat → List (WeightedTriangle K) → List Nat →
      Option (List (WeightedTriangle K) × List Nat)
  | 0, _, tris, uniqe_verts_indexes => some (tris, uniqe_verts_indexes)
  | n + 1, start_index, tris, uniqe_verts_indexes => do
    let i0 ← tri_vert_indexes[start_index]?
    let i1 ← tri_vert_indexes[start_index + 1]?
    let i2 ← tri_vert_indexes[start_index + 2]?
    let uniqe_verts_indexes := (append_if_unique uniqe_verts_indexes i0).1
    let uniqe_verts_indexes := (append_if_unique uniqe_verts_indexes i1).1
    let uniqe_verts_indexes := (append_if_unique uniqe_verts_indexes i2).1
    let v0 ← all_verts[i0]?
    let v1 ← all_verts[i1]?
    let v2 ← all_verts[i2]?
    update_triangles_loop sqrt tri_vert_indexes all_verts n (start_index + 3)
      (tris ++ [set_vertices sqrt v0 v1 v2]) uniqe_verts_indexes

/-- Updates the list of triangles that compose this weighted polygon. -/
def update_triangles (sqrt : K → K) (my_face_index new_triangle_count start_index : Nat)
    (tri_vert_indexes : List Nat) (all_verts : List (WeightedVertex K)) :
    Option (WeightedPolygon K) := do
  let (tris, uniqe_verts_indexes) ←
    update_triangles_loop sqrt tri_vert_indexes all_verts new_triangle_count start_index [] []
  let verts ← uniqe_verts_indexes.mapM (fun i => all_verts[i]?)
  pure { face_index := my_face_index, tris := tris, verts := verts }

/-- Tests this polygon's vertices to see if any have an equal position to the
sample point. -/
def get_matching_vertex (poly : WeightedPolygon K) (sample_point : MPoint K) :
    Option (WeightedVertex K) :=
  linear_scan (fun v => WeightedVertex.equals_position v sample_point) poly.verts

/-- Find this polygon's triangle that contains the sample point. -/
def get_intersected_triangle (sqrt : K → K) (poly : WeightedPolygon K)
    (sample_point : MPoint K) : Option (WeightedTriangle K) :=
  match linear_scan (fun t => point_is_inside sqrt t sample_point) poly.tris with
  | some t => some t
  | none =>
    match linear_scan (fun t => point_is_inside_bary sqrt t sample_point) poly.tris with
    | some t => some t
    | none => poly.tris[0]?

/-! ## WeightedMesh and WeightsSource -/

/-- The weight data of a `WeightedMesh`: the attribute type and the three
weight arrays, of which the one selected by the type is in use. -/
structure WeightedMesh (K : Type) where
  is_valid : Bool
  vertex_count : Nat
  weight_count : Nat
  weight_attr_type : MFnDataType
  weight_double_vals : List K
  weight_vector_vals : List (MVector K)
  weight_point_vals : List (MPoint K)

/-- Retrieves weight values for the specified vertex index.  For an attribute
type outside the three cases the C++ array is returned uninitialised; the
embedding gives `none`. -/
def WeightedMesh.get_weight (m : WeightedMesh K) (index : Nat) : Option (Fin 4 → K) :=
  match m.weight_attr_type with
  | MFnDataType.kDoubleArray => do
    let dvalue ← m.weight_double_vals[index]?
    pure ![dvalue, dvalue, dvalue, dvalue]
  | MFnDataType.kVectorArray => do
    let vvalue ← m.weight_vector_vals[index]?
    pure ![vvalue.x, vvalue.y, vvalue.z, 0]
  | MFnDataType.kPointArray => do
    let pvalue ← m.weight_point_vals[index]?
    pure ![pvalue.x, pvalue.y, pvalue.z, pvalue.w]
  | MFnDataType.kOther => none

/-- The part of `sample_mesh` after the closest point search: resolves the
weights at `closest_pos` on the polygon `poly`. -/
def sample_polygon (sqrt : K → K) (poly : WeightedPolygon K) (closest_pos : MPoint K) :
    Option (Fin 4 → K) :=
  match get_matching_vertex poly closest_pos with
  | some matching_vert => some (WeightedVertex.copy_weights matching_vert)
  | none =>
    match get_intersected_triangle sqrt poly closest_pos with
    | some tri => some (sample_weights sqrt tri closest_pos)
    | none => none

/-- Samples the weight source mesh at an arbitrary position in space.  The
Maya mesh intersector is the parameter `getClosestPoint` (face index and
closest point in local space), the multiplication by `xform_matrix` is the
parameter `xform`. -/
def sample_mesh (sqrt : K → K) (getClosestPoint : MPoint K → Nat × MPoint K)
    (xform : MPoint K → MPoint K) (weighted_polys : List (WeightedPolygon K))
    (sample_point : MPoint K) : Option (Fin 4 → K) :=
  let point_info := getClosestPoint sample_point
  let face_index := point_info.1
  let closest_pos := xform point_info.2
  match weighted_polys[face_index]? with
  | some poly => sample_polygon sqrt poly closest_pos
  | none => none

/-- The vertex loop of the `WeightsSource` constructor: one `WeightedVertex`
per position of the vertex iterator, with the weights `get_weight(index)`. -/
def build_vertices (m : WeightedMesh K) :
    List (MPoint K) → Nat → Option (List (WeightedVertex K))
  | [], _ => some []
  | position :: rest, index => do
    let weights ← m.get_weight index
    let cur_vert := WeightedVertex.set_vertex position weights
    let tail ← build_vertices m rest (index + 1)
    pure (cur_vert :: tail)

/-- The second loop of the `WeightsSource` constructor: `n` polygons are still
to be built, the next one has face index `i` and reads the flat triangle
stream from `start_index`. -/
def build_polygons (sqrt : K → K) (tri_counts tri_verts : List Nat)
    (weighted_verts : List (WeightedVertex K)) :
    Nat → Nat → Nat → Option (List (WeightedPolygon K))
  | 0, _, _ => some []
  | n + 1, i, start_index => do
    let count ← tri_counts[i]?
    let poly ← update_triangles sqrt i count start_index tri_verts weighted_verts
    let rest ← build_polygons sqrt tri_counts tri_verts weighted_verts n (i + 1)
      (start_index + count * 3)
    pure (poly :: rest)

/-- What the Maya API reports for the mesh node and the weight attribute that a
`WeightedMesh` is pointed at: the status of `MFnMesh::setObject`, the vertex and
polygon counts, the world positions in the order of `MItMeshVertex`, the two
arrays of `MFnMesh::getTriangles`, whether `findPlug` succeeds, whether the
attribute is a typed attribute, its declared type, and the array held by the
plug for each of the three array types. -/
structure MayaMesh (K : Type) where
  setObject_ok : Bool
  numVertices : Nat
  numPolygons : Nat
  positions : List (MPoint K)
  tri_counts : List Nat
  tri_verts : List Nat
  findPlug_ok : Bool
  hasFn_kTypedAttribute : Bool
  attrType : MFnDataType
  plug_doubles : List K
  plug_vectors : List (MVector K)
  plug_points : List (MPoint K)

/-- WeightedMesh class constructor.  The member `weight_attr_type` is not
initialised by the C++ constructor; the value it happens to hold is the
argument. -/
def WeightedMesh.init (uninitialised_type : MFnDataType) : WeightedMesh K :=
  { is_valid := false, vertex_count := 0, weight_count := 0,
    weight_attr_type := uninitialised_type,
    weight_double_vals := [], weight_vector_vals := [], weight_point_vals := [] }

/-- Sets the source Maya mesh node of this instance; the result is the status
and the mesh afterwards. -/
def WeightedMesh.set_mesh (m : WeightedMesh K) (maya : MayaMesh K) : Bool × WeightedMesh K :=
  (maya.setObject_ok, { m with vertex_count := maya.numVertices })

/-- Sets the mesh node attribute name to find weight values in; the result is
the status (`true` for `MS::kSuccess`) and the mesh afterwards. -/
def WeightedMesh.set_weight_attribute (m : WeightedMesh K) (maya : MayaMesh K) :
    Bool × WeightedMesh K :=
  if !maya.findPlug_ok then (false, m)
  else if !maya.hasFn_kTypedAttribute then (false, m)
  else
    let m := { m with weight_attr_type := maya.attrType }
    match m.weight_attr_type with
    | MFnDataType.kDoubleArray => (true, m)
    | MFnDataType.kVectorArray => (true, m)
    | MFnDataType.kPointArray => (true, m)
    | MFnDataType.kOther => (false, m)

/-- Retrieves and stores weight information from the current weight attribute. -/
def WeightedMesh.retrieve_weights (m : WeightedMesh K) (maya : MayaMesh K) : WeightedMesh K :=
  let m := { m with weight_double_vals := [], weight_vector_vals := [],
                    weight_point_vals := [] }
  match m.weight_attr_type with
  | MFnDataType.kDoubleArray =>
    { m with weight_double_vals := maya.plug_doubles,
             weight_count := maya.plug_doubles.length }
  | MFnDataType.kVectorArray =>
    { m with weight_vector_vals := maya.plug_vectors,
             weight_count := maya.plug_vectors.length }
  | MFnDataType.kPointArray =>
    { m with weight_point_vals := maya.plug_points,
             weight_count := maya.plug_points.length }
  | MFnDataType.kOther => m

/-- The weight source: a `WeightedMesh` with the arrays of polygons and of
vertices, which are `none` as long as the constructor has not allocated them. -/
structure WeightsSource (K : Type) extends WeightedMesh K where
  weighted_polys : Option (List (WeightedPolygon K))
  weighted_verts : Option (List (WeightedVertex K))

/-- WeightsSource class constructor.  The result is `none` when the C++ code
would read outside an array. -/
def WeightsSource.construct (sqrt : K → K) (uninitialised_type : MFnDataType)
    (maya : MayaMesh K) : Option (WeightsSource K) :=
  let m : WeightedMesh K := WeightedMesh.init uninitialised_type
  let mesh_status := (m.set_mesh maya).1
  let m := (m.set_mesh maya).2
  let attr_status := (m.set_weight_attribute maya).1
  let m := (m.set_weight_attribute maya).2
  let m := m.retrieve_weights maya
  if m.vertex_count = 0 then
    some { toWeightedMesh := m, weighted_polys := none, weighted_verts := none }
  else if m.vertex_count ≠ m.weight_count then
    some { toWeightedMesh := m, weighted_polys := none, weighted_verts := none }
  else if !mesh_status then
    some { toWeightedMesh := m, weighted_polys := none, weighted_verts := none }
  else if !attr_status then
    some { toWeightedMesh := m, weighted_polys := none, weighted_verts := none }
  else
    let m := { m with is_valid := true }
    let poly_count := maya.numPolygons
    do
      let weighted_verts ← build_vertices m maya.positions 0
      let weighted_polys ←
        build_polygons sqrt maya.tri_counts maya.tri_verts weighted_verts poly_count 0 0
      pure { toWeightedMesh := m, weighted_polys := some weighted_polys,
             weighted_verts := some weighted_verts }

/-! ## Example data: the flat quad of the specification -/

/-- A mesh of four vertices whose weight attribute is a `doubleArray` holding
0, 1, 1, 0. -/
def quad_mesh : WeightedMesh K :=
  { is_valid := true, vertex_count := 4, weight_count := 4,
    weight_attr_type := MFnDataType.kDoubleArray,
    weight_double_vals := [0, 1, 1, 0], weight_vector_vals := [], weight_point_vals := [] }

/-- The four corner positions of the quad. -/
def quad_positions : List (MPoint K) :=
  [⟨0, 0, 0, 1⟩, ⟨1, 0, 0, 1⟩, ⟨1, 1, 0, 1⟩, ⟨0, 1, 0, 1⟩]

/-- Face 0 of the quad, triangulated as (0,1,2) and (0,2,3). -/
def quad_polygon (sqrt : K → K) : Option (WeightedPolygon K) := do
  let all_verts ← build_vertices quad_mesh quad_positions 0
  update_triangles sqrt 0 2 0 [0, 1, 2, 0, 2, 3] all_verts

/-- A vertex at `(x, y, z)` whose four weights all equal `d`. -/
def scalar_vertex (x y z d : K) : WeightedVertex K := ⟨⟨x, y, z, 1⟩, ![d, d, d, d]⟩

/-- A polygon of one thin triangle: two of its corners are `1e-6` apart and
carry the weights 0 and 1. -/
def thin_polygon (sqrt : K → K) : WeightedPolygon K :=
  { face_index := 0,
    tris := [set_vertices sqrt (scalar_vertex 0 0 0 0) (scalar_vertex (1 / 1000000) 0 0 1)
      (scalar_vertex 0 1 0 0)],
    verts := [scalar_vertex 0 0 0 0, scalar_vertex (1 / 1000000) 0 0 1, scalar_vertex 0 1 0 0] }

/-- What Maya reports for a mesh of one triangle whose weight attribute is a
`vectorArray` holding (1,2,3), (4,5,6), (7,8,9). -/
def vector_triangle_maya : MayaMesh K :=
  { setObject_ok := true, numVertices := 3, numPolygons := 1,
    positions := [⟨0, 0, 0, 1⟩, ⟨1, 0, 0, 1⟩, ⟨0, 1, 0, 1⟩],
    tri_counts := [1], tri_verts := [0, 1, 2],
    findPlug_ok := true, hasFn_kTypedAttribute := true,
    attrType := MFnDataType.kVectorArray,
    plug_doubles := [], plug_vectors := [⟨1, 2, 3⟩, ⟨4, 5, 6⟩, ⟨7, 8, 9⟩], plug_points := [] }

/-- The weight source that the constructor builds from `vector_triangle_maya`. -/
def vector_triangle_source (sqrt : K → K) : WeightsSource K :=
  { is_valid := true, vertex_count := 3, weight_count := 3,
    weight_attr_type := MFnDataType.kVectorArray,
    weight_double_vals := [], weight_vector_vals := [⟨1, 2, 3⟩, ⟨4, 5, 6⟩, ⟨7, 8, 9⟩],
    weight_point_vals := [],
    weighted_polys := some
      [{ face_index := 0,
         tris := [set_vertices sqrt ⟨⟨0, 0, 0, 1⟩, ![1, 2, 3, 0]⟩ ⟨⟨1, 0, 0, 1⟩, ![4, 5, 6, 0]⟩
                    ⟨⟨0, 1, 0, 1⟩, ![7, 8, 9, 0]⟩],
         verts := [⟨⟨0, 0, 0, 1⟩, ![1, 2, 3, 0]⟩, ⟨⟨1, 0, 0, 1⟩, ![4, 5, 6, 0]⟩,
                   ⟨⟨0, 1, 0, 1⟩, ![7, 8, 9, 0]⟩] }],
    weighted_verts := some
      [⟨⟨0, 0, 0, 1⟩, ![1, 2, 3, 0]⟩, ⟨⟨1, 0, 0, 1⟩, ![4, 5, 6, 0]⟩,
       ⟨⟨0, 1, 0, 1⟩, ![7, 8, 9, 0]⟩] }

/-- A concave quad with corners (2,0,0), (4,0,0), (3,1,0), (-2,-1,0), reflex at
the first corner, triangulated as (0,1,2) and (0,2,3); the weights are 0 at the
first three corners and 3 at the last one. -/
def dart_polygon (sqrt : K → K) : WeightedPolygon K :=
  { face_index := 0,
    tris := [set_vertices sqrt (scalar_vertex 2 0 0 0) (scalar_vertex 4 0 0 0)
               (scalar_vertex 3 1 0 0),
             set_vertices sqrt (scalar_vertex 2 0 0 0) (scalar_vertex 3 1 0 0)
               (scalar_vertex (-2) (-1) 0 3)],
    verts := [scalar_vertex 2 0 0 0, scalar_vertex 4 0 0 0, scalar_vertex 3 1 0 0,
              scalar_vertex (-2) (-1) 0 3] }

/-! ## Specification vocabulary -/

/-- The parameter `sqrt` is an exact square root on the non-negative elements. -/
structure IsSqrt (sqrt : K → K) : Prop where
  nonneg : ∀ x, 0 ≤ sqrt x
  mul_self : ∀ x, 0 ≤ x → sqrt x * sqrt x = x

/-- The three positions are not on one line: the cross product of the two
edges at `p0` is not the zero vector. -/
def NonCollinear (p0 p1 p2 : MPoint K) : Prop :=
  MVector.cross (MPoint.sub p1 p0) (MPoint.sub p2 p0) ≠ ⟨0, 0, 0⟩

/-- The translation `a - origin` of a projected point, as `point_is_inside`
applies it to the three projected vertices. -/
def Point2d.sub (a origin : Point2d K) : Point2d K := ⟨a.x - origin.x, a.y - origin.y⟩

/-- The number of the edges (a,b), (b,c), (a,c) that `edge_crosses_x_axis` counts. -/
def crossing_count (a b c : Point2d K) : Nat :=
  (if edge_crosses_x_axis a b then 1 else 0) + (if edge_crosses_x_axis b c then 1 else 0)
    + (if edge_crosses_x_axis a c then 1 else 0)

/-- The unique-index array that `update_triangles` ends with when it starts
from `uniq` and reads the stream entries `entries`. -/
def unique_fold (uniq entries : List Nat) : List Nat :=
  entries.foldl (fun u k => (append_if_unique u k).1) uniq

/-- The start index of polygon `i` in the flat triangle stream: three times the
number of triangles of the polygons before it. -/
def polygon_start (tri_counts : List Nat) (i : Nat) : Nat :=
  3 * (tri_counts.take i).sum

/-- The mesh part of a `WeightsSource` after the first three statements of its
constructor: `set_mesh`, `set_weight_attribute` and `retrieve_weights`. -/
def retrieved_mesh (uninitialised_type : MFnDataType) (maya : MayaMesh K) : WeightedMesh K :=
  ((((WeightedMesh.init uninitialised_type).set_mesh maya).2.set_weight_attribute maya).2
    ).retrieve_weights maya

/-- The point `p` is a combination `a*p0 + b*p1 + c*p2` of the three positions
with the coefficients `a`, `b`, `c`, which sum to 1. -/
def IsCombination (p0 p1 p2 p : MPoint K) (a b c : K) : Prop :=
  a + b + c = 1 ∧ p.x = a * p0.x + b * p1.x + c * p2.x ∧
    p.y = a * p0.y + b * p1.y + c * p2.y ∧ p.z = a * p0.z + b * p1.z + c * p2.z

/-- The point `p` lies in the closed triangle with corners `p0`, `p1`, `p2`
(interior or boundary). -/
def InClosedTriangle (p0 p1 p2 p : MPoint K) : Prop :=
  ∃ a b c : K, 0 ≤ a ∧ 0 ≤ b ∧ 0 ≤ c ∧ IsCombination p0 p1 p2 p a b c

/-- The point `p` lies in the plane through `p0`, `p1`, `p2`: the vector from
`p0` to `p` is orthogonal to the cross product of the two edges at `p0`. -/
def InPlane (p0 p1 p2 p : MPoint K) : Prop :=
  MVector.dot (MPoint.sub p p0) (MVector.cross (MPoint.sub p1 p0) (MPoint.sub p2 p0)) = 0

end Model

/-! ## The embedding in double arithmetic

The definitions above compute in an exact field.  The program computes in C++
`double`s: every operation rounds to the nearest binary64 value, a division by
zero gives an infinity or a NaN, and a comparison with a NaN is false.  The
definitions of this part repeat the numeric functions of `weightedMesh.cpp`
over an executable model of binary64, statement by statement.  The operators of
`MVector` and `MPoint` have their textbook meaning, each arithmetic operation
rounded once. -/

section DoubleModel

/-- A C++ `double` (IEEE 754 binary64): the sign bit and the other 63 bits read
as a number, that is the biased exponent times `2^52` plus the fraction.
Magnitudes below `2047 * 2^52` are the finite values, `2047 * 2^52` is infinity
and every larger magnitude is a NaN. -/
structure Double where
  neg : Bool
  mag : Nat
  deriving DecidableEq, Repr

namespace Double

/-- The magnitude of infinity. -/
def infMag : Nat := 2047 * 2 ^ 52

/-- The value is a NaN. -/
def isNaN (a : Double) : Bool := decide (infMag < a.mag)

/-- The value is plus or minus infinity. -/
def isInf (a : Double) : Bool := decide (a.mag = infMag)

/-- The value is neither an infinity nor a NaN. -/
def isFinite (a : Double) : Bool := decide (a.mag < infMag)

/-- The value is plus or minus zero. -/
def isZero (a : Double) : Bool := decide (a.mag = 0)

/-- The significand of a finite value, a number below `2^53`. -/
def mant (a : Double) : Nat := if a.mag < 2 ^ 52 then a.mag else 2 ^ 52 + a.mag % 2 ^ 52

/-- The exponent of a finite value, counted from that of the subnormal numbers. -/
def expo (a : Double) : Nat := a.mag / 2 ^ 52 - 1

/-- The absolute value of a finite double in units of `2^-1074`. -/
def num (a : Double) : Nat := a.mant * 2 ^ a.expo

/-- The value of a finite double in units of `2^-1074`, with its sign. -/
def sval (a : Double) : Int := if a.neg then -(a.num : Int) else (a.num : Int)

/-- The value of a finite double as a rational number. -/
def toRat (a : Double) : ℚ := (a.sval : ℚ) / 2 ^ 1074

/-- The position of the highest set bit of a number below `2^(2^k)`, added to
`acc`. -/
def log2Aux : Nat → Nat → Nat → Nat
  | 0, _, acc => acc
  | k + 1, n, acc =>
    if 2 ^ (2 ^ k) ≤ n then log2Aux k (n / 2 ^ (2 ^ k)) (acc + 2 ^ k) else log2Aux k n acc

/-- The position of the highest set bit of a number below `2^16384`. -/
def log2 (n : Nat) : Nat := log2Aux 14 n 0

/-- Rounds the rational number `n / d` to the nearest double, a tie to the even
significand, and gives it the sign `neg`; a value too large for a finite double
gives infinity. -/
def round (neg : Bool) (n d : Nat) : Double :=
  let N := n * 2 ^ 1074
  let e := log2 (N / d) - 52
  let D := d * 2 ^ e
  let q := N / D
  let r := N % D
  let q := if D < 2 * r ∨ (2 * r = D ∧ q % 2 = 1) then q + 1 else q
  ⟨neg, min (e * 2 ^ 52 + q) infMag⟩

/-- A quiet NaN. -/
def nan : Double := ⟨false, infMag + 2 ^ 51⟩

/-- Plus or minus infinity. -/
def inf (neg : Bool) : Double := ⟨neg, infMag⟩

/-- Plus or minus zero. -/
def zero (neg : Bool) : Double := ⟨neg, 0⟩

/-- The double of an integer literal or of an integer converted to `double`. -/
def ofNat (k : Nat) : Double := round false k 1

/-- The double of a decimal literal with the value `n / d`, negative when `neg`. -/
def ofRatio (neg : Bool) (n d : Nat) : Double := round neg n d

/-- Unary minus. -/
def negate (a : Double) : Double := ⟨!a.neg, a.mag⟩

/-- The function `abs` on a `double`. -/
def abs (a : Double) : Double := ⟨false, a.mag⟩

/-- The sum `a + b`. -/
def add (a b : Double) : Double :=
  if a.isNaN || b.isNaN then nan
  else if a.isInf then (if b.isInf && (a.neg != b.neg) then nan else a)
  else if b.isInf then b
  else if a.neg = b.neg then round a.neg (a.num + b.num) (2 ^ 1074)
  else if a.num = b.num then zero false
  else if b.num < a.num then round a.neg (a.num - b.num) (2 ^ 1074)
  else round b.neg (b.num - a.num) (2 ^ 1074)

/-- The difference `a - b`. -/
def sub (a b : Double) : Double := add a (negate b)

/-- The product `a * b`. -/
def mul (a b : Double) : Double :=
  if a.isNaN || b.isNaN then nan
  else if a.isInf || b.isInf then
    (if a.isZero || b.isZero then nan else inf (a.neg != b.neg))
  else round (a.neg != b.neg) (a.num * b.num) (2 ^ 2148)

/-- The quotient `a / b`. -/
def div (a b : Double) : Double :=
  if a.isNaN || b.isNaN then nan
  else if a.isInf then (if b.isInf then nan else inf (a.neg != b.neg))
  else if b.isInf then zero (a.neg != b.neg)
  else if b.isZero then (if a.isZero then nan else inf (a.neg != b.neg))
  else round (a.neg != b.neg) a.num b.num

/-- The integer square root of a number below `4^k`, found bit by bit from bit
`k - 1` down, added to the bits `r` already found. -/
def isqrtAux (n : Nat) : Nat → Nat → Nat
  | 0, r => r
  | k + 1, r =>
    if (r + 2 ^ k) * (r + 2 ^ k) ≤ n then isqrtAux n k (r + 2 ^ k) else isqrtAux n k r

/-- The function `sqrt` on a `double`, correctly rounded. -/
def sqrt (a : Double) : Double :=
  if a.isNaN then nan
  else if a.isZero then a
  else if a.neg then nan
  else if a.isInf then a
  else
    let S := a.num * 2 ^ 1074
    let e := log2 S / 2 - 52
    let T := S / 4 ^ e
    let q := isqrtAux T 53 0
    let rho := T - q * q
    let q := if q < rho ∨ (rho = q ∧ 4 ^ e < 4 * (S % 4 ^ e)) then q + 1 else q
    ⟨false, e * 2 ^ 52 + q⟩

/-- The order key of a value that is not a NaN; both zeros have the key 0. -/
def key (a : Double) : Int := if a.neg then -(a.mag : Int) else (a.mag : Int)

/-- The comparison `a < b`. -/
def lt (a b : Double) : Bool := !a.isNaN && !b.isNaN && decide (a.key < b.key)

/-- The comparison `a <= b`. -/
def le (a b : Double) : Bool := !a.isNaN && !b.isNaN && decide (a.key ≤ b.key)

/-- The comparison `a == b`. -/
def eq (a b : Double) : Bool := !a.isNaN && !b.isNaN && decide (a.key = b.key)

/-- The comparison `a > b`. -/
def gt (a b : Double) : Bool := lt b a

/-- The comparison `a >= b`. -/
def ge (a b : Double) : Bool := le b a

end Double

namespace Fp

/-- A small number for comparing double values (`EPSILON = 1E-5`). -/
def EPSILON : Double := Double.ofRatio false 1 100000

/-- The conversion `MVector(MPoint)`: the cartesian part of a point. -/
def toVector (p : MPoint Double) : MVector Double := ⟨p.x, p.y, p.z⟩

/-- The difference `MPoint - MPoint`, a vector. -/
def psub (a b : MPoint Double) : MVector Double :=
  ⟨Double.sub a.x b.x, Double.sub a.y b.y, Double.sub a.z b.z⟩

/-- The update `MPoint += MVector`. -/
def addVector (p : MPoint Double) (v : MVector Double) : MPoint Double :=
  ⟨Double.add p.x v.x, Double.add p.y v.y, Double.add p.z v.z, p.w⟩

/-- The quotient `MPoint / double` (the `w` component is never read by the code). -/
def pdiv (p : MPoint Double) (s : Double) : MPoint Double :=
  ⟨Double.div p.x s, Double.div p.y s, Double.div p.z s, p.w⟩

/-- The difference `MVector - MVector`. -/
def vsub (a b : MVector Double) : MVector Double :=
  ⟨Double.sub a.x b.x, Double.sub a.y b.y, Double.sub a.z b.z⟩

/-- The cross product `a ^ b`. -/
def cross (a b : MVector Double) : MVector Double :=
  ⟨Double.sub (Double.mul a.y b.z) (Double.mul a.z b.y),
   Double.sub (Double.mul a.z b.x) (Double.mul a.x b.z),
   Double.sub (Double.mul a.x b.y) (Double.mul a.y b.x)⟩

/-- The dot product `a * b`. -/
def dot (a b : MVector Double) : Double :=
  Double.add (Double.add (Double.mul a.x b.x) (Double.mul a.y b.y)) (Double.mul a.z b.z)

/-- The quotient `MVector / double`. -/
def vdiv (v : MVector Double) (s : Double) : MVector Double :=
  ⟨Double.div v.x s, Double.div v.y s, Double.div v.z s⟩

/-- The Euclidean norm `MVector::length`. -/
def length (v : MVector Double) : Double :=
  Double.sqrt (Double.add (Double.add (Double.mul v.x v.x) (Double.mul v.y v.y))
    (Double.mul v.z v.z))

/-- The in-place `MVector::normalize`: a vector of length zero is left unchanged. -/
def normalize (v : MVector Double) : MVector Double :=
  if Double.eq (length v) (Double.zero false) then v else vdiv v (length v)

/-- Returns true if the number is greater than or equal to zero, false otherwise. -/
def simple_sign (number : Double) : Bool := Double.ge number (Double.zero false)

/-- Tests two 2D points to see if the line segment they define crosses the
positive X-axis. -/
def edge_crosses_x_axis (p0 p1 : Point2d Double) : Bool :=
  if Double.eq p0.y (Double.zero false) && Double.eq p1.y (Double.zero false) then
    Double.gt p0.x (Double.zero false) || Double.gt p1.x (Double.zero false)
  else if simple_sign p0.y = simple_sign p1.y then
    false
  else if simple_sign p0.x && simple_sign p1.x then
    true
  else if !simple_sign p0.x && !simple_sign p1.x then
    false
  else
    let inv_slope := Double.div (Double.sub p1.x p0.x) (Double.sub p1.y p0.y)
    let x_int := Double.sub p0.x (Double.mul inv_slope p0.y)
    simple_sign x_int

/-- Set the three vertices that make up this triangle and store relevant
triangle information. -/
def set_vertices (new_v0 new_v1 new_v2 : WeightedVertex Double) : WeightedTriangle Double :=
  let p0 := new_v0.position
  let p1 := new_v1.position
  let p2 := new_v2.position
  let centroid : MPoint Double :=
    ⟨Double.zero false, Double.zero false, Double.zero false, Double.ofNat 1⟩
  let centroid := addVector centroid (toVector p0)
  let centroid := addVector centroid (toVector p1)
  let centroid := addVector centroid (toVector p2)
  let centroid := pdiv centroid (Double.ofNat 3)
  let e0 := psub p1 p0
  let e1 := psub p2 p0
  let normal := cross e0 e1
  let area_times_2 := length normal
  let normal := vdiv normal area_times_2
  let abs_normal : MVector Double :=
    ⟨Double.abs normal.x, Double.abs normal.y, Double.abs normal.z⟩
  let major_axis :=
    if Double.gt abs_normal.x abs_normal.y then
      if Double.gt abs_normal.x abs_normal.z then MajorAxis.X_AXIS
      else if Double.gt abs_normal.y abs_normal.z then MajorAxis.Y_AXIS
      else MajorAxis.Z_AXIS
    else
      if Double.gt abs_normal.y abs_normal.z then MajorAxis.Y_AXIS
      else MajorAxis.Z_AXIS
  { v0 := new_v0, v1 := new_v1, v2 := new_v2,
    centroid := centroid, normal := normal,
    major_axis := major_axis, area_times_2 := area_times_2,
    v0_2d := project_to_2d major_axis p0,
    v1_2d := project_to_2d major_axis p1,
    v2_2d := project_to_2d major_axis p2 }

/-- Calculates the barycentric coordinates of the sample point in this triangle. -/
def get_bary_coords (t : WeightedTriangle Double) (sample_point : MVector Double)
    (normalized : Bool) : MVector Double :=
  let e0 := vsub (toVector t.v0.position) sample_point
  let e1 := vsub (toVector t.v1.position) sample_point
  let e2 := vsub (toVector t.v2.position) sample_point
  let bx := Double.div (length (cross e2 e1)) t.area_times_2
  let by_ := Double.div (length (cross e0 e2)) t.area_times_2
  if normalized then
    ⟨bx, by_, Double.sub (Double.ofNat 1) (Double.add by_ bx)⟩
  else
    ⟨bx, by_, Double.div (length (cross e0 e1)) t.area_times_2⟩

/-- Calculates and returns the weights of this triangle at the specified
sample position. -/
def sample_weights (t : WeightedTriangle Double) (sample_point : MPoint Double) :
    Fin 4 → Double :=
  let bary_coords := get_bary_coords t (toVector sample_point) true
  fun i =>
    let w0 := Double.mul (t.v0.weights i) bary_coords.x
    let w1 := Double.mul (t.v1.weights i) bary_coords.y
    let w2 := Double.mul (t.v2.weights i) bary_coords.z
    Double.add (Double.add w0 w1) w2

/-- The value `cos_theta` of `point_is_on_plane`: the dot product of the
normalized direction from the centroid to the sample point and the normal. -/
def cos_theta (t : WeightedTriangle Double) (sample_point : MPoint Double) : Double :=
  let sample_direction := normalize (psub sample_point t.centroid)
  dot sample_direction t.normal

/-- Tests the sample point to see if it lies in the plane of the triangle. -/
def point_is_on_plane (t : WeightedTriangle Double) (sample_point : MPoint Double) : Bool :=
  Double.lt (Double.abs (cos_theta t sample_point)) EPSILON

/-- The sample point's projection subtracted from a projected vertex (`adj_v0`,
`adj_v1`, `adj_v2` of `point_is_inside`). -/
def adjust (v_2d sample_2d : Point2d Double) : Point2d Double :=
  ⟨Double.sub v_2d.x sample_2d.x, Double.sub v_2d.y sample_2d.y⟩

/-- The number of adjusted triangle edges that `point_is_inside` counts as
intersecting the positive X-axis (its local variable `intersections`). -/
def count_intersections (t : WeightedTriangle Double) (sample_point : MPoint Double) : Nat :=
  let sample_2d := project_to_2d t.major_axis sample_point
  let adj_v0 := adjust t.v0_2d sample_2d
  let adj_v1 := adjust t.v1_2d sample_2d
  let adj_v2 := adjust t.v2_2d sample_2d
  let intersections := 0
  let intersections :=
    if edge_crosses_x_axis adj_v0 adj_v1 then intersections + 1 else intersections
  let intersections :=
    if edge_crosses_x_axis adj_v1 adj_v2 then intersections + 1 else intersections
  let intersections :=
    if edge_crosses_x_axis adj_v0 adj_v2 then intersections + 1 else intersections
  intersections

/-- Performs a fast test of the sample point to see if it is inside this triangle. -/
def point_is_inside (t : WeightedTriangle Double) (sample_point : MPoint Double) : Bool :=
  if !point_is_on_plane t sample_point then false
  else decide (count_intersections t sample_point % 2 = 1)

/-- The value `total_area` of `point_is_inside_bary`: the sum of the three
unnormalized barycentric coordinates. -/
def total_area (t : WeightedTriangle Double) (sample_point : MPoint Double) : Double :=
  let bary_coords := get_bary_coords t (toVector sample_point) false
  Double.add (Double.add bary_coords.x bary_coords.y) bary_coords.z

/-- Tests the sample point to see if it is inside this triangle using
barycentric coordinates. -/
def point_is_inside_bary (t : WeightedTriangle Double) (sample_point : MPoint Double) : Bool :=
  Double.lt (Double.abs (Double.sub (Double.ofNat 1) (total_area t sample_point))) EPSILON

/-! ### Vocabulary and example data for the double embedding -/

/-- The double of an integer. -/
def int (z : Int) : Double := Double.round (decide (z < 0)) z.natAbs 1

/-- A vertex at the integer position `(x, y, z)` whose four weights all equal
the integer `d`. -/
def int_vertex (x y z d : Int) : WeightedVertex Double :=
  ⟨⟨int x, int y, int z, Double.ofNat 1⟩, ![int d, int d, int d, int d]⟩

/-- The exact position of a point with finite coordinates. -/
def exact (p : MPoint Double) : MPoint ℚ := ⟨p.x.toRat, p.y.toRat, p.z.toRat, p.w.toRat⟩

/-- The exact position of a 2D point with finite coordinates. -/
def exact2d (p : Point2d Double) : Point2d ℚ := ⟨p.x.toRat, p.y.toRat⟩

/-- All three coordinates of the vector are finite. -/
def FiniteVector (v : MVector Double) : Prop :=
  v.x.isFinite = true ∧ v.y.isFinite = true ∧ v.z.isFinite = true

/-- The component of a vector along an axis. -/
def axis_component (axis : MajorAxis) (n : MVector Double) : Double :=
  match axis with
  | MajorAxis.X_AXIS => n.x
  | MajorAxis.Y_AXIS => n.y
  | MajorAxis.Z_AXIS => n.z

end Fp

/-! ### Predicates and example data of the double embedding -/

/-- All three components are plus or minus zero. -/
def Fp.ZeroVector (v : MVector Double) : Prop := v.x.mag = 0 ∧ v.y.mag = 0 ∧ v.z.mag = 0

/-- A vertex at a position of doubles whose four weights all equal `d`. -/
def Fp.vertex (x y z d : Double) : WeightedVertex Double :=
  ⟨⟨x, y, z, Double.ofNat 1⟩, ![d, d, d, d]⟩

/-- The first vertex of the skew triangle: (-725, -478, 1.4) with weight 4. -/
def Fp.skew_p : WeightedVertex Double :=
  Fp.vertex (Fp.int (-725)) (Fp.int (-478)) (Double.ofRatio false 14 10) (Fp.int 4)

/-- The second vertex of the skew triangle: (-3.3, 205, -80.8) with weight 5. -/
def Fp.skew_q : WeightedVertex Double :=
  Fp.vertex (Double.ofRatio true 33 10) (Fp.int 205) (Double.ofRatio true 808 10) (Fp.int 5)

/-- The third vertex of the skew triangle: (-94.2, -114, 42.5) with weight 8. -/
def Fp.skew_r : WeightedVertex Double :=
  Fp.vertex (Double.ofRatio true 942 10) (Fp.int (-114)) (Double.ofRatio false 425 10) (Fp.int 8)

/-- The first thin triangle: (0,0,0), (153722261,153432378,0),
(461166782,460297133,0). -/
def Fp.thin_a : WeightedTriangle Double :=
  Fp.set_vertices (Fp.int_vertex 0 0 0 1) (Fp.int_vertex 153722261 153432378 0 2)
    (Fp.int_vertex 461166782 460297133 0 3)

/-- The value is a NaN or its sign bit is clear. -/
def Double.NotNegative (a : Double) : Prop := a.isNaN = true ∨ a.neg = false

/-- The second thin triangle: (0,0,0), (222330211,222286833,0),
(444660424,444573668,0). -/
def Fp.thin_b : WeightedTriangle Double :=
  Fp.set_vertices (Fp.int_vertex 0 0 0 1) (Fp.int_vertex 222330211 222286833 0 2)
    (Fp.int_vertex 444660424 444573668 0 3)

/-- The triangle (0,0,0), (6,0,0), (0,6,0). -/
def Fp.six_triangle : WeightedTriangle Double :=
  Fp.set_vertices (Fp.int_vertex 0 0 0 1) (Fp.int_vertex 6 0 0 2) (Fp.int_vertex 0 6 0 3)

/-- The triangle (0,0,0), (1,0,0), (2,0,0), whose vertices are collinear. -/
def Fp.flat_triangle : WeightedTriangle Double :=
  Fp.set_vertices (Fp.int_vertex 0 0 0 1) (Fp.int_vertex 1 0 0 2) (Fp.int_vertex 2 0 0 3)

end DoubleModel

/-! ## Theorems -/

section Theorems

variable {K : Type} [LinearOrderedField K]

/-! ### Linear scans -/

theorem linear_scan_eq_some_iff {α : Type} (test : α → Bool) (l : List α) (a : α) :
    linear_scan test l = some a ↔
      ∃ i, ∃ h : i < l.length, l.get ⟨i, h⟩ = a ∧ test a = true ∧
        ∀ j, ∀ hj : j < l.length, j < i → test (l.get ⟨j, hj⟩) = false := by
  induction l with
  | nil => simp [linear_scan]
  | cons b rest ih =>
    by_cases hb : test b = true
    · simp only [linear_scan, hb, if_true, Option.some.injEq]
      constructor
      · rintro rfl
        exact ⟨0, by simp, rfl, hb, fun j _ hj => absurd hj (Nat.not_lt_zero j)⟩
      · rintro ⟨i, hi, hget, _, hmin⟩
        cases i with
        | zero => simpa using hget
        | succ k =>
          have := hmin 0 (by simp) (Nat.succ_pos k)
          simp [hb] at this
    · have hb2 : test b = false := by simpa using hb
      simp only [linear_scan, hb2, Bool.false_eq_true, if_false, ih]
      constructor
      · rintro ⟨i, hi, hget, hta, hmin⟩
        refine ⟨i + 1, by simpa using hi, by simpa using hget, hta, ?_⟩
        intro j hj hji
        cases j with
        | zero => simpa using hb2
        | succ k => exact hmin k (by simpa using hj) (by omega)
      · rintro ⟨i, hi, hget, hta, hmin⟩
        cases i with
        | zero =>
          have hba : b = a := by simpa using hget
          rw [hba] at hb2
          rw [hb2] at hta
          cases hta
        | succ k =>
          refine ⟨k, by simpa using hi, by simpa using hget, hta, ?_⟩
          intro j hj hjk
          exact hmin (j + 1) (by simpa using hj) (by omega)

theorem linear_scan_eq_none_iff {α : Type} (test : α → Bool) (l : List α) :
    linear_scan test l = none ↔ ∀ a ∈ l, test a = false := by
  induction l with
  | nil => simp [linear_scan]
  | cons b rest ih =>
    by_cases hb : test b = true
    · simp [linear_scan, hb]
    · have hb2 : test b = false := by simpa using hb
      simp [linear_scan, hb2, ih]

theorem quad_polygon_eq (sqrt : K → K) :
    quad_polygon sqrt = some
      { face_index := 0,
        tris := [set_vertices sqrt (scalar_vertex 0 0 0 0) (scalar_vertex 1 0 0 1)
                   (scalar_vertex 1 1 0 1),
                 set_vertices sqrt (scalar_vertex 0 0 0 0) (scalar_vertex 1 1 0 1)
                   (scalar_vertex 0 1 0 0)],
        verts := [scalar_vertex 0 0 0 0, scalar_vertex 1 0 0 1, scalar_vertex 1 1 0 1,
                  scalar_vertex 0 1 0 0] } := by
  rfl

/-! ### Square roots and vector algebra -/

section Lemmas

variable {sqrt : K → K}

theorem IsSqrt.zero (h : IsSqrt sqrt) : sqrt 0 = 0 := by
  have := h.mul_self 0 le_rfl
  exact mul_self_eq_zero.mp this

theorem IsSqrt.sqrt_mul_self (h : IsSqrt sqrt) (x : K) : sqrt (x * x) = |x| := by
  have h1 := h.mul_self (x * x) (mul_self_nonneg x)
  have h2 := h.nonneg (x * x)
  have h3 : sqrt (x * x) * sqrt (x * x) = |x| * |x| := by rw [h1, abs_mul_abs_self]
  exact (mul_self_inj h2 (abs_nonneg x)).mp h3

theorem dot_normalize_eq_zero (sqrt : K → K) (v n : MVector K) (hz : MVector.dot v n = 0) :
    MVector.dot (MVector.normalize sqrt v) n = 0 := by
  unfold MVector.normalize
  split_ifs with hl
  · exact hz
  · have : MVector.dot (MVector.div v (MVector.length sqrt v)) n
        = MVector.dot v n / MVector.length sqrt v := by
      simp only [MVector.dot, MVector.div]; ring
    rw [this, hz, zero_div]

theorem point_is_on_plane_of_dot (sqrt : K → K) (a b c : WeightedVertex K) (p : MPoint K)
    (hz : MVector.dot (MPoint.sub p (set_vertices sqrt a b c).centroid)
      (MVector.cross (MPoint.sub b.position a.position) (MPoint.sub c.position a.position)) = 0) :
    point_is_on_plane sqrt (set_vertices sqrt a b c) p = true := by
  have hn : (set_vertices sqrt a b c).normal =
      MVector.div (MVector.cross (MPoint.sub b.position a.position)
        (MPoint.sub c.position a.position)) (set_vertices sqrt a b c).area_times_2 := rfl
  have hd : MVector.dot (MPoint.sub p (set_vertices sqrt a b c).centroid)
      (set_vertices sqrt a b c).normal = 0 := by
    rw [hn]
    have : ∀ (v n : MVector K) (s : K), MVector.dot v (MVector.div n s) = MVector.dot v n / s := by
      intro v n s; simp only [MVector.dot, MVector.div]; ring
    rw [this, hz, zero_div]
  simp [point_is_on_plane, dot_normalize_eq_zero sqrt _ _ hd, EPSILON]

/-! ### Edge crossings in the plane -/

theorem simple_sign_eq_true (x : K) : simple_sign x = true ↔ 0 ≤ x := by
  simp [simple_sign]

theorem simple_sign_eq_false (x : K) : simple_sign x = false ↔ x < 0 := by
  simp [simple_sign]

theorem x_intercept_eq (p q : Point2d K) (hd : q.y - p.y ≠ 0) :
    p.x - (q.x - p.x) / (q.y - p.y) * p.y = (p.x * q.y - q.x * p.y) / (q.y - p.y) := by
  field_simp
  ring

theorem div_nonneg_iff_mul_nonneg (n d : K) (hd : d ≠ 0) : 0 ≤ n / d ↔ 0 ≤ n * d := by
  have h2 : 0 < d * d := mul_self_pos.mpr hd
  have h3 : n / d = n * d / (d * d) := by
    field_simp
    ring
  rw [h3]
  constructor
  · intro h
    have := mul_nonneg h h2.le
    rwa [div_mul_cancel₀ _ (ne_of_gt h2)] at this
  · intro h
    exact div_nonneg h h2.le

theorem edge_crosses_x_axis_iff (p q : Point2d K) :
    edge_crosses_x_axis p q = true ↔
      (p.y = 0 ∧ q.y = 0 ∧ (0 < p.x ∨ 0 < q.x)) ∨
      (((p.y < 0 ∧ 0 ≤ q.y) ∨ (q.y < 0 ∧ 0 ≤ p.y)) ∧
        0 ≤ (p.x * q.y - q.x * p.y) * (q.y - p.y)) := by
  unfold edge_crosses_x_axis
  by_cases h0 : p.y = 0 ∧ q.y = 0
  · rw [if_pos h0]
    obtain ⟨hp, hq⟩ := h0
    simp [hp, hq]
  · rw [if_neg h0]
    rcases lt_or_le p.y 0 with hp | hp <;> rcases lt_or_le q.y 0 with hq | hq
    · have e1 := (simple_sign_eq_false p.y).mpr hp
      have e2 := (simple_sign_eq_false q.y).mpr hq
      simp only [e1, e2, if_true]
      constructor
      · intro h; cases h
      · rintro (⟨h1, _, _⟩ | ⟨(⟨_, h2⟩ | ⟨_, h2⟩), _⟩)
        · exact absurd h1 (ne_of_lt hp)
        · exact absurd hq (not_lt.mpr h2)
        · exact absurd hp (not_lt.mpr h2)
    · have e1 := (simple_sign_eq_false p.y).mpr hp
      have e2 := (simple_sign_eq_true q.y).mpr hq
      have hd : 0 < q.y - p.y := by linarith
      simp only [e1, e2, Bool.false_eq_true, if_false]
      by_cases hx0 : 0 ≤ p.x <;> by_cases hx1 : 0 ≤ q.x
      · simp only [(simple_sign_eq_true _).mpr hx0, (simple_sign_eq_true _).mpr hx1,
          Bool.and_self, if_true, true_iff]
        right
        refine ⟨Or.inl ⟨hp, hq⟩, ?_⟩
        have : 0 ≤ p.x * q.y - q.x * p.y := by nlinarith
        exact mul_nonneg this hd.le
      · have hx1' : q.x < 0 := not_le.mp hx1
        simp only [(simple_sign_eq_true _).mpr hx0, (simple_sign_eq_false _).mpr hx1',
          Bool.and_false, Bool.false_eq_true, if_false, Bool.not_true, Bool.not_false,
          Bool.false_and, simple_sign_eq_true]
        rw [x_intercept_eq p q (ne_of_gt hd), div_nonneg_iff_mul_nonneg _ _ (ne_of_gt hd)]
        constructor
        · intro h; exact Or.inr ⟨Or.inl ⟨hp, hq⟩, h⟩
        · rintro (⟨h1, _, _⟩ | ⟨_, h⟩)
          · exact absurd h1 (ne_of_lt hp)
          · exact h
      · have hx0' : p.x < 0 := not_le.mp hx0
        simp only [(simple_sign_eq_false _).mpr hx0', (simple_sign_eq_true _).mpr hx1,
          Bool.false_and, Bool.false_eq_true, if_false, Bool.not_true, Bool.not_false,
          Bool.and_false, simple_sign_eq_true]
        rw [x_intercept_eq p q (ne_of_gt hd), div_nonneg_iff_mul_nonneg _ _ (ne_of_gt hd)]
        constructor
        · intro h; exact Or.inr ⟨Or.inl ⟨hp, hq⟩, h⟩
        · rintro (⟨h1, _, _⟩ | ⟨_, h⟩)
          · exact absurd h1 (ne_of_lt hp)
          · exact h
      · have hx0' : p.x < 0 := not_le.mp hx0
        have hx1' : q.x < 0 := not_le.mp hx1
        simp only [(simple_sign_eq_false _).mpr hx0', (simple_sign_eq_false _).mpr hx1',
          Bool.and_self, Bool.false_eq_true, if_false, Bool.not_false, if_true, false_iff]
        rintro (⟨h1, _, _⟩ | ⟨_, h⟩)
        · exact absurd h1 (ne_of_lt hp)
        · have : p.x * q.y - q.x * p.y < 0 := by nlinarith
          have := mul_neg_of_neg_of_pos this hd
          exact absurd h (not_le.mpr this)
    · have e1 := (simple_sign_eq_true p.y).mpr hp
      have e2 := (simple_sign_eq_false q.y).mpr hq
      have hd : q.y - p.y < 0 := by linarith
      simp only [e1, e2, Bool.true_eq_false, if_false]
      by_cases hx0 : 0 ≤ p.x <;> by_cases hx1 : 0 ≤ q.x
      · simp only [(simple_sign_eq_true _).mpr hx0, (simple_sign_eq_true _).mpr hx1,
          Bool.and_self, if_true, true_iff]
        right
        refine ⟨Or.inr ⟨hq, hp⟩, ?_⟩
        have : p.x * q.y - q.x * p.y ≤ 0 := by nlinarith
        exact mul_nonneg_of_nonpos_of_nonpos this hd.le
      · have hx1' : q.x < 0 := not_le.mp hx1
        simp only [(simple_sign_eq_true _).mpr hx0, (simple_sign_eq_false _).mpr hx1',
          Bool.and_false, Bool.false_eq_true, if_false, Bool.not_true, Bool.not_false,
          Bool.false_and, simple_sign_eq_true]
        rw [x_intercept_eq p q (ne_of_lt hd), div_nonneg_iff_mul_nonneg _ _ (ne_of_lt hd)]
        constructor
        · intro h; exact Or.inr ⟨Or.inr ⟨hq, hp⟩, h⟩
        · rintro (⟨_, h1, _⟩ | ⟨_, h⟩)
          · exact absurd h1 (ne_of_lt hq)
          · exact h
      · have hx0' : p.x < 0 := not_le.mp hx0
        simp only [(simple_sign_eq_false _).mpr hx0', (simple_sign_eq_true _).mpr hx1,
          Bool.false_and, Bool.false_eq_true, if_false, Bool.not_true, Bool.not_false,
          Bool.and_false, simple_sign_eq_true]
        rw [x_intercept_eq p q (ne_of_lt hd), div_nonneg_iff_mul_nonneg _ _ (ne_of_lt hd)]
        constructor
        · intro h; exact Or.inr ⟨Or.inr ⟨hq, hp⟩, h⟩
        · rintro (⟨_, h1, _⟩ | ⟨_, h⟩)
          · exact absurd h1 (ne_of_lt hq)
          · exact h
      · have hx0' : p.x < 0 := not_le.mp hx0
        have hx1' : q.x < 0 := not_le.mp hx1
        simp only [(simple_sign_eq_false _).mpr hx0', (simple_sign_eq_false _).mpr hx1',
          Bool.and_self, Bool.false_eq_true, if_false, Bool.not_false, if_true, false_iff]
        rintro (⟨_, h1, _⟩ | ⟨_, h⟩)
        · exact absurd h1 (ne_of_lt hq)
        · have : 0 < p.x * q.y - q.x * p.y := by nlinarith
          have := mul_neg_of_pos_of_neg this hd
          exact absurd h (not_le.mpr this)
    · have e1 := (simple_sign_eq_true p.y).mpr hp
      have e2 := (simple_sign_eq_true q.y).mpr hq
      simp only [e1, e2, if_true]
      constructor
      · intro h; cases h
      · rintro (⟨h1, h2, _⟩ | ⟨(⟨h1, _⟩ | ⟨h1, _⟩), _⟩)
        · exact absurd ⟨h1, h2⟩ h0
        · exact absurd h1 (not_lt.mpr hp)
        · exact absurd h1 (not_lt.mpr hq)

/-! ### Triangles built by `set_vertices` -/

theorem count_intersections_eq (t : WeightedTriangle K) (p : MPoint K) :
    count_intersections t p =
      crossing_count (Point2d.sub t.v0_2d (project_to_2d t.major_axis p))
        (Point2d.sub t.v1_2d (project_to_2d t.major_axis p))
        (Point2d.sub t.v2_2d (project_to_2d t.major_axis p)) := by
  simp only [count_intersections, crossing_count, Point2d.sub]
  split_ifs <;> rfl

theorem point_is_inside_iff (sqrt : K → K) (t : WeightedTriangle K) (p : MPoint K) :
    point_is_inside sqrt t p = true ↔
      point_is_on_plane sqrt t p = true ∧ count_intersections t p % 2 = 1 := by
  unfold point_is_inside
  cases point_is_on_plane sqrt t p <;> simp

theorem major_axis_z_of_cross (sqrt : K → K) (a b c : WeightedVertex K)
    (hx : (MVector.cross (MPoint.sub b.position a.position)
      (MPoint.sub c.position a.position)).x = 0)
    (hy : (MVector.cross (MPoint.sub b.position a.position)
      (MPoint.sub c.position a.position)).y = 0) :
    (set_vertices sqrt a b c).major_axis = MajorAxis.Z_AXIS := by
  simp only [set_vertices, MVector.div, hx, hy, zero_div, abs_zero, gt_iff_lt, lt_irrefl,
    if_false]
  rw [if_neg (not_lt.mpr (abs_nonneg _))]

theorem real_isSqrt : IsSqrt Real.sqrt :=
  ⟨Real.sqrt_nonneg, fun _ hx => Real.mul_self_sqrt hx⟩

theorem count_intersections_of_major_axis (a b c : WeightedVertex K) (p : MPoint K)
    (m : MajorAxis) (hm : (set_vertices sqrt a b c).major_axis = m) :
    count_intersections (set_vertices sqrt a b c) p =
      crossing_count (Point2d.sub (project_to_2d m a.position) (project_to_2d m p))
        (Point2d.sub (project_to_2d m b.position) (project_to_2d m p))
        (Point2d.sub (project_to_2d m c.position) (project_to_2d m p)) := by
  rw [count_intersections_eq, ← hm]
  rfl

/-! ### The quad of the specification -/

theorem quad_noncollinear_second :
    NonCollinear (scalar_vertex (0 : K) 0 0 0).position (scalar_vertex (1 : K) 1 0 1).position
      (scalar_vertex (0 : K) 1 0 0).position := by
  simp [NonCollinear, MVector.cross, MPoint.sub, scalar_vertex]

theorem quad_area_second (h : IsSqrt sqrt) :
    (set_vertices sqrt (scalar_vertex (0 : K) 0 0 0) (scalar_vertex 1 1 0 1)
      (scalar_vertex 0 1 0 0)).area_times_2 = 1 := by
  have : (set_vertices sqrt (scalar_vertex (0 : K) 0 0 0) (scalar_vertex 1 1 0 1)
      (scalar_vertex 0 1 0 0)).area_times_2 = sqrt (1 * 1) := by
    simp [set_vertices, MVector.length, MVector.cross, MPoint.sub, scalar_vertex]
  rw [this, h.sqrt_mul_self, abs_one]

theorem quad_major_axis_first (sqrt : K → K) :
    (set_vertices sqrt (scalar_vertex (0 : K) 0 0 0) (scalar_vertex 1 0 0 1)
      (scalar_vertex 1 1 0 1)).major_axis = MajorAxis.Z_AXIS := by
  apply major_axis_z_of_cross <;> simp [MVector.cross, MPoint.sub, scalar_vertex]

theorem quad_major_axis_second (sqrt : K → K) :
    (set_vertices sqrt (scalar_vertex (0 : K) 0 0 0) (scalar_vertex 1 1 0 1)
      (scalar_vertex 0 1 0 0)).major_axis = MajorAxis.Z_AXIS := by
  apply major_axis_z_of_cross <;> simp [MVector.cross, MPoint.sub, scalar_vertex]

theorem quad_centre_first (sqrt : K → K) :
    point_is_inside sqrt (set_vertices sqrt (scalar_vertex (0 : K) 0 0 0) (scalar_vertex 1 0 0 1)
      (scalar_vertex 1 1 0 1)) ⟨1 / 2, 1 / 2, 0, 1⟩ = false := by
  rw [← Bool.not_eq_true, point_is_inside_iff,
    count_intersections_of_major_axis _ _ _ _ _ (quad_major_axis_first sqrt)]
  have : crossing_count
      (Point2d.sub (project_to_2d MajorAxis.Z_AXIS (scalar_vertex (0 : K) 0 0 0).position)
        (project_to_2d MajorAxis.Z_AXIS ⟨1 / 2, 1 / 2, 0, 1⟩))
      (Point2d.sub (project_to_2d MajorAxis.Z_AXIS (scalar_vertex (1 : K) 0 0 1).position)
        (project_to_2d MajorAxis.Z_AXIS ⟨1 / 2, 1 / 2, 0, 1⟩))
      (Point2d.sub (project_to_2d MajorAxis.Z_AXIS (scalar_vertex (1 : K) 1 0 1).position)
        (project_to_2d MajorAxis.Z_AXIS ⟨1 / 2, 1 / 2, 0, 1⟩)) = 2 := by
    norm_num [crossing_count, edge_crosses_x_axis, simple_sign, Point2d.sub, project_to_2d,
      scalar_vertex]
  rw [this]
  simp

theorem quad_centre_second (sqrt : K → K) :
    point_is_inside sqrt (set_vertices sqrt (scalar_vertex (0 : K) 0 0 0) (scalar_vertex 1 1 0 1)
      (scalar_vertex 0 1 0 0)) ⟨1 / 2, 1 / 2, 0, 1⟩ = true := by
  rw [point_is_inside_iff,
    count_intersections_of_major_axis _ _ _ _ _ (quad_major_axis_second sqrt)]
  constructor
  · apply point_is_on_plane_of_dot
    simp [set_vertices, MVector.dot, MVector.cross, MPoint.sub, MPoint.div, MPoint.addVector,
      MPoint.toVector, scalar_vertex]
  · norm_num [crossing_count, edge_crosses_x_axis, simple_sign, Point2d.sub, project_to_2d,
      scalar_vertex]

theorem length_sq_eq (sqrt : K → K) (v : MVector K) (s : K)
    (hs : v.x * v.x + v.y * v.y + v.z * v.z = s * s) :
    MVector.length sqrt v = sqrt (s * s) := by
  unfold MVector.length
  rw [hs]

theorem quad_bary_second (h : IsSqrt sqrt) :
    get_bary_coords sqrt (set_vertices sqrt (scalar_vertex (0 : K) 0 0 0) (scalar_vertex 1 1 0 1)
      (scalar_vertex 0 1 0 0)) (MPoint.toVector ⟨1 / 2, 1 / 2, 0, 1⟩) true = ⟨1 / 2, 1 / 2, 0⟩ := by
  have hv0 : (set_vertices sqrt (scalar_vertex (0 : K) 0 0 0) (scalar_vertex 1 1 0 1)
      (scalar_vertex 0 1 0 0)).v0 = scalar_vertex 0 0 0 0 := rfl
  have hv1 : (set_vertices sqrt (scalar_vertex (0 : K) 0 0 0) (scalar_vertex 1 1 0 1)
      (scalar_vertex 0 1 0 0)).v1 = scalar_vertex 1 1 0 1 := rfl
  have hv2 : (set_vertices sqrt (scalar_vertex (0 : K) 0 0 0) (scalar_vertex 1 1 0 1)
      (scalar_vertex 0 1 0 0)).v2 = scalar_vertex 0 1 0 0 := rfl
  have hhalf : sqrt ((1 / 2) * (1 / 2)) = 1 / 2 := by
    rw [h.sqrt_mul_self, abs_of_pos]; norm_num
  have l1 : MVector.length sqrt (MVector.cross
      (MVector.sub (MPoint.toVector (scalar_vertex (0 : K) 1 0 0).position)
        (MPoint.toVector ⟨1 / 2, 1 / 2, 0, 1⟩))
      (MVector.sub (MPoint.toVector (scalar_vertex (1 : K) 1 0 1).position)
        (MPoint.toVector ⟨1 / 2, 1 / 2, 0, 1⟩))) = 1 / 2 := by
    rw [length_sq_eq sqrt _ (1 / 2), hhalf]
    simp only [MVector.cross, MVector.sub, MPoint.toVector, scalar_vertex]
    norm_num
  have l2 : MVector.length sqrt (MVector.cross
      (MVector.sub (MPoint.toVector (scalar_vertex (0 : K) 0 0 0).position)
        (MPoint.toVector ⟨1 / 2, 1 / 2, 0, 1⟩))
      (MVector.sub (MPoint.toVector (scalar_vertex (0 : K) 1 0 0).position)
        (MPoint.toVector ⟨1 / 2, 1 / 2, 0, 1⟩))) = 1 / 2 := by
    rw [length_sq_eq sqrt _ (1 / 2), hhalf]
    simp only [MVector.cross, MVector.sub, MPoint.toVector, scalar_vertex]
    norm_num
  simp only [get_bary_coords, hv0, hv1, hv2, l1, l2, quad_area_second h, if_true]
  norm_num

end Lemmas

/-! ### Surface query dispatch -/

/-- C1: `sample_mesh` resolves the closest point on the polygon of the face
index that the intersector reports; on every polygon and at every point the
output is the stored weights of the vertex `get_matching_vertex` returns when it
returns one, and otherwise `sample_weights` at the point for the triangle that
`get_intersected_triangle` returns. -/
theorem sample_mesh_dispatch (sqrt : K → K) (getClosestPoint : MPoint K → Nat × MPoint K)
    (xform : MPoint K → MPoint K) (weighted_polys : List (WeightedPolygon K))
    (sample_point : MPoint K) :
    (∀ (poly : WeightedPolygon K) (point : MPoint K),
      sample_polygon sqrt poly point =
        match get_matching_vertex poly point with
        | some v => some v.weights
        | none => (get_intersected_triangle sqrt poly point).map
            (fun tri => sample_weights sqrt tri point)) ∧
    sample_mesh sqrt getClosestPoint xform weighted_polys sample_point =
      (weighted_polys[(getClosestPoint sample_point).1]?).bind
        (fun poly => sample_polygon sqrt poly (xform (getClosestPoint sample_point).2)) := by
  constructor
  · intro poly point
    unfold sample_polygon
    cases get_matching_vertex poly point with
    | some v => rfl
    | none =>
      cases get_intersected_triangle sqrt poly point with
      | some tri => rfl
      | none => rfl
  · simp only [sample_mesh]
    cases h : weighted_polys[(getClosestPoint sample_point).1]? with
    | some poly => rfl
    | none => rfl

/-- C3: on face 0 of the quad the point (1,0,0) takes the vertex-match branch.
`get_matching_vertex` returns the vertex with index 1, in the mesh and in the
list of the polygon, the output
is the copy of its weights, 1 in every channel, and it is the same whatever the
triangle list of the polygon is, so no triangle is sampled. -/
theorem quad_query_at_vertex (sqrt : K → K) :
    (build_vertices (quad_mesh : WeightedMesh K) quad_positions 0).bind (fun all_verts =>
      all_verts[1]?) = some (scalar_vertex 1 0 0 1) ∧
    ∃ poly : WeightedPolygon K, quad_polygon sqrt = some poly ∧
      poly.verts[1]? = some (scalar_vertex 1 0 0 1) ∧
      get_matching_vertex poly ⟨1, 0, 0, 1⟩ = some (scalar_vertex 1 0 0 1) ∧
      ∀ tris : List (WeightedTriangle K), ∃ out : Fin 4 → K,
        sample_polygon sqrt { poly with tris := tris } ⟨1, 0, 0, 1⟩ = some out ∧
        out = WeightedVertex.copy_weights (scalar_vertex 1 0 0 1) ∧ ∀ i, out i = 1 := by
  have hm : ∀ tris : List (WeightedTriangle K),
      get_matching_vertex
        ({ face_index := 0, tris := tris,
           verts := [scalar_vertex 0 0 0 0, scalar_vertex 1 0 0 1, scalar_vertex 1 1 0 1,
                     scalar_vertex 0 1 0 0] } : WeightedPolygon K) ⟨1, 0, 0, 1⟩
        = some (scalar_vertex 1 0 0 1) := by
    intro tris
    simp [get_matching_vertex, linear_scan, WeightedVertex.equals_position, MPoint.sub,
      scalar_vertex, EPSILON]
    norm_num
  refine ⟨rfl, _, quad_polygon_eq sqrt, rfl, hm _, ?_⟩
  intro tris
  refine ⟨WeightedVertex.copy_weights (scalar_vertex 1 0 0 1), ?_, rfl, ?_⟩
  · simp only [sample_polygon, hm tris]
  · intro i
    fin_cases i <;> simp [WeightedVertex.copy_weights, scalar_vertex]

/-! ### Vertex matching -/

/-- C9 fails as stated: in the thin polygon, which `update_triangles` builds
from the stream 0, 1, 2, the vertex at index 1 satisfies
`equals_position` at its own position, but the query there returns the weights of
the vertex at index 0, which is also within 1e-5. -/
theorem matching_vertex_not_the_given_one :
    update_triangles Real.sqrt 0 1 0 [0, 1, 2]
      [scalar_vertex 0 0 0 0, scalar_vertex (1 / 1000000) 0 0 1, scalar_vertex 0 1 0 0]
      = some (thin_polygon Real.sqrt) ∧
    scalar_vertex (1 / 1000000) 0 0 1 ∈ (thin_polygon Real.sqrt).verts ∧
    WeightedVertex.equals_position (scalar_vertex (1 / 1000000 : ℝ) 0 0 1)
      ⟨1 / 1000000, 0, 0, 1⟩ = true ∧
    sample_polygon Real.sqrt (thin_polygon Real.sqrt) ⟨1 / 1000000, 0, 0, 1⟩ =
      some (WeightedVertex.copy_weights (scalar_vertex 0 0 0 0)) ∧
    sample_polygon Real.sqrt (thin_polygon Real.sqrt) ⟨1 / 1000000, 0, 0, 1⟩ ≠
      some (WeightedVertex.copy_weights (scalar_vertex (1 / 1000000) 0 0 1)) := by
  have hs : sample_polygon Real.sqrt (thin_polygon Real.sqrt) ⟨1 / 1000000, 0, 0, 1⟩ =
      some (WeightedVertex.copy_weights (scalar_vertex 0 0 0 0)) := by
    simp [sample_polygon, thin_polygon, get_matching_vertex, linear_scan,
      WeightedVertex.equals_position, MPoint.sub, scalar_vertex, EPSILON]
    norm_num [abs_lt]
  refine ⟨rfl, by simp [thin_polygon], ?_, hs, ?_⟩
  · simp [WeightedVertex.equals_position, MPoint.sub, scalar_vertex, EPSILON]
  · rw [hs]
    intro h
    have h0 := congrFun (Option.some.inj h) 0
    simp [WeightedVertex.copy_weights, scalar_vertex] at h0

/-- C9 amended: when a vertex `v` of the polygon satisfies `equals_position(p)`,
resolving `p` returns the copied weights of the lowest-index vertex of the list
that satisfies `equals_position(p)`; these are the weights of `v` whenever every
vertex of the list that satisfies `equals_position(p)` carries the weights of `v`. -/
theorem matching_vertex_weights (sqrt : K → K) (poly : WeightedPolygon K)
    (v : WeightedVertex K) (p : MPoint K) (hmem : v ∈ poly.verts)
    (hv : WeightedVertex.equals_position v p = true) :
    (∃ i, ∃ h : i < poly.verts.length,
      WeightedVertex.equals_position (poly.verts.get ⟨i, h⟩) p = true ∧
      (∀ j, ∀ hj : j < poly.verts.length, j < i →
        WeightedVertex.equals_position (poly.verts.get ⟨j, hj⟩) p = false) ∧
      sample_polygon sqrt poly p =
        some (WeightedVertex.copy_weights (poly.verts.get ⟨i, h⟩))) ∧
    ((∀ u ∈ poly.verts, WeightedVertex.equals_position u p = true → u.weights = v.weights) →
      sample_polygon sqrt poly p = some (WeightedVertex.copy_weights v)) := by
  have hne : get_matching_vertex poly p ≠ none := by
    intro hnone
    unfold get_matching_vertex at hnone
    rw [linear_scan_eq_none_iff] at hnone
    have := hnone v hmem
    rw [hv] at this
    cases this
  obtain ⟨u, hu⟩ := Option.ne_none_iff_exists'.mp hne
  have hu2 := hu
  unfold get_matching_vertex at hu2
  rw [linear_scan_eq_some_iff] at hu2
  obtain ⟨i, h, hget, hti, hmin⟩ := hu2
  have hsample : sample_polygon sqrt poly p = some (WeightedVertex.copy_weights u) := by
    simp only [sample_polygon, hu]
  constructor
  · refine ⟨i, h, ?_, hmin, ?_⟩
    · rw [hget]; exact hti
    · rw [hget]; exact hsample
  · intro hall
    have hw : u.weights = v.weights :=
      hall u (by rw [← hget]; exact List.get_mem _ _ _) hti
    rw [hsample]
    unfold WeightedVertex.copy_weights
    rw [hw]

/-- The hypotheses hold in the thin polygon for its corner (0,1,0), queried at its
own position. -/
theorem matching_vertex_weights_witness :
    (scalar_vertex 0 1 0 0 ∈ (thin_polygon Rat.sqrt).verts ∧
      WeightedVertex.equals_position (scalar_vertex (0 : ℚ) 1 0 0) ⟨0, 1, 0, 1⟩ = true) ∧
    ((∃ i, ∃ h : i < (thin_polygon Rat.sqrt).verts.length,
      WeightedVertex.equals_position ((thin_polygon Rat.sqrt).verts.get ⟨i, h⟩)
        ⟨0, 1, 0, 1⟩ = true ∧
      (∀ j, ∀ hj : j < (thin_polygon Rat.sqrt).verts.length, j < i →
        WeightedVertex.equals_position ((thin_polygon Rat.sqrt).verts.get ⟨j, hj⟩)
          ⟨0, 1, 0, 1⟩ = false) ∧
      sample_polygon Rat.sqrt (thin_polygon Rat.sqrt) ⟨0, 1, 0, 1⟩ =
        some (WeightedVertex.copy_weights ((thin_polygon Rat.sqrt).verts.get ⟨i, h⟩))) ∧
    ((∀ u ∈ (thin_polygon Rat.sqrt).verts,
        WeightedVertex.equals_position u ⟨0, 1, 0, 1⟩ = true →
          u.weights = (scalar_vertex (0 : ℚ) 1 0 0).weights) →
      sample_polygon Rat.sqrt (thin_polygon Rat.sqrt) ⟨0, 1, 0, 1⟩ =
        some (WeightedVertex.copy_weights (scalar_vertex 0 1 0 0)))) :=
  ⟨⟨by simp [thin_polygon], by
      simp [WeightedVertex.equals_position, MPoint.sub, scalar_vertex, EPSILON]⟩,
    matching_vertex_weights Rat.sqrt (thin_polygon Rat.sqrt) (scalar_vertex 0 1 0 0)
      ⟨0, 1, 0, 1⟩ (by simp [thin_polygon])
      (by simp [WeightedVertex.equals_position, MPoint.sub, scalar_vertex, EPSILON])⟩

/-! ### The fast containment test at a vertex -/

/-- C6 fails as stated: the triangle (0,0,0), (1,1,0), (0,1,0), the second
triangle of the quad, has non-collinear vertices, and `point_is_inside` at its
own vertex (0,0,0) is false: both other vertices project strictly above the
vertex, and no edge is counted, in exact arithmetic and in double arithmetic. -/
theorem vertex_outside_fast_test :
    NonCollinear (scalar_vertex (0 : ℝ) 0 0 0).position (scalar_vertex (1 : ℝ) 1 0 1).position
      (scalar_vertex (0 : ℝ) 1 0 0).position ∧
    count_intersections
      (set_vertices Real.sqrt (scalar_vertex 0 0 0 0) (scalar_vertex 1 1 0 1)
        (scalar_vertex 0 1 0 0)) (scalar_vertex (0 : ℝ) 0 0 0).position = 0 ∧
    point_is_inside Real.sqrt
      (set_vertices Real.sqrt (scalar_vertex 0 0 0 0) (scalar_vertex 1 1 0 1)
        (scalar_vertex 0 1 0 0)) (scalar_vertex (0 : ℝ) 0 0 0).position = false ∧
    Fp.count_intersections
      (Fp.set_vertices (Fp.int_vertex 0 0 0 0) (Fp.int_vertex 1 1 0 1) (Fp.int_vertex 0 1 0 0))
      (Fp.int_vertex 0 0 0 0).position = 0 ∧
    Fp.point_is_inside
      (Fp.set_vertices (Fp.int_vertex 0 0 0 0) (Fp.int_vertex 1 1 0 1) (Fp.int_vertex 0 1 0 0))
      (Fp.int_vertex 0 0 0 0).position = false := by
  have hc : count_intersections
      (set_vertices Real.sqrt (scalar_vertex 0 0 0 0) (scalar_vertex 1 1 0 1)
        (scalar_vertex 0 1 0 0)) (scalar_vertex (0 : ℝ) 0 0 0).position = 0 := by
    rw [count_intersections_of_major_axis _ _ _ _ _ (quad_major_axis_second Real.sqrt)]
    norm_num [crossing_count, edge_crosses_x_axis, simple_sign, Point2d.sub, project_to_2d,
      scalar_vertex]
  refine ⟨quad_noncollinear_second, hc, ?_, by decide!, by decide!⟩
  rw [← Bool.not_eq_true, point_is_inside_iff, hc]
  simp

/-! ### The quad scenario -/

/-- C2: on face 0 of the quad the point (0.5,0.5,0) matches no vertex,
`get_intersected_triangle` returns the triangle (0,2,3), and the sampled output
is 0.5 in each of the 4 channels. -/
theorem quad_query_at_centre (sqrt : K → K) (h : IsSqrt sqrt) :
    ∃ poly : WeightedPolygon K, quad_polygon sqrt = some poly ∧
      get_matching_vertex poly ⟨1 / 2, 1 / 2, 0, 1⟩ = none ∧
      get_intersected_triangle sqrt poly ⟨1 / 2, 1 / 2, 0, 1⟩ =
        some (set_vertices sqrt (scalar_vertex 0 0 0 0) (scalar_vertex 1 1 0 1)
          (scalar_vertex 0 1 0 0)) ∧
      ∃ out : Fin 4 → K, sample_polygon sqrt poly ⟨1 / 2, 1 / 2, 0, 1⟩ = some out ∧
        ∀ i, out i = 1 / 2 := by
  have hmatch : get_matching_vertex
      ({ face_index := 0,
         tris := [set_vertices sqrt (scalar_vertex 0 0 0 0) (scalar_vertex 1 0 0 1)
                    (scalar_vertex 1 1 0 1),
                  set_vertices sqrt (scalar_vertex 0 0 0 0) (scalar_vertex 1 1 0 1)
                    (scalar_vertex 0 1 0 0)],
         verts := [scalar_vertex 0 0 0 0, scalar_vertex 1 0 0 1, scalar_vertex 1 1 0 1,
                   scalar_vertex 0 1 0 0] } : WeightedPolygon K) ⟨1 / 2, 1 / 2, 0, 1⟩
      = none := by
    simp [get_matching_vertex, linear_scan, WeightedVertex.equals_position, MPoint.sub,
      scalar_vertex, EPSILON]
    norm_num [abs_lt]
  have htri : get_intersected_triangle sqrt
      ({ face_index := 0,
         tris := [set_vertices sqrt (scalar_vertex 0 0 0 0) (scalar_vertex 1 0 0 1)
                    (scalar_vertex 1 1 0 1),
                  set_vertices sqrt (scalar_vertex 0 0 0 0) (scalar_vertex 1 1 0 1)
                    (scalar_vertex 0 1 0 0)],
         verts := [scalar_vertex 0 0 0 0, scalar_vertex 1 0 0 1, scalar_vertex 1 1 0 1,
                   scalar_vertex 0 1 0 0] } : WeightedPolygon K) ⟨1 / 2, 1 / 2, 0, 1⟩
      = some (set_vertices sqrt (scalar_vertex 0 0 0 0) (scalar_vertex 1 1 0 1)
          (scalar_vertex 0 1 0 0)) := by
    simp only [get_intersected_triangle, linear_scan, quad_centre_first sqrt,
      quad_centre_second sqrt, Bool.false_eq_true, if_false, if_true]
  refine ⟨_, quad_polygon_eq sqrt, hmatch, htri, ?_⟩
  refine ⟨sample_weights sqrt (set_vertices sqrt (scalar_vertex 0 0 0 0) (scalar_vertex 1 1 0 1)
    (scalar_vertex 0 1 0 0)) ⟨1 / 2, 1 / 2, 0, 1⟩, by simp only [sample_polygon, hmatch, htri], ?_⟩
  intro i
  have hv0 : (set_vertices sqrt (scalar_vertex (0 : K) 0 0 0) (scalar_vertex 1 1 0 1)
      (scalar_vertex 0 1 0 0)).v0 = scalar_vertex 0 0 0 0 := rfl
  have hv1 : (set_vertices sqrt (scalar_vertex (0 : K) 0 0 0) (scalar_vertex 1 1 0 1)
      (scalar_vertex 0 1 0 0)).v1 = scalar_vertex 1 1 0 1 := rfl
  have hv2 : (set_vertices sqrt (scalar_vertex (0 : K) 0 0 0) (scalar_vertex 1 1 0 1)
      (scalar_vertex 0 1 0 0)).v2 = scalar_vertex 0 1 0 0 := rfl
  simp only [sample_weights, quad_bary_second h, hv0, hv1, hv2]
  fin_cases i <;> simp [scalar_vertex]

/-- The square root of the reals is an exact square root, so the quad scenario
holds over the reals. -/
theorem quad_query_at_centre_witness :
    IsSqrt Real.sqrt ∧
    ∃ poly : WeightedPolygon ℝ, quad_polygon Real.sqrt = some poly ∧
      get_matching_vertex poly ⟨1 / 2, 1 / 2, 0, 1⟩ = none ∧
      get_intersected_triangle Real.sqrt poly ⟨1 / 2, 1 / 2, 0, 1⟩ =
        some (set_vertices Real.sqrt (scalar_vertex 0 0 0 0) (scalar_vertex 1 1 0 1)
          (scalar_vertex 0 1 0 0)) ∧
      ∃ out : Fin 4 → ℝ, sample_polygon Real.sqrt poly ⟨1 / 2, 1 / 2, 0, 1⟩ = some out ∧
        ∀ i, out i = 1 / 2 :=
  ⟨real_isSqrt, quad_query_at_centre Real.sqrt real_isSqrt⟩

/-! ### Building polygons and the weight source -/

theorem linear_scan_mem {α : Type} (test : α → Bool) (l : List α) (a : α)
    (h : linear_scan test l = some a) : a ∈ l := by
  rw [linear_scan_eq_some_iff] at h
  obtain ⟨i, hi, hget, _⟩ := h
  rw [← hget]
  exact List.get_mem _ _ _

theorem append_if_unique_fst (u : List Nat) (k : Nat) :
    (append_if_unique u k).1 = if k ∈ u then u else u ++ [k] := by
  unfold append_if_unique
  by_cases h : k ∈ u
  · have : (u.any fun a => a == k) = true := by
      simp only [List.any_eq_true, beq_iff_eq]
      exact ⟨k, h, rfl⟩
    simp [this, h]
  · have : ¬ ((u.any fun a => a == k) = true) := by
      simp only [List.any_eq_true, beq_iff_eq, not_exists, not_and]
      intro x hx hxk
      exact h (hxk ▸ hx)
    simp [this, h]

theorem unique_fold_nil (u : List Nat) : unique_fold u [] = u := rfl

theorem unique_fold_cons (u : List Nat) (k : Nat) (l : List Nat) :
    unique_fold u (k :: l) = unique_fold (append_if_unique u k).1 l := rfl

theorem unique_fold_append (u l1 l2 : List Nat) :
    unique_fold u (l1 ++ l2) = unique_fold (unique_fold u l1) l2 := by
  unfold unique_fold
  rw [List.foldl_append]

theorem unique_fold_concat (l : List Nat) (k : Nat) :
    unique_fold [] (l ++ [k]) =
      if k ∈ unique_fold [] l then unique_fold [] l else unique_fold [] l ++ [k] := by
  rw [unique_fold_append, unique_fold_cons, unique_fold_nil, append_if_unique_fst]

theorem unique_fold_spec (l : List Nat) :
    (unique_fold [] l).Nodup ∧ (∀ k, k ∈ unique_fold [] l ↔ k ∈ l) ∧
    (unique_fold [] l).Pairwise (fun a b => l.indexOf a < l.indexOf b) ∧
    (unique_fold [] l).length ≤ l.length := by
  induction l using List.reverseRecOn with
  | nil => simp [unique_fold]
  | append_singleton l k ih =>
    obtain ⟨hnd, hmem, hord, hlen⟩ := ih
    rw [unique_fold_concat]
    have hmono : (unique_fold [] l).Pairwise
        (fun a b => (l ++ [k]).indexOf a < (l ++ [k]).indexOf b) := by
      rw [List.pairwise_iff_forall_sublist] at hord ⊢
      intro a b hab
      have ha : a ∈ l := (hmem a).mp (hab.subset (by simp))
      have hb : b ∈ l := (hmem b).mp (hab.subset (by simp))
      rw [List.indexOf_append_of_mem ha, List.indexOf_append_of_mem hb]
      exact hord hab
    by_cases hk : k ∈ unique_fold [] l
    · rw [if_pos hk]
      refine ⟨hnd, ?_, hmono, ?_⟩
      · intro k'
        rw [hmem, List.mem_append, List.mem_singleton]
        constructor
        · intro h; exact Or.inl h
        · rintro (h | h)
          · exact h
          · rw [h]; exact (hmem k).mp hk
      · rw [List.length_append]; omega
    · rw [if_neg hk]
      have hkl : k ∉ l := fun h => hk ((hmem k).mpr h)
      refine ⟨?_, ?_, ?_, ?_⟩
      · rw [List.nodup_append]
        refine ⟨hnd, List.nodup_singleton k, ?_⟩
        intro a ha hak
        rw [List.mem_singleton] at hak
        exact hk (hak ▸ ha)
      · intro k'
        simp only [List.mem_append, List.mem_singleton, hmem]
      · rw [List.pairwise_append]
        refine ⟨hmono, List.pairwise_singleton _ _, ?_⟩
        intro a ha b hb
        rw [List.mem_singleton] at hb
        have hal : a ∈ l := (hmem a).mp ha
        rw [hb, List.indexOf_append_of_mem hal, List.indexOf_append_of_not_mem hkl]
        have := List.indexOf_lt_length.mpr hal
        omega
      · simp only [List.length_append, List.length_singleton]; omega

theorem drop_take_three (stream : List Nat) (start n i0 i1 i2 : Nat)
    (h0 : stream[start]? = some i0) (h1 : stream[start + 1]? = some i1)
    (h2 : stream[start + 2]? = some i2) :
    (stream.drop start).take (3 * (n + 1)) =
      i0 :: i1 :: i2 :: (stream.drop (start + 3)).take (3 * n) := by
  obtain ⟨l0, e0⟩ := List.getElem?_eq_some_iff.mp h0
  obtain ⟨l1, e1⟩ := List.getElem?_eq_some_iff.mp h1
  obtain ⟨l2, e2⟩ := List.getElem?_eq_some_iff.mp h2
  rw [List.drop_eq_getElem_cons l0, List.drop_eq_getElem_cons l1, List.drop_eq_getElem_cons l2,
    e0, e1, e2]
  have : 3 * (n + 1) = 3 * n + 1 + 1 + 1 := by ring
  rw [this, List.take_succ_cons, List.take_succ_cons, List.take_succ_cons]

theorem update_triangles_loop_spec (sqrt : K → K) (stream : List Nat)
    (all_verts : List (WeightedVertex K)) :
    ∀ (n start : Nat) (tris0 : List (WeightedTriangle K)) (uniq0 : List Nat)
      (tris : List (WeightedTriangle K)) (uniq : List Nat),
      update_triangles_loop sqrt stream all_verts n start tris0 uniq0 = some (tris, uniq) →
      uniq = unique_fold uniq0 ((stream.drop start).take (3 * n)) ∧
      ∃ new_tris, tris = tris0 ++ new_tris ∧ new_tris.length = n ∧
        ∀ j, j < n → ∃ k0 k1 k2 v0 v1 v2,
          stream[start + 3 * j]? = some k0 ∧ stream[start + 3 * j + 1]? = some k1 ∧
          stream[start + 3 * j + 2]? = some k2 ∧
          all_verts[k0]? = some v0 ∧ all_verts[k1]? = some v1 ∧ all_verts[k2]? = some v2 ∧
          new_tris[j]? = some (set_vertices sqrt v0 v1 v2) := by
  intro n
  induction n with
  | zero =>
    intro start tris0 uniq0 tris uniq h
    simp only [update_triangles_loop, Option.some.injEq, Prod.mk.injEq] at h
    obtain ⟨h1, h2⟩ := h
    refine ⟨by simp [unique_fold, h2], [], by simp [h1], rfl, ?_⟩
    intro j hj
    exact absurd hj (Nat.not_lt_zero j)
  | succ n ih =>
    intro start tris0 uniq0 tris uniq h
    simp only [update_triangles_loop, Option.bind_eq_bind, Option.bind_eq_some] at h
    obtain ⟨i0, h0, i1, h1, i2, h2, v0, hv0, v1, hv1, v2, hv2, hrec⟩ := h
    obtain ⟨hu, new_tris, ht, hl, hall⟩ := ih _ _ _ _ _ hrec
    refine ⟨?_, set_vertices sqrt v0 v1 v2 :: new_tris, ?_, ?_, ?_⟩
    · rw [hu, drop_take_three stream start n i0 i1 i2 h0 h1 h2]
      rfl
    · rw [ht, List.append_assoc]; rfl
    · simp [hl]
    · intro j hj
      cases j with
      | zero =>
        exact ⟨i0, i1, i2, v0, v1, v2, by simpa using h0, by simpa using h1, by simpa using h2,
          hv0, hv1, hv2, by simp⟩
      | succ j =>
        obtain ⟨k0, k1, k2, w0, w1, w2, e0, e1, e2, f0, f1, f2, g⟩ := hall j (by omega)
        refine ⟨k0, k1, k2, w0, w1, w2, ?_, ?_, ?_, f0, f1, f2, ?_⟩
        · rw [← e0]; congr 1; ring
        · rw [← e1]; congr 1; ring
        · rw [← e2]; congr 1; ring
        · simpa using g

theorem update_triangles_loop_total (sqrt : K → K) (stream : List Nat)
    (all_verts : List (WeightedVertex K)) :
    ∀ (n start : Nat) (tris0 : List (WeightedTriangle K)) (uniq0 : List Nat),
      start + 3 * n ≤ stream.length →
      (∀ k ∈ (stream.drop start).take (3 * n), k < all_verts.length) →
      ∃ r, update_triangles_loop sqrt stream all_verts n start tris0 uniq0 = some r := by
  intro n
  induction n with
  | zero =>
    intro start tris0 uniq0 _ _
    exact ⟨_, rfl⟩
  | succ n ih =>
    intro start tris0 uniq0 hlen hidx
    have l0 : start < stream.length := by omega
    have l1 : start + 1 < stream.length := by omega
    have l2 : start + 2 < stream.length := by omega
    have h0 := List.getElem?_eq_getElem l0
    have h1 := List.getElem?_eq_getElem l1
    have h2 := List.getElem?_eq_getElem l2
    rw [drop_take_three stream start n _ _ _ h0 h1 h2] at hidx
    have b0 : stream[start] < all_verts.length := hidx _ (by simp)
    have b1 : stream[start + 1] < all_verts.length := hidx _ (by simp)
    have b2 : stream[start + 2] < all_verts.length := hidx _ (by simp)
    obtain ⟨r, hr⟩ := ih (start + 3) (tris0 ++ [set_vertices sqrt all_verts[stream[start]]
        all_verts[stream[start + 1]] all_verts[stream[start + 2]]])
      (append_if_unique (append_if_unique (append_if_unique uniq0 stream[start]).1
        stream[start + 1]).1 stream[start + 2]).1 (by omega)
      (fun k hk => hidx k (by simp [hk]))
    refine ⟨r, ?_⟩
    simp only [update_triangles_loop, Option.bind_eq_bind, Option.bind_eq_some]
    exact ⟨_, h0, _, h1, _, h2, _, List.getElem?_eq_getElem b0, _, List.getElem?_eq_getElem b1,
      _, List.getElem?_eq_getElem b2, hr⟩

theorem mapM_option_eq_some {α β : Type} (f : α → Option β) :
    ∀ (l : List α) (r : List β), l.mapM f = some r ↔ List.Forall₂ (fun a b => f a = some b) l r := by
  intro l
  induction l with
  | nil =>
    intro r
    simp only [List.mapM_nil, Option.pure_def, Option.some.injEq]
    constructor
    · intro h; rw [← h]; exact List.Forall₂.nil
    · intro h; cases h; rfl
  | cons a l ih =>
    intro r
    simp only [List.mapM_cons, Option.pure_def, Option.bind_eq_bind, Option.bind_eq_some,
      Option.some.injEq]
    constructor
    · rintro ⟨b, hb, r', hr', rfl⟩
      exact List.Forall₂.cons hb ((ih r').mp hr')
    · intro h
      cases h with
      | cons hb hrest => exact ⟨_, hb, _, (ih _).mpr hrest, rfl⟩

theorem mapM_option_total {α β : Type} (f : α → Option β) (l : List α)
    (h : ∀ a ∈ l, ∃ b, f a = some b) : ∃ r, l.mapM f = some r := by
  induction l with
  | nil => exact ⟨[], rfl⟩
  | cons a l ih =>
    obtain ⟨b, hb⟩ := h a (by simp)
    obtain ⟨r, hr⟩ := ih (fun x hx => h x (by simp [hx]))
    exact ⟨b :: r, (mapM_option_eq_some f _ _).mpr
      (List.Forall₂.cons hb ((mapM_option_eq_some f _ _).mp hr))⟩

theorem mem_drop_take (stream : List Nat) (start i m k : Nat) (hi : i < m)
    (hk : stream[start + i]? = some k) : k ∈ (stream.drop start).take m := by
  apply List.getElem?_mem (n := i)
  rw [List.getElem?_take_of_lt hi, List.getElem?_drop]
  exact hk

theorem update_triangles_spec (sqrt : K → K) (face n start : Nat) (stream : List Nat)
    (all_verts : List (WeightedVertex K)) (poly : WeightedPolygon K)
    (h : update_triangles sqrt face n start stream all_verts = some poly) :
    poly.face_index = face ∧
    ∃ uniq, update_triangles_loop sqrt stream all_verts n start [] [] = some (poly.tris, uniq) ∧
      List.Forall₂ (fun i v => all_verts[i]? = some v) uniq poly.verts := by
  simp only [update_triangles, Option.bind_eq_bind, Option.bind_eq_some, Option.pure_def,
    Option.some.injEq] at h
  obtain ⟨⟨tris, uniq⟩, hloop, verts, hverts, rfl⟩ := h
  exact ⟨rfl, uniq, hloop, (mapM_option_eq_some _ _ _).mp hverts⟩

theorem update_triangles_total (sqrt : K → K) (face n start : Nat) (stream : List Nat)
    (all_verts : List (WeightedVertex K)) (hlen : start + 3 * n ≤ stream.length)
    (hidx : ∀ k ∈ (stream.drop start).take (3 * n), k < all_verts.length) :
    ∃ poly, update_triangles sqrt face n start stream all_verts = some poly := by
  obtain ⟨⟨tris, uniq⟩, hr⟩ := update_triangles_loop_total sqrt stream all_verts n start [] []
    hlen hidx
  obtain ⟨hu, _⟩ := update_triangles_loop_spec sqrt stream all_verts n start [] [] tris uniq hr
  have hmem : ∀ k ∈ uniq, ∃ v, all_verts[k]? = some v := by
    intro k hk
    rw [hu] at hk
    have := hidx k (((unique_fold_spec _).2.1 k).mp hk)
    exact ⟨_, List.getElem?_eq_getElem this⟩
  obtain ⟨verts, hv⟩ := mapM_option_total _ uniq hmem
  refine ⟨{ face_index := face, tris := tris, verts := verts }, ?_⟩
  simp only [update_triangles, Option.bind_eq_bind, Option.bind_eq_some, Option.pure_def,
    Option.some.injEq]
  exact ⟨(tris, uniq), hr, verts, hv, rfl⟩

theorem forall₂_mem_left {α β : Type} (R : α → β → Prop) :
    ∀ (l : List α) (r : List β), List.Forall₂ R l r → ∀ a ∈ l, ∃ b ∈ r, R a b := by
  intro l r h
  induction h with
  | nil => intro a ha; cases ha
  | cons hab _ ih =>
    intro a ha
    rcases List.mem_cons.mp ha with rfl | ha'
    · exact ⟨_, by simp, hab⟩
    · obtain ⟨b, hb, hr⟩ := ih a ha'
      exact ⟨b, by simp [hb], hr⟩

omit [LinearOrderedField K] in
theorem set_weight_attribute_status (m : WeightedMesh K) (maya : MayaMesh K) :
    (m.set_weight_attribute maya).1 = true ↔
      maya.findPlug_ok = true ∧ maya.hasFn_kTypedAttribute = true ∧
      (maya.attrType = MFnDataType.kDoubleArray ∨ maya.attrType = MFnDataType.kVectorArray ∨
        maya.attrType = MFnDataType.kPointArray) := by
  unfold WeightedMesh.set_weight_attribute
  cases maya.findPlug_ok <;> cases maya.hasFn_kTypedAttribute <;> cases maya.attrType <;> simp

omit [LinearOrderedField K] in
theorem retrieved_mesh_fields (uninitialised_type : MFnDataType) (maya : MayaMesh K) :
    (retrieved_mesh uninitialised_type maya).vertex_count = maya.numVertices ∧
    (retrieved_mesh uninitialised_type maya).is_valid = false := by
  unfold retrieved_mesh WeightedMesh.retrieve_weights WeightedMesh.set_weight_attribute
    WeightedMesh.set_mesh WeightedMesh.init
  cases maya.findPlug_ok <;> cases maya.hasFn_kTypedAttribute <;> cases maya.attrType <;>
    cases uninitialised_type <;> simp

theorem construct_invalid (sqrt : K → K) (uninitialised_type : MFnDataType) (maya : MayaMesh K)
    (hc : ¬ ((retrieved_mesh uninitialised_type maya).vertex_count ≠ 0 ∧
      (retrieved_mesh uninitialised_type maya).vertex_count =
        (retrieved_mesh uninitialised_type maya).weight_count ∧
      maya.setObject_ok = true ∧
      ((((WeightedMesh.init uninitialised_type : WeightedMesh K).set_mesh maya).2
        ).set_weight_attribute maya).1 = true)) :
    WeightsSource.construct sqrt uninitialised_type maya =
      some { toWeightedMesh := retrieved_mesh uninitialised_type maya,
             weighted_polys := none, weighted_verts := none } := by
  unfold WeightsSource.construct
  dsimp only
  split_ifs with h1 h2 h3 h4
  · rfl
  · rfl
  · rfl
  · rfl
  · exfalso
    apply hc
    refine ⟨h1, not_not.mp h2, ?_, ?_⟩
    · simpa [WeightedMesh.set_mesh] using h3
    · simpa using h4

theorem construct_valid (sqrt : K → K) (uninitialised_type : MFnDataType) (maya : MayaMesh K)
    (hc : (retrieved_mesh uninitialised_type maya).vertex_count ≠ 0 ∧
      (retrieved_mesh uninitialised_type maya).vertex_count =
        (retrieved_mesh uninitialised_type maya).weight_count ∧
      maya.setObject_ok = true ∧
      ((((WeightedMesh.init uninitialised_type : WeightedMesh K).set_mesh maya).2
        ).set_weight_attribute maya).1 = true) :
    WeightsSource.construct sqrt uninitialised_type maya =
      (build_vertices { retrieved_mesh uninitialised_type maya with is_valid := true }
        maya.positions 0).bind (fun weighted_verts =>
          (build_polygons sqrt maya.tri_counts maya.tri_verts weighted_verts
            maya.numPolygons 0 0).bind (fun weighted_polys =>
              some { toWeightedMesh :=
                       { retrieved_mesh uninitialised_type maya with is_valid := true },
                     weighted_polys := some weighted_polys,
                     weighted_verts := some weighted_verts })) := by
  obtain ⟨h1, h2, h3, h4⟩ := hc
  unfold WeightsSource.construct
  dsimp only
  have h3' : (((WeightedMesh.init uninitialised_type : WeightedMesh K).set_mesh maya).1) = true := h3
  have hr : retrieved_mesh uninitialised_type maya =
      ((((WeightedMesh.init uninitialised_type).set_mesh maya).2.set_weight_attribute maya).2
        ).retrieve_weights maya := rfl
  rw [hr] at h1 h2 ⊢
  rw [if_neg h1, if_neg (not_not.mpr h2)]
  simp only [h3', h4, Bool.not_true, Bool.false_eq_true, if_false]
  rfl

theorem build_vertices_spec (m : WeightedMesh K) :
    ∀ (positions : List (MPoint K)) (index : Nat) (vs : List (WeightedVertex K)),
      build_vertices m positions index = some vs →
      vs.length = positions.length ∧
      ∀ i v, vs[i]? = some v →
        positions[i]? = some v.position ∧ m.get_weight (index + i) = some v.weights := by
  intro positions
  induction positions with
  | nil =>
    intro index vs h
    simp only [build_vertices, Option.some.injEq] at h
    subst h
    exact ⟨rfl, fun i v hv => by simp at hv⟩
  | cons p rest ih =>
    intro index vs h
    simp only [build_vertices, Option.bind_eq_bind, Option.bind_eq_some, Option.pure_def,
      Option.some.injEq] at h
    obtain ⟨w, hw, tail, htail, rfl⟩ := h
    obtain ⟨hl, hall⟩ := ih _ _ htail
    refine ⟨by simp [hl], ?_⟩
    intro i v hv
    cases i with
    | zero =>
      simp only [List.getElem?_cons_zero, Option.some.injEq] at hv
      subst hv
      exact ⟨by simp [WeightedVertex.set_vertex], by simpa [WeightedVertex.set_vertex] using hw⟩
    | succ i =>
      simp only [List.getElem?_cons_succ] at hv
      obtain ⟨h1, h2⟩ := hall i v hv
      refine ⟨by simpa using h1, ?_⟩
      rw [← h2]
      congr 1
      omega

theorem build_polygons_spec (sqrt : K → K) (tri_counts tri_verts : List Nat)
    (weighted_verts : List (WeightedVertex K)) :
    ∀ (n i start : Nat) (polys : List (WeightedPolygon K)),
      build_polygons sqrt tri_counts tri_verts weighted_verts n i start = some polys →
      polys.length = n ∧
      ∀ f poly, polys[f]? = some poly → ∃ count, tri_counts[i + f]? = some count ∧
        update_triangles sqrt (i + f) count (start + 3 * ((tri_counts.drop i).take f).sum)
          tri_verts weighted_verts = some poly := by
  intro n
  induction n with
  | zero =>
    intro i start polys h
    simp only [build_polygons, Option.some.injEq] at h
    subst h
    exact ⟨rfl, fun f poly hp => by simp at hp⟩
  | succ n ih =>
    intro i start polys h
    simp only [build_polygons, Option.bind_eq_bind, Option.bind_eq_some, Option.pure_def,
      Option.some.injEq] at h
    obtain ⟨count, hc, poly0, hp0, rest, hrest, rfl⟩ := h
    obtain ⟨hl, hall⟩ := ih _ _ _ hrest
    refine ⟨by simp [hl], ?_⟩
    intro f poly hp
    cases f with
    | zero =>
      simp only [List.getElem?_cons_zero, Option.some.injEq] at hp
      subst hp
      exact ⟨count, by simpa using hc, by simpa using hp0⟩
    | succ f =>
      simp only [List.getElem?_cons_succ] at hp
      obtain ⟨c, h1, h2⟩ := hall f poly hp
      obtain ⟨li, ei⟩ := List.getElem?_eq_some_iff.mp hc
      refine ⟨c, ?_, ?_⟩
      · rw [← h1]; congr 1; omega
      · rw [← h2]
        have hd : tri_counts.drop i = count :: tri_counts.drop (i + 1) := by
          rw [List.drop_eq_getElem_cons li, ei]
        rw [hd, List.take_succ_cons, List.sum_cons]
        congr 1
        · omega
        · ring

omit [LinearOrderedField K] in
theorem retrieved_mesh_vector (uninitialised_type : MFnDataType) (maya : MayaMesh K)
    (hattr : ((((WeightedMesh.init uninitialised_type : WeightedMesh K).set_mesh maya).2
        ).set_weight_attribute maya).1 = true)
    (htype : maya.attrType = MFnDataType.kVectorArray) :
    (retrieved_mesh uninitialised_type maya).weight_attr_type = MFnDataType.kVectorArray ∧
    (retrieved_mesh uninitialised_type maya).weight_vector_vals = maya.plug_vectors := by
  rw [set_weight_attribute_status] at hattr
  obtain ⟨h1, h2, _⟩ := hattr
  simp [retrieved_mesh, WeightedMesh.retrieve_weights, WeightedMesh.set_weight_attribute,
    WeightedMesh.set_mesh, WeightedMesh.init, h1, h2, htype]

/-! ### Claims on construction, dispatch order and the crossing rule -/

/-- C11: `get_weight` normalizes the channel arity.  At a valid index a
doubleArray value `d` gives the slots (d,d,d,d), a vectorArray value (x,y,z)
gives (x,y,z,0), and a pointArray value (x,y,z,w) gives (x,y,z,w). -/
theorem get_weight_channel_arity (m : WeightedMesh K) (index : Nat) :
    (∀ d, m.weight_attr_type = MFnDataType.kDoubleArray → m.weight_double_vals[index]? = some d →
      m.get_weight index = some ![d, d, d, d]) ∧
    (∀ v, m.weight_attr_type = MFnDataType.kVectorArray → m.weight_vector_vals[index]? = some v →
      m.get_weight index = some ![v.x, v.y, v.z, 0]) ∧
    (∀ p, m.weight_attr_type = MFnDataType.kPointArray → m.weight_point_vals[index]? = some p →
      m.get_weight index = some ![p.x, p.y, p.z, p.w]) := by
  refine ⟨?_, ?_, ?_⟩
  · intro d ht hd
    simp [WeightedMesh.get_weight, ht, hd]
  · intro v ht hv
    simp [WeightedMesh.get_weight, ht, hv]
  · intro p ht hp
    simp [WeightedMesh.get_weight, ht, hp]

/-- C14: on a polygon with at least one triangle `get_intersected_triangle`
returns one of the triangles of the polygon: the lowest-index one that passes
`point_is_inside` if there is one; otherwise the lowest-index one that passes
`point_is_inside_bary` if there is one; otherwise the first triangle. -/
theorem get_intersected_triangle_order (sqrt : K → K) (poly : WeightedPolygon K)
    (point : MPoint K) (hN : 1 ≤ poly.triangle_count) :
    ∃ t, get_intersected_triangle sqrt poly point = some t ∧ t ∈ poly.tris ∧
      (∀ i, ∀ h : i < poly.tris.length,
        point_is_inside sqrt (poly.tris.get ⟨i, h⟩) point = true →
        (∀ j, ∀ hj : j < poly.tris.length, j < i →
          point_is_inside sqrt (poly.tris.get ⟨j, hj⟩) point = false) →
        t = poly.tris.get ⟨i, h⟩) ∧
      ((∀ u ∈ poly.tris, point_is_inside sqrt u point = false) →
        ∀ i, ∀ h : i < poly.tris.length,
          point_is_inside_bary sqrt (poly.tris.get ⟨i, h⟩) point = true →
          (∀ j, ∀ hj : j < poly.tris.length, j < i →
            point_is_inside_bary sqrt (poly.tris.get ⟨j, hj⟩) point = false) →
          t = poly.tris.get ⟨i, h⟩) ∧
      ((∀ u ∈ poly.tris, point_is_inside sqrt u point = false ∧
          point_is_inside_bary sqrt u point = false) →
        ∀ h : 0 < poly.tris.length, t = poly.tris.get ⟨0, h⟩) := by
  have hlen : 0 < poly.tris.length := hN
  unfold get_intersected_triangle
  cases h1 : linear_scan (fun t => point_is_inside sqrt t point) poly.tris with
  | some t =>
    refine ⟨t, rfl, linear_scan_mem _ _ _ h1, ?_, ?_, ?_⟩
    · intro i h hi hmin
      exact Option.some.inj (h1.symm.trans
        ((linear_scan_eq_some_iff _ _ _).mpr ⟨i, h, rfl, hi, hmin⟩))
    · intro hall
      have := (linear_scan_eq_none_iff _ _).mpr hall
      rw [h1] at this
      cases this
    · intro hall
      have := (linear_scan_eq_none_iff _ _).mpr (fun u hu => (hall u hu).1)
      rw [h1] at this
      cases this
  | none =>
    have hnone := (linear_scan_eq_none_iff _ _).mp h1
    cases h2 : linear_scan (fun t => point_is_inside_bary sqrt t point) poly.tris with
    | some t =>
      refine ⟨t, rfl, linear_scan_mem _ _ _ h2, ?_, ?_, ?_⟩
      · intro i h hi _
        have := hnone _ (List.get_mem poly.tris i h)
        simp only at this
        rw [hi] at this
        cases this
      · intro _ i h hi hmin
        exact Option.some.inj (h2.symm.trans
          ((linear_scan_eq_some_iff _ _ _).mpr ⟨i, h, rfl, hi, hmin⟩))
      · intro hall
        have := (linear_scan_eq_none_iff _ _).mpr (fun u hu => (hall u hu).2)
        rw [h2] at this
        cases this
    | none =>
      refine ⟨poly.tris.get ⟨0, hlen⟩, ?_, List.get_mem _ _ _, ?_, ?_, ?_⟩
      · simp [List.getElem?_eq_getElem hlen]
      · intro i h hi _
        have := hnone _ (List.get_mem poly.tris i h)
        simp only at this
        rw [hi] at this
        cases this
      · intro _ i h hi _
        have := (linear_scan_eq_none_iff _ _).mp h2 _ (List.get_mem poly.tris i h)
        simp only at this
        rw [hi] at this
        cases this
      · intro _ _
        rfl
/-- C19: when the slice of `3 * n` stream entries from `start` exists and holds
valid vertex indices, `update_triangles` returns a polygon whose vertex list is
the list of the indices of the slice without duplicates, in order of first
occurrence, of length at most `3 * n`, and whose triangle `j` is built from the
vertices at the stream entries `start + 3j`, `start + 3j + 1`, `start + 3j + 2`,
which all belong to the vertex list of the polygon. -/
theorem update_triangles_unique_vertices (sqrt : K → K) (face n start : Nat)
    (stream : List Nat) (all_verts : List (WeightedVertex K))
    (hlen : start + 3 * n ≤ stream.length)
    (hidx : ∀ k ∈ (stream.drop start).take (3 * n), k < all_verts.length) :
    ∃ poly uniq, update_triangles sqrt face n start stream all_verts = some poly ∧
      update_triangles_loop sqrt stream all_verts n start [] [] = some (poly.tris, uniq) ∧
      List.Forall₂ (fun i v => all_verts[i]? = some v) uniq poly.verts ∧
      uniq.Nodup ∧
      (∀ k, k ∈ uniq ↔ k ∈ (stream.drop start).take (3 * n)) ∧
      uniq.Pairwise (fun a b => ((stream.drop start).take (3 * n)).indexOf a <
        ((stream.drop start).take (3 * n)).indexOf b) ∧
      poly.vertex_count = uniq.length ∧ poly.vertex_count ≤ 3 * n ∧
      poly.triangle_count = n ∧
      ∀ j, j < n → ∃ k0 k1 k2 v0 v1 v2,
        stream[start + 3 * j]? = some k0 ∧ stream[start + 3 * j + 1]? = some k1 ∧
        stream[start + 3 * j + 2]? = some k2 ∧
        all_verts[k0]? = some v0 ∧ all_verts[k1]? = some v1 ∧ all_verts[k2]? = some v2 ∧
        poly.tris[j]? = some (set_vertices sqrt v0 v1 v2) ∧
        k0 ∈ uniq ∧ k1 ∈ uniq ∧ k2 ∈ uniq ∧
        v0 ∈ poly.verts ∧ v1 ∈ poly.verts ∧ v2 ∈ poly.verts := by
  obtain ⟨poly, hp⟩ := update_triangles_total sqrt face n start stream all_verts hlen hidx
  obtain ⟨_, uniq, hloop, hverts⟩ := update_triangles_spec sqrt face n start stream all_verts poly hp
  obtain ⟨hu, new_tris, ht, hl, hall⟩ :=
    update_triangles_loop_spec sqrt stream all_verts n start [] [] poly.tris uniq hloop
  obtain ⟨hnd, hmem, hord, hlen2⟩ := unique_fold_spec ((stream.drop start).take (3 * n))
  rw [← hu] at hnd hmem hord hlen2
  have hvl : poly.verts.length = uniq.length := hverts.length_eq.symm
  have htl : poly.tris = new_tris := by rw [ht]; rfl
  have hin : ∀ k v, k ∈ uniq → all_verts[k]? = some v → v ∈ poly.verts := by
    intro k v hk hv
    obtain ⟨b, hb, hr⟩ := forall₂_mem_left _ _ _ hverts k hk
    rw [hv] at hr
    rw [Option.some.inj hr]
    exact hb
  refine ⟨poly, uniq, hp, hloop, hverts, hnd, hmem, hord, hvl, ?_, ?_, ?_⟩
  · unfold WeightedPolygon.vertex_count
    rw [hvl]
    have : ((stream.drop start).take (3 * n)).length ≤ 3 * n := List.length_take_le _ _
    omega
  · unfold WeightedPolygon.triangle_count
    rw [htl, hl]
  · intro j hj
    obtain ⟨k0, k1, k2, v0, v1, v2, e0, e1, e2, f0, f1, f2, g⟩ := hall j hj
    have m0 : k0 ∈ uniq := (hmem k0).mpr (mem_drop_take stream start (3 * j) (3 * n) k0
      (by omega) e0)
    have m1 : k1 ∈ uniq := (hmem k1).mpr (mem_drop_take stream start (3 * j + 1) (3 * n) k1
      (by omega) (by rw [← e1]; congr 1))
    have m2 : k2 ∈ uniq := (hmem k2).mpr (mem_drop_take stream start (3 * j + 2) (3 * n) k2
      (by omega) (by rw [← e2]; congr 1))
    exact ⟨k0, k1, k2, v0, v1, v2, e0, e1, e2, f0, f1, f2, by rw [htl]; exact g, m0, m1, m2,
      hin k0 v0 m0 f0, hin k1 v1 m1 f1, hin k2 v2 m2 f2⟩

theorem construct_cases (sqrt : K → K) (uninitialised_type : MFnDataType) (maya : MayaMesh K)
    (src : WeightsSource K)
    (hsrc : WeightsSource.construct sqrt uninitialised_type maya = some src) :
    (¬ ((retrieved_mesh uninitialised_type maya).vertex_count ≠ 0 ∧
        (retrieved_mesh uninitialised_type maya).vertex_count =
          (retrieved_mesh uninitialised_type maya).weight_count ∧
        maya.setObject_ok = true ∧
        ((((WeightedMesh.init uninitialised_type : WeightedMesh K).set_mesh maya).2
          ).set_weight_attribute maya).1 = true) ∧
      src = { toWeightedMesh := retrieved_mesh uninitialised_type maya,
              weighted_polys := none, weighted_verts := none }) ∨
    (((retrieved_mesh uninitialised_type maya).vertex_count ≠ 0 ∧
        (retrieved_mesh uninitialised_type maya).vertex_count =
          (retrieved_mesh uninitialised_type maya).weight_count ∧
        maya.setObject_ok = true ∧
        ((((WeightedMesh.init uninitialised_type : WeightedMesh K).set_mesh maya).2
          ).set_weight_attribute maya).1 = true) ∧
      ∃ weighted_verts weighted_polys,
        build_vertices { retrieved_mesh uninitialised_type maya with is_valid := true }
          maya.positions 0 = some weighted_verts ∧
        build_polygons sqrt maya.tri_counts maya.tri_verts weighted_verts maya.numPolygons 0 0
          = some weighted_polys ∧
        src = { toWeightedMesh := { retrieved_mesh uninitialised_type maya with is_valid := true },
                weighted_polys := some weighted_polys,
                weighted_verts := some weighted_verts }) := by
  by_cases hc : ((retrieved_mesh uninitialised_type maya).vertex_count ≠ 0 ∧
        (retrieved_mesh uninitialised_type maya).vertex_count =
          (retrieved_mesh uninitialised_type maya).weight_count ∧
        maya.setObject_ok = true ∧
        ((((WeightedMesh.init uninitialised_type : WeightedMesh K).set_mesh maya).2
          ).set_weight_attribute maya).1 = true)
  · right
    refine ⟨hc, ?_⟩
    rw [construct_valid sqrt uninitialised_type maya hc] at hsrc
    simp only [Option.bind_eq_some, Option.some.injEq] at hsrc
    obtain ⟨vs, hvs, ps, hps, rfl⟩ := hsrc
    exact ⟨vs, ps, hvs, hps, rfl⟩
  · left
    refine ⟨hc, ?_⟩
    rw [construct_invalid sqrt uninitialised_type maya hc] at hsrc
    exact (Option.some.inj hsrc).symm

theorem vector_triangle_construct (sqrt : K → K) :
    WeightsSource.construct sqrt MFnDataType.kOther vector_triangle_maya =
      some (vector_triangle_source sqrt) := by
  rfl

theorem quad_stream_valid :
    0 + 3 * 2 ≤ [0, 1, 2, 0, 2, 3].length ∧
    ∀ k ∈ (List.drop 0 [0, 1, 2, 0, 2, 3]).take (3 * 2),
      k < [scalar_vertex (0 : ℚ) 0 0 0, scalar_vertex 1 0 0 1, scalar_vertex 1 1 0 1,
        scalar_vertex 0 1 0 0].length := by
  constructor
  · decide
  · decide

/-! ### Claims on the weight source -/

/-- C12: in a source built from a vectorArray attribute every triangle of every
polygon holds, in each of its three slots, the weights (x,y,z,0) of the vector
that the attribute holds at the mesh vertex index which the flat triangulation
stream gives for that slot. -/
theorem vector_weights_round_trip (sqrt : K → K) (uninitialised_type : MFnDataType)
    (maya : MayaMesh K) (src : WeightsSource K) (polys : List (WeightedPolygon K))
    (hsrc : WeightsSource.construct sqrt uninitialised_type maya = some src)
    (htype : maya.attrType = MFnDataType.kVectorArray)
    (hpolys : src.weighted_polys = some polys) :
    ∀ f poly, polys[f]? = some poly → ∀ j t, poly.tris[j]? = some t →
      ∃ k0 k1 k2 n0 n1 n2,
        maya.tri_verts[polygon_start maya.tri_counts f + 3 * j]? = some k0 ∧
        maya.tri_verts[polygon_start maya.tri_counts f + 3 * j + 1]? = some k1 ∧
        maya.tri_verts[polygon_start maya.tri_counts f + 3 * j + 2]? = some k2 ∧
        maya.plug_vectors[k0]? = some n0 ∧ maya.plug_vectors[k1]? = some n1 ∧
        maya.plug_vectors[k2]? = some n2 ∧
        t.v0.weights = ![n0.x, n0.y, n0.z, 0] ∧ t.v1.weights = ![n1.x, n1.y, n1.z, 0] ∧
        t.v2.weights = ![n2.x, n2.y, n2.z, 0] := by
  intro f poly hf j t ht
  rcases construct_cases sqrt uninitialised_type maya src hsrc with
    ⟨_, rfl⟩ | ⟨hc, vs, ps, hvs, hps, rfl⟩
  · cases hpolys
  · have hps2 : ps = polys := Option.some.inj hpolys
    subst hps2
    obtain ⟨hty, hvals⟩ := retrieved_mesh_vector uninitialised_type maya hc.2.2.2 htype
    obtain ⟨_, hpoly⟩ := build_polygons_spec sqrt _ _ _ _ _ _ _ hps
    obtain ⟨count, _, hut⟩ := hpoly f poly hf
    obtain ⟨_, uniq, hloop, _⟩ := update_triangles_spec sqrt _ _ _ _ _ _ hut
    obtain ⟨_, new_tris, hnt, hlen, hall⟩ :=
      update_triangles_loop_spec sqrt _ _ _ _ _ _ _ _ hloop
    have hnt2 : poly.tris = new_tris := by rw [hnt]; rfl
    have hj : j < count := by
      have := (List.getElem?_eq_some_iff.mp ht).1
      rw [hnt2, hlen] at this
      exact this
    obtain ⟨k0, k1, k2, v0, v1, v2, e0, e1, e2, f0, f1, f2, g⟩ := hall j hj
    have hst : 0 + 3 * ((List.drop 0 maya.tri_counts).take f).sum =
        polygon_start maya.tri_counts f := by
      simp [polygon_start]
    rw [hst] at e0 e1 e2
    have ht2 : t = set_vertices sqrt v0 v1 v2 := by
      rw [hnt2, g] at ht
      exact (Option.some.inj ht).symm
    have key : ∀ (k : Nat) (v : WeightedVertex K), vs[k]? = some v →
        ∃ n : MVector K, maya.plug_vectors[k]? = some n ∧
          v.weights = ![n.x, n.y, n.z, 0] := by
      intro k v hv
      obtain ⟨_, hw⟩ := (build_vertices_spec _ _ _ _ hvs).2 k v hv
      simp only [WeightedMesh.get_weight, hty, hvals, zero_add, Option.bind_eq_bind,
        Option.bind_eq_some, Option.pure_def, Option.some.injEq] at hw
      obtain ⟨n, hn, hw2⟩ := hw
      exact ⟨n, hn, hw2.symm⟩
    obtain ⟨n0, hn0, hw0⟩ := key k0 v0 f0
    obtain ⟨n1, hn1, hw1⟩ := key k1 v1 f1
    obtain ⟨n2, hn2, hw2⟩ := key k2 v2 f2
    refine ⟨k0, k1, k2, n0, n1, n2, e0, e1, e2, hn0, hn1, hn2, ?_, ?_, ?_⟩
    · rw [ht2]; exact hw0
    · rw [ht2]; exact hw1
    · rw [ht2]; exact hw2

/-- The hypotheses hold for the source built from `vector_triangle_maya` over the
rationals. -/
theorem vector_weights_round_trip_witness :
    (WeightsSource.construct Rat.sqrt MFnDataType.kOther vector_triangle_maya =
        some (vector_triangle_source Rat.sqrt) ∧
      (vector_triangle_maya : MayaMesh ℚ).attrType = MFnDataType.kVectorArray ∧
      (vector_triangle_source Rat.sqrt).weighted_polys =
        some [{ face_index := 0,
                tris := [set_vertices Rat.sqrt ⟨⟨0, 0, 0, 1⟩, ![1, 2, 3, 0]⟩
                  ⟨⟨1, 0, 0, 1⟩, ![4, 5, 6, 0]⟩ ⟨⟨0, 1, 0, 1⟩, ![7, 8, 9, 0]⟩],
                verts := [⟨⟨0, 0, 0, 1⟩, ![1, 2, 3, 0]⟩, ⟨⟨1, 0, 0, 1⟩, ![4, 5, 6, 0]⟩,
                  ⟨⟨0, 1, 0, 1⟩, ![7, 8, 9, 0]⟩] }]) ∧
    ∃ k0 k1 k2 n0 n1 n2,
      (vector_triangle_maya : MayaMesh ℚ).tri_verts[
        polygon_start (vector_triangle_maya : MayaMesh ℚ).tri_counts 0 + 3 * 0]? = some k0 ∧
      (vector_triangle_maya : MayaMesh ℚ).tri_verts[
        polygon_start (vector_triangle_maya : MayaMesh ℚ).tri_counts 0 + 3 * 0 + 1]? = some k1 ∧
      (vector_triangle_maya : MayaMesh ℚ).tri_verts[
        polygon_start (vector_triangle_maya : MayaMesh ℚ).tri_counts 0 + 3 * 0 + 2]? = some k2 ∧
      (vector_triangle_maya : MayaMesh ℚ).plug_vectors[k0]? = some n0 ∧
      (vector_triangle_maya : MayaMesh ℚ).plug_vectors[k1]? = some n1 ∧
      (vector_triangle_maya : MayaMesh ℚ).plug_vectors[k2]? = some n2 ∧
      (set_vertices Rat.sqrt ⟨⟨0, 0, 0, 1⟩, ![1, 2, 3, 0]⟩ ⟨⟨1, 0, 0, 1⟩, ![4, 5, 6, 0]⟩
        ⟨⟨0, 1, 0, 1⟩, ![7, 8, 9, 0]⟩).v0.weights = ![n0.x, n0.y, n0.z, 0] ∧
      (set_vertices Rat.sqrt ⟨⟨0, 0, 0, 1⟩, ![1, 2, 3, 0]⟩ ⟨⟨1, 0, 0, 1⟩, ![4, 5, 6, 0]⟩
        ⟨⟨0, 1, 0, 1⟩, ![7, 8, 9, 0]⟩).v1.weights = ![n1.x, n1.y, n1.z, 0] ∧
      (set_vertices Rat.sqrt ⟨⟨0, 0, 0, 1⟩, ![1, 2, 3, 0]⟩ ⟨⟨1, 0, 0, 1⟩, ![4, 5, 6, 0]⟩
        ⟨⟨0, 1, 0, 1⟩, ![7, 8, 9, 0]⟩).v2.weights = ![n2.x, n2.y, n2.z, 0] :=
  ⟨⟨vector_triangle_construct Rat.sqrt, rfl, rfl⟩,
    vector_weights_round_trip Rat.sqrt MFnDataType.kOther vector_triangle_maya
      (vector_triangle_source Rat.sqrt) _ (vector_triangle_construct Rat.sqrt) rfl rfl
      0 _ rfl 0 _ rfl⟩

/-- C13: `set_weight_attribute` succeeds exactly when the plug is found, the
attribute is typed and its type is doubleArray, vectorArray or pointArray.
After the `WeightsSource` constructor `is_valid` is true exactly when the
vertex count is non-zero, equals the weight count, `set_mesh` succeeded and
`set_weight_attribute` succeeded; when `is_valid` is false no vertex or polygon
array is built, and when a condition fails the constructor ends in that state. -/
theorem weights_source_validation (sqrt : K → K) (uninitialised_type : MFnDataType)
    (maya : MayaMesh K) :
    (∀ m : WeightedMesh K, (m.set_weight_attribute maya).1 = true ↔
      maya.findPlug_ok = true ∧ maya.hasFn_kTypedAttribute = true ∧
      (maya.attrType = MFnDataType.kDoubleArray ∨ maya.attrType = MFnDataType.kVectorArray ∨
        maya.attrType = MFnDataType.kPointArray)) ∧
    (∀ src, WeightsSource.construct sqrt uninitialised_type maya = some src →
      src.vertex_count = maya.numVertices ∧
      (src.is_valid = true ↔
        src.vertex_count ≠ 0 ∧ src.vertex_count = src.weight_count ∧
        ((WeightedMesh.init uninitialised_type : WeightedMesh K).set_mesh maya).1 = true ∧
        ((((WeightedMesh.init uninitialised_type : WeightedMesh K).set_mesh maya).2
          ).set_weight_attribute maya).1 = true) ∧
      (src.is_valid = false → src.weighted_polys = none ∧ src.weighted_verts = none)) ∧
    (¬ (maya.numVertices ≠ 0 ∧
        maya.numVertices = (retrieved_mesh uninitialised_type maya).weight_count ∧
        maya.setObject_ok = true ∧
        ((((WeightedMesh.init uninitialised_type : WeightedMesh K).set_mesh maya).2
          ).set_weight_attribute maya).1 = true) →
      ∃ src, WeightsSource.construct sqrt uninitialised_type maya = some src ∧
        src.is_valid = false ∧ src.weighted_polys = none ∧ src.weighted_verts = none) := by
  obtain ⟨hvc, hiv⟩ := retrieved_mesh_fields uninitialised_type maya
  refine ⟨fun m => set_weight_attribute_status m maya, ?_, ?_⟩
  · intro src hsrc
    rcases construct_cases sqrt uninitialised_type maya src hsrc with
      ⟨hc, rfl⟩ | ⟨hc, vs, ps, _, _, rfl⟩
    · refine ⟨hvc, ?_, fun _ => ⟨rfl, rfl⟩⟩
      constructor
      · intro h
        rw [hiv] at h
        cases h
      · intro h
        exact absurd h hc
    · refine ⟨hvc, ?_, ?_⟩
      · constructor
        · intro _
          exact hc
        · intro _
          rfl
      · intro h
        cases h
  · intro hc
    rw [← hvc] at hc
    exact ⟨_, construct_invalid sqrt uninitialised_type maya hc, hiv, rfl, rfl⟩

/-- The hypothesis of the order theorem holds for the thin polygon, which has
one triangle. -/
theorem get_intersected_triangle_order_witness :
    1 ≤ (thin_polygon Rat.sqrt).triangle_count ∧
    ∃ t, get_intersected_triangle Rat.sqrt (thin_polygon Rat.sqrt) ⟨0, 0, 0, 1⟩ = some t ∧
      t ∈ (thin_polygon Rat.sqrt).tris :=
  ⟨Nat.le_refl 1,
    (get_intersected_triangle_order Rat.sqrt (thin_polygon Rat.sqrt) ⟨0, 0, 0, 1⟩
      (Nat.le_refl 1)).elim (fun t ht => ⟨t, ht.1, ht.2.1⟩)⟩

/-- The hypotheses of the unique-vertex theorem hold for the stream and the four
vertices of the quad. -/
theorem update_triangles_unique_vertices_witness :
    (0 + 3 * 2 ≤ [0, 1, 2, 0, 2, 3].length ∧
      ∀ k ∈ (List.drop 0 [0, 1, 2, 0, 2, 3]).take (3 * 2),
        k < [scalar_vertex (0 : ℚ) 0 0 0, scalar_vertex 1 0 0 1, scalar_vertex 1 1 0 1,
          scalar_vertex 0 1 0 0].length) ∧
    ∃ poly, update_triangles Rat.sqrt 0 2 0 [0, 1, 2, 0, 2, 3]
        [scalar_vertex (0 : ℚ) 0 0 0, scalar_vertex 1 0 0 1, scalar_vertex 1 1 0 1,
          scalar_vertex 0 1 0 0] = some poly ∧
      poly.vertex_count ≤ 3 * 2 ∧ poly.triangle_count = 2 :=
  ⟨quad_stream_valid,
    (update_triangles_unique_vertices Rat.sqrt 0 2 0 [0, 1, 2, 0, 2, 3]
      [scalar_vertex (0 : ℚ) 0 0 0, scalar_vertex 1 0 0 1, scalar_vertex 1 1 0 1,
        scalar_vertex 0 1 0 0] quad_stream_valid.1 quad_stream_valid.2).elim
      (fun poly hp => hp.elim (fun _ h => ⟨poly, h.1, h.2.2.2.2.2.2.2.1, h.2.2.2.2.2.2.2.2.1⟩))⟩

/-! ### The intercept test in exact arithmetic -/

/-- In exact arithmetic, when the `y` coordinates of the endpoints fall on
different sides under `simple_sign`, the divisor `p1.y - p0.y` is not zero,
`edge_crosses_x_axis` is true exactly when the x-intercept is `>= 0`, the
intercept is `>= 0` when both `x >= 0` and negative when both `x < 0`. -/
theorem exact_edge_shortcuts (p0 p1 : Point2d K)
    (hs : simple_sign p0.y ≠ simple_sign p1.y) :
    p1.y - p0.y ≠ 0 ∧
    (edge_crosses_x_axis p0 p1 = true ↔
      p0.x - p0.y * (p1.x - p0.x) / (p1.y - p0.y) ≥ 0) ∧
    (simple_sign p0.x = true ∧ simple_sign p1.x = true →
      p0.x - p0.y * (p1.x - p0.x) / (p1.y - p0.y) ≥ 0) ∧
    (simple_sign p0.x = false ∧ simple_sign p1.x = false →
      ¬ p0.x - p0.y * (p1.x - p0.x) / (p1.y - p0.y) ≥ 0) := by
  have hside : (p0.y < 0 ∧ 0 ≤ p1.y) ∨ (p1.y < 0 ∧ 0 ≤ p0.y) := by
    rcases lt_or_le p0.y 0 with h0 | h0 <;> rcases lt_or_le p1.y 0 with h1 | h1
    · exact absurd (by rw [(simple_sign_eq_false _).mpr h0, (simple_sign_eq_false _).mpr h1]) hs
    · exact Or.inl ⟨h0, h1⟩
    · exact Or.inr ⟨h1, h0⟩
    · exact absurd (by rw [(simple_sign_eq_true _).mpr h0, (simple_sign_eq_true _).mpr h1]) hs
  have hd : p1.y - p0.y ≠ 0 := by
    rcases hside with ⟨h0, h1⟩ | ⟨h1, h0⟩
    · exact ne_of_gt (by linarith)
    · exact ne_of_lt (by linarith)
  have hx : p0.x - p0.y * (p1.x - p0.x) / (p1.y - p0.y) =
      (p0.x * p1.y - p1.x * p0.y) / (p1.y - p0.y) := by
    rw [← x_intercept_eq p0 p1 hd]; ring
  have hiff : edge_crosses_x_axis p0 p1 = true ↔
      p0.x - p0.y * (p1.x - p0.x) / (p1.y - p0.y) ≥ 0 := by
    rw [edge_crosses_x_axis_iff, hx, ge_iff_le, div_nonneg_iff_mul_nonneg _ _ hd]
    constructor
    · rintro (⟨h1, h2, _⟩ | ⟨_, h⟩)
      · rw [h1, h2] at hd; simp at hd
      · exact h
    · intro h
      exact Or.inr ⟨hside, h⟩
  refine ⟨hd, hiff, ?_, ?_⟩
  · rintro ⟨h0, h1⟩
    rw [← hiff]
    have h0' := (simple_sign_eq_true _).mp h0
    have h1' := (simple_sign_eq_true _).mp h1
    have hne : ¬ (p0.y = 0 ∧ p1.y = 0) := by
      rintro ⟨e0, e1⟩; rw [e0, e1] at hd; simp at hd
    simp [edge_crosses_x_axis, hne, hs, h0, h1]
  · rintro ⟨h0, h1⟩
    rw [← hiff]
    have hne : ¬ (p0.y = 0 ∧ p1.y = 0) := by
      rintro ⟨e0, e1⟩; rw [e0, e1] at hd; simp at hd
    simp [edge_crosses_x_axis, hne, hs, h0, h1]

/-! ### The polygon loop of the constructor -/

theorem polygon_start_succ (tri_counts : List Nat) (f count : Nat)
    (h : tri_counts[f]? = some count) :
    polygon_start tri_counts (f + 1) = polygon_start tri_counts f + 3 * count := by
  unfold polygon_start
  rw [List.take_succ, h]
  simp [Nat.mul_add]

theorem polygon_start_le_succ (tri_counts : List Nat) (f : Nat) :
    polygon_start tri_counts f ≤ polygon_start tri_counts (f + 1) := by
  unfold polygon_start
  rw [List.take_succ]
  simp

theorem polygon_start_mono (tri_counts : List Nat) (f g : Nat) (hfg : f ≤ g) :
    polygon_start tri_counts f ≤ polygon_start tri_counts g := by
  induction g with
  | zero =>
    have : f = 0 := Nat.le_zero.mp hfg
    rw [this]
  | succ g ih =>
    rcases Nat.lt_or_ge f (g + 1) with hlt | hge
    · exact le_trans (ih (Nat.lt_succ_iff.mp hlt)) (polygon_start_le_succ tri_counts g)
    · have : f = g + 1 := Nat.le_antisymm hfg hge
      rw [this]

theorem get_weight_total (uninitialised_type : MFnDataType) (maya : MayaMesh K)
    (hattr : ((((WeightedMesh.init uninitialised_type : WeightedMesh K).set_mesh maya).2
        ).set_weight_attribute maya).1 = true)
    (i : Nat) (hi : i < (retrieved_mesh uninitialised_type maya).weight_count) :
    ∃ w, ({ retrieved_mesh uninitialised_type maya with is_valid := true } :
      WeightedMesh K).get_weight i = some w := by
  rw [set_weight_attribute_status] at hattr
  obtain ⟨h1, h2, h3⟩ := hattr
  rcases h3 with h | h | h
  all_goals
    simp only [retrieved_mesh, WeightedMesh.retrieve_weights, WeightedMesh.set_weight_attribute,
      WeightedMesh.set_mesh, WeightedMesh.init, h1, h2, h, WeightedMesh.get_weight,
      Bool.not_true, Bool.false_eq_true, if_false] at hi ⊢
    rw [List.getElem?_eq_getElem hi]
    exact ⟨_, rfl⟩

theorem build_vertices_total (m : WeightedMesh K) :
    ∀ (positions : List (MPoint K)) (index : Nat),
      (∀ i, i < positions.length → ∃ w, m.get_weight (index + i) = some w) →
      ∃ vs, build_vertices m positions index = some vs := by
  intro positions
  induction positions with
  | nil => intro index _; exact ⟨[], rfl⟩
  | cons p rest ih =>
    intro index h
    obtain ⟨w, hw⟩ := h 0 (by simp)
    obtain ⟨tail, ht⟩ := ih (index + 1) (fun i hi => by
      obtain ⟨w', hw'⟩ := h (i + 1) (by simpa using hi)
      exact ⟨w', by rw [← hw']; congr 1; omega⟩)
    refine ⟨WeightedVertex.set_vertex p w :: tail, ?_⟩
    simp only [build_vertices, Option.bind_eq_bind, Option.bind_eq_some, Option.pure_def,
      Option.some.injEq]
    exact ⟨w, by simpa using hw, tail, ht, rfl⟩

theorem build_polygons_total (sqrt : K → K) (tri_counts tri_verts : List Nat)
    (weighted_verts : List (WeightedVertex K)) :
    ∀ (n i start : Nat), i + n ≤ tri_counts.length →
      start + 3 * ((tri_counts.drop i).take n).sum ≤ tri_verts.length →
      (∀ k ∈ (tri_verts.drop start).take (3 * ((tri_counts.drop i).take n).sum),
        k < weighted_verts.length) →
      ∃ polys, build_polygons sqrt tri_counts tri_verts weighted_verts n i start = some polys := by
  intro n
  induction n with
  | zero => intro i start _ _ _; exact ⟨[], rfl⟩
  | succ n ih =>
    intro i start hcnt hlen hidx
    have li : i < tri_counts.length := by omega
    have hd : tri_counts.drop i = tri_counts[i] :: tri_counts.drop (i + 1) :=
      List.drop_eq_getElem_cons li
    rw [hd, List.take_succ_cons, List.sum_cons] at hlen hidx
    obtain ⟨poly, hpoly⟩ := update_triangles_total sqrt i tri_counts[i] start tri_verts
      weighted_verts (by omega) (fun k hk => hidx k
        (List.take_subset_take_left _ (by omega) hk))
    obtain ⟨rest, hrest⟩ := ih (i + 1) (start + tri_counts[i] * 3) (by omega) (by omega)
      (fun k hk => hidx k (by
        have e : 3 * (tri_counts[i] + ((tri_counts.drop (i + 1)).take n).sum) =
            tri_counts[i] * 3 + 3 * ((tri_counts.drop (i + 1)).take n).sum := by ring
        rw [e, List.take_add, List.drop_drop]
        apply List.mem_append_right
        exact hk))
    refine ⟨poly :: rest, ?_⟩
    simp only [build_polygons, Option.bind_eq_bind, Option.bind_eq_some, Option.pure_def,
      Option.some.injEq]
    exact ⟨_, List.getElem?_eq_getElem li, poly, hpoly, rest, hrest, rfl⟩

/-- C28: when the constructor's checks pass and the arrays reported by Maya are
well formed, the `WeightsSource` constructor returns a source with exactly
`numPolygons` polygons; polygon `f` is the result of `update_triangles` with
face index `f`, triangle count `tri_counts[f]` and start index
`3 * (tri_counts[0] + ... + tri_counts[f-1])`; the slice of polygon `f` ends
where the slice of polygon `f + 1` starts, the first slice starts at 0, and the
slice of a polygon ends at or before the start of every later one. -/
theorem polygon_slices (sqrt : K → K) (uninitialised_type : MFnDataType) (maya : MayaMesh K)
    (hvalid : (retrieved_mesh uninitialised_type maya).vertex_count ≠ 0 ∧
      (retrieved_mesh uninitialised_type maya).vertex_count =
        (retrieved_mesh uninitialised_type maya).weight_count ∧
      maya.setObject_ok = true ∧
      ((((WeightedMesh.init uninitialised_type : WeightedMesh K).set_mesh maya).2
        ).set_weight_attribute maya).1 = true)
    (hpos : maya.positions.length = maya.numVertices)
    (hcounts : maya.numPolygons ≤ maya.tri_counts.length)
    (hlen : polygon_start maya.tri_counts maya.numPolygons ≤ maya.tri_verts.length)
    (hidx : ∀ k ∈ maya.tri_verts.take (polygon_start maya.tri_counts maya.numPolygons),
      k < maya.numVertices) :
    ∃ src polys verts,
      WeightsSource.construct sqrt uninitialised_type maya = some src ∧
      src.weighted_polys = some polys ∧ src.weighted_verts = some verts ∧
      polys.length = maya.numPolygons ∧
      (∀ f, f < maya.numPolygons → ∃ poly count,
        polys[f]? = some poly ∧ maya.tri_counts[f]? = some count ∧
        update_triangles sqrt f count (polygon_start maya.tri_counts f) maya.tri_verts verts
          = some poly ∧
        poly.face_index = f ∧ poly.triangle_count = count ∧
        polygon_start maya.tri_counts (f + 1) = polygon_start maya.tri_counts f + 3 * count) ∧
      polygon_start maya.tri_counts 0 = 0 ∧
      (∀ f g count, f < g → maya.tri_counts[f]? = some count →
        polygon_start maya.tri_counts f + 3 * count ≤ polygon_start maya.tri_counts g) := by
  obtain ⟨hne, heq, hset, hattr⟩ := hvalid
  have hvc := (retrieved_mesh_fields uninitialised_type maya).1
  obtain ⟨vs, hvs⟩ := build_vertices_total
    ({ retrieved_mesh uninitialised_type maya with is_valid := true } : WeightedMesh K)
    maya.positions 0 (fun i hi => by
      rw [Nat.zero_add]
      exact get_weight_total uninitialised_type maya hattr i (by rw [← heq, hvc, ← hpos]; exact hi))
  have hvl : vs.length = maya.numVertices := by
    rw [(build_vertices_spec _ _ _ _ hvs).1, hpos]
  obtain ⟨ps, hps⟩ := build_polygons_total sqrt maya.tri_counts maya.tri_verts vs
    maya.numPolygons 0 0 (by omega)
    (by simpa [polygon_start] using hlen)
    (fun k hk => by
      rw [hvl]
      apply hidx k
      simpa [polygon_start] using hk)
  obtain ⟨hplen, hpoly⟩ := build_polygons_spec sqrt _ _ _ _ _ _ _ hps
  refine ⟨{ toWeightedMesh := { retrieved_mesh uninitialised_type maya with is_valid := true },
            weighted_polys := some ps, weighted_verts := some vs }, ps, vs, ?_, rfl, rfl, hplen,
    ?_, by simp [polygon_start], ?_⟩
  · rw [construct_valid sqrt uninitialised_type maya ⟨hne, heq, hset, hattr⟩, hvs]
    simp only [Option.some_bind, hps]
  · intro f hf
    have hfl : f < ps.length := by rw [hplen]; exact hf
    obtain ⟨count, hcnt, hut⟩ := hpoly f ps[f] (List.getElem?_eq_getElem hfl)
    have hst : 0 + 3 * ((List.drop 0 maya.tri_counts).take f).sum =
        polygon_start maya.tri_counts f := by
      simp [polygon_start]
    rw [hst, Nat.zero_add] at hut
    rw [Nat.zero_add] at hcnt
    obtain ⟨hface, uniq, hloop, _⟩ := update_triangles_spec sqrt _ _ _ _ _ _ hut
    obtain ⟨_, new_tris, hnt, hl, _⟩ := update_triangles_loop_spec sqrt _ _ _ _ _ _ _ _ hloop
    refine ⟨ps[f], count, List.getElem?_eq_getElem hfl, hcnt, hut, hface, ?_,
      polygon_start_succ _ _ _ hcnt⟩
    unfold WeightedPolygon.triangle_count
    rw [hnt]
    simpa using hl
  · intro f g count hfg hcnt
    rw [← polygon_start_succ _ _ _ hcnt]
    exact polygon_start_mono _ _ _ hfg

/-! ### The fast test on a point beside a horizontal edge -/

/-- C21: the fast test at the point (1,0,0) and the triangle (2,0,0), (4,0,0),
(3,1,0).  The vertices are not collinear and the point lies in the plane of
the triangle, `point_is_inside` returns true, yet the point is not in the
closed triangle and `point_is_inside_bary` returns false for it.  The point is
the mean of the corners of the second triangle of the concave quad
`dart_polygon`, it matches no vertex of that polygon, and
`get_intersected_triangle` returns the first triangle for it. -/
theorem fast_test_accepts_outside_point :
    NonCollinear (scalar_vertex (2 : ℝ) 0 0 0).position (scalar_vertex (4 : ℝ) 0 0 0).position
      (scalar_vertex (3 : ℝ) 1 0 0).position ∧
    InPlane (scalar_vertex (2 : ℝ) 0 0 0).position (scalar_vertex (4 : ℝ) 0 0 0).position
      (scalar_vertex (3 : ℝ) 1 0 0).position ⟨1, 0, 0, 1⟩ ∧
    point_is_inside Real.sqrt
      (set_vertices Real.sqrt (scalar_vertex 2 0 0 0) (scalar_vertex 4 0 0 0)
        (scalar_vertex 3 1 0 0)) ⟨1, 0, 0, 1⟩ = true ∧
    ¬ InClosedTriangle (scalar_vertex (2 : ℝ) 0 0 0).position
      (scalar_vertex (4 : ℝ) 0 0 0).position (scalar_vertex (3 : ℝ) 1 0 0).position
      ⟨1, 0, 0, 1⟩ ∧
    point_is_inside_bary Real.sqrt
      (set_vertices Real.sqrt (scalar_vertex 2 0 0 0) (scalar_vertex 4 0 0 0)
        (scalar_vertex 3 1 0 0)) ⟨1, 0, 0, 1⟩ = false ∧
    IsCombination (scalar_vertex (2 : ℝ) 0 0 0).position (scalar_vertex (3 : ℝ) 1 0 0).position
      (scalar_vertex (-2 : ℝ) (-1) 0 3).position ⟨1, 0, 0, 1⟩ (1 / 3) (1 / 3) (1 / 3) ∧
    get_matching_vertex (dart_polygon Real.sqrt) ⟨1, 0, 0, 1⟩ = none ∧
    get_intersected_triangle Real.sqrt (dart_polygon Real.sqrt) ⟨1, 0, 0, 1⟩ =
      some (set_vertices Real.sqrt (scalar_vertex 2 0 0 0) (scalar_vertex 4 0 0 0)
        (scalar_vertex 3 1 0 0)) := by
  have hm : (set_vertices Real.sqrt (scalar_vertex (2 : ℝ) 0 0 0) (scalar_vertex 4 0 0 0)
      (scalar_vertex 3 1 0 0)).major_axis = MajorAxis.Z_AXIS := by
    apply major_axis_z_of_cross <;> simp [MVector.cross, MPoint.sub, scalar_vertex]
  have hin : point_is_inside Real.sqrt
      (set_vertices Real.sqrt (scalar_vertex 2 0 0 0) (scalar_vertex 4 0 0 0)
        (scalar_vertex 3 1 0 0)) ⟨1, 0, 0, 1⟩ = true := by
    rw [point_is_inside_iff, count_intersections_of_major_axis _ _ _ _ _ hm]
    constructor
    · apply point_is_on_plane_of_dot
      simp [set_vertices, MVector.dot, MVector.cross, MPoint.sub, MPoint.div, MPoint.addVector,
        MPoint.toVector, scalar_vertex]
    · norm_num [crossing_count, edge_crosses_x_axis, simple_sign, Point2d.sub, project_to_2d,
        scalar_vertex]
  refine ⟨?_, ?_, hin, ?_, ?_, ?_, ?_, ?_⟩
  · simp [NonCollinear, MVector.cross, MPoint.sub, scalar_vertex]
    norm_num
  · simp [InPlane, MVector.dot, MVector.cross, MPoint.sub, scalar_vertex]
  · rintro ⟨a, b, c, ha, hb, hc, hsum, hx, _, _⟩
    simp only [scalar_vertex] at hx
    linarith
  · have hs : ∀ r : ℝ, 0 ≤ r → Real.sqrt (r * r) = r := by
      intro r hr
      rw [real_isSqrt.sqrt_mul_self, abs_of_nonneg hr]
    have hv0 : (set_vertices Real.sqrt (scalar_vertex (2 : ℝ) 0 0 0) (scalar_vertex 4 0 0 0)
        (scalar_vertex 3 1 0 0)).v0 = scalar_vertex 2 0 0 0 := rfl
    have hv1 : (set_vertices Real.sqrt (scalar_vertex (2 : ℝ) 0 0 0) (scalar_vertex 4 0 0 0)
        (scalar_vertex 3 1 0 0)).v1 = scalar_vertex 4 0 0 0 := rfl
    have hv2 : (set_vertices Real.sqrt (scalar_vertex (2 : ℝ) 0 0 0) (scalar_vertex 4 0 0 0)
        (scalar_vertex 3 1 0 0)).v2 = scalar_vertex 3 1 0 0 := rfl
    have hA : (set_vertices Real.sqrt (scalar_vertex (2 : ℝ) 0 0 0) (scalar_vertex 4 0 0 0)
        (scalar_vertex 3 1 0 0)).area_times_2 = 2 := by
      have : (set_vertices Real.sqrt (scalar_vertex (2 : ℝ) 0 0 0) (scalar_vertex 4 0 0 0)
          (scalar_vertex 3 1 0 0)).area_times_2 = Real.sqrt (2 * 2) := by
        simp only [set_vertices]
        apply length_sq_eq
        simp only [MVector.cross, MPoint.sub, scalar_vertex]
        norm_num
      rw [this, hs 2 (by norm_num)]
    have l1 : MVector.length Real.sqrt (MVector.cross
        (MVector.sub (MPoint.toVector (scalar_vertex (3 : ℝ) 1 0 0).position)
          (MPoint.toVector ⟨1, 0, 0, 1⟩))
        (MVector.sub (MPoint.toVector (scalar_vertex (4 : ℝ) 0 0 0).position)
          (MPoint.toVector ⟨1, 0, 0, 1⟩))) = 3 := by
      rw [length_sq_eq Real.sqrt _ 3, hs 3 (by norm_num)]
      simp only [MVector.cross, MVector.sub, MPoint.toVector, scalar_vertex]
      norm_num
    have l2 : MVector.length Real.sqrt (MVector.cross
        (MVector.sub (MPoint.toVector (scalar_vertex (2 : ℝ) 0 0 0).position)
          (MPoint.toVector ⟨1, 0, 0, 1⟩))
        (MVector.sub (MPoint.toVector (scalar_vertex (3 : ℝ) 1 0 0).position)
          (MPoint.toVector ⟨1, 0, 0, 1⟩))) = 1 := by
      rw [length_sq_eq Real.sqrt _ 1, hs 1 (by norm_num)]
      simp only [MVector.cross, MVector.sub, MPoint.toVector, scalar_vertex]
      norm_num
    have l3 : MVector.length Real.sqrt (MVector.cross
        (MVector.sub (MPoint.toVector (scalar_vertex (2 : ℝ) 0 0 0).position)
          (MPoint.toVector ⟨1, 0, 0, 1⟩))
        (MVector.sub (MPoint.toVector (scalar_vertex (4 : ℝ) 0 0 0).position)
          (MPoint.toVector ⟨1, 0, 0, 1⟩))) = 0 := by
      rw [length_sq_eq Real.sqrt _ 0, hs 0 (le_refl 0)]
      simp only [MVector.cross, MVector.sub, MPoint.toVector, scalar_vertex]
      norm_num
    simp only [point_is_inside_bary, get_bary_coords, hv0, hv1, hv2, hA, l1, l2, l3,
      Bool.false_eq_true, if_false, EPSILON]
    norm_num [abs_lt]
  · refine ⟨by norm_num, ?_, ?_, ?_⟩ <;> norm_num [scalar_vertex]
  · simp [get_matching_vertex, dart_polygon, linear_scan, WeightedVertex.equals_position,
      MPoint.sub, scalar_vertex, EPSILON]
    norm_num [abs_lt]
  · simp only [get_intersected_triangle, dart_polygon, linear_scan, hin, if_true]

/-! ### The slices of the quad -/

/-- The hypotheses of the slice theorem hold for the one-triangle mesh with a
vectorArray attribute, for which the constructor builds one polygon. -/
theorem polygon_slices_witness :
    (((retrieved_mesh MFnDataType.kOther (vector_triangle_maya : MayaMesh ℚ)).vertex_count ≠ 0 ∧
        (retrieved_mesh MFnDataType.kOther (vector_triangle_maya : MayaMesh ℚ)).vertex_count =
          (retrieved_mesh MFnDataType.kOther (vector_triangle_maya : MayaMesh ℚ)).weight_count ∧
        (vector_triangle_maya : MayaMesh ℚ).setObject_ok = true ∧
        ((((WeightedMesh.init MFnDataType.kOther : WeightedMesh ℚ).set_mesh
          vector_triangle_maya).2).set_weight_attribute vector_triangle_maya).1 = true) ∧
      (vector_triangle_maya : MayaMesh ℚ).positions.length =
        (vector_triangle_maya : MayaMesh ℚ).numVertices ∧
      (vector_triangle_maya : MayaMesh ℚ).numPolygons ≤
        (vector_triangle_maya : MayaMesh ℚ).tri_counts.length ∧
      polygon_start (vector_triangle_maya : MayaMesh ℚ).tri_counts
        (vector_triangle_maya : MayaMesh ℚ).numPolygons ≤
        (vector_triangle_maya : MayaMesh ℚ).tri_verts.length ∧
      ∀ k ∈ (vector_triangle_maya : MayaMesh ℚ).tri_verts.take
          (polygon_start (vector_triangle_maya : MayaMesh ℚ).tri_counts
            (vector_triangle_maya : MayaMesh ℚ).numPolygons),
        k < (vector_triangle_maya : MayaMesh ℚ).numVertices) ∧
    ∃ src polys, WeightsSource.construct Rat.sqrt MFnDataType.kOther
        (vector_triangle_maya : MayaMesh ℚ) = some src ∧
      src.weighted_polys = some polys ∧ polys.length = 1 :=
  ⟨⟨⟨by decide, rfl, rfl, rfl⟩, rfl, by decide, by decide, by decide⟩,
    (polygon_slices Rat.sqrt MFnDataType.kOther (vector_triangle_maya : MayaMesh ℚ)
      ⟨by decide, rfl, rfl, rfl⟩ rfl (by decide) (by decide) (by decide)).elim
      (fun src hs => hs.elim (fun polys hp => hp.elim (fun _ hv =>
        ⟨src, polys, hv.1, hv.2.1, hv.2.2.2.1⟩)))⟩

end Theorems

/-! ## Theorems on the double embedding -/

/-! ### Rounding -/

namespace Double

theorem log2Aux_eq (k : Nat) : ∀ (n acc : Nat), n < 2 ^ (2 ^ k) →
    log2Aux k n acc = acc + Nat.log 2 n := by
  induction k with
  | zero =>
    intro n acc hn
    simp only [pow_zero, pow_one] at hn
    have : Nat.log 2 n = 0 := Nat.log_of_lt hn
    simp [log2Aux, this]
  | succ k ih =>
    intro n acc hn
    unfold log2Aux
    split_ifs with h
    · have hlt : n / 2 ^ (2 ^ k) < 2 ^ (2 ^ k) := by
        rw [Nat.div_lt_iff_lt_mul (by positivity)]
        calc n < 2 ^ (2 ^ (k + 1)) := hn
          _ = 2 ^ (2 ^ k) * 2 ^ (2 ^ k) := by rw [← pow_add]; congr 1; ring
      rw [ih _ _ hlt]
      have hpos : 0 < n := lt_of_lt_of_le (by positivity) h
      have e : Nat.log 2 n = Nat.log 2 (n / 2 ^ (2 ^ k)) + 2 ^ k := by
        have hq : 0 < n / 2 ^ (2 ^ k) := Nat.div_pos h (by positivity)
        apply (Nat.log_eq_iff (Or.inr ⟨by norm_num, hpos.ne'⟩)).mpr
        have h1 := Nat.pow_log_le_self 2 hq.ne'
        have h2 := Nat.lt_pow_succ_log_self (b := 2) (by norm_num) (n / 2 ^ (2 ^ k))
        constructor
        · calc 2 ^ (Nat.log 2 (n / 2 ^ (2 ^ k)) + 2 ^ k)
              = 2 ^ Nat.log 2 (n / 2 ^ (2 ^ k)) * 2 ^ (2 ^ k) := by rw [pow_add]
            _ ≤ n / 2 ^ (2 ^ k) * 2 ^ (2 ^ k) := Nat.mul_le_mul_right _ h1
            _ ≤ n := Nat.div_mul_le_self _ _
        · have : n / 2 ^ (2 ^ k) + 1 ≤ 2 ^ (Nat.log 2 (n / 2 ^ (2 ^ k)) + 1) := h2
          calc n < (n / 2 ^ (2 ^ k) + 1) * 2 ^ (2 ^ k) := by
                exact Nat.lt_mul_of_div_lt (Nat.lt_succ_self _) (by positivity)
            _ ≤ 2 ^ (Nat.log 2 (n / 2 ^ (2 ^ k)) + 1) * 2 ^ (2 ^ k) :=
                Nat.mul_le_mul_right _ this
            _ = 2 ^ (Nat.log 2 (n / 2 ^ (2 ^ k)) + 2 ^ k + 1) := by
                rw [← pow_add]; congr 1; ring
      rw [e]; ring
    · exact ih _ _ (not_le.mp h)

theorem log2_eq (n : Nat) (hn : n < 2 ^ (2 ^ 14)) : log2 n = Nat.log 2 n := by
  unfold log2
  rw [log2Aux_eq 14 n 0 hn, Nat.zero_add]

theorem isFinite_iff (a : Double) : a.isFinite = true ↔ a.mag < infMag := by
  simp [isFinite]

theorem mant_expo_small (a : Double) (h : a.mag < 2 ^ 52) :
    a.mant = a.mag ∧ a.expo = 0 := by
  refine ⟨by unfold mant; rw [if_pos h], ?_⟩
  unfold expo
  rw [Nat.div_eq_of_lt h]

theorem mant_bounds_large (a : Double) (h : 2 ^ 52 ≤ a.mag) :
    2 ^ 52 ≤ a.mant ∧ a.mant < 2 ^ 53 ∧ a.expo * 2 ^ 52 + a.mant = a.mag := by
  have hm : a.mant = 2 ^ 52 + a.mag % 2 ^ 52 := by unfold mant; rw [if_neg (not_lt.mpr h)]
  have hmod : a.mag % 2 ^ 52 < 2 ^ 52 := Nat.mod_lt _ (by positivity)
  have hdiv : 1 ≤ a.mag / 2 ^ 52 := (Nat.one_le_div_iff (by positivity)).mpr h
  have hdm := Nat.div_add_mod a.mag (2 ^ 52)
  refine ⟨by omega, by rw [hm, pow_succ]; omega, ?_⟩
  unfold expo
  rw [hm]
  have : (a.mag / 2 ^ 52 - 1) * 2 ^ 52 = a.mag / 2 ^ 52 * 2 ^ 52 - 2 ^ 52 := by
    rw [Nat.sub_mul, one_mul]
  have h2 : 2 ^ 52 ≤ a.mag / 2 ^ 52 * 2 ^ 52 := Nat.le_mul_of_pos_left _ hdiv
  rw [this]
  have := Nat.mul_comm (2 ^ 52) (a.mag / 2 ^ 52)
  omega

theorem expo_le (a : Double) (h : a.mag < infMag) : a.expo ≤ 2045 := by
  unfold expo
  have : a.mag / 2 ^ 52 < 2047 := by
    rw [Nat.div_lt_iff_lt_mul (by positivity)]
    exact h
  omega

theorem mant_lt (a : Double) : a.mant < 2 ^ 53 := by
  rcases lt_or_le a.mag (2 ^ 52) with h | h
  · rw [(mant_expo_small a h).1]
    exact lt_trans h (by norm_num)
  · exact (mant_bounds_large a h).2.1

theorem expo_mant_mag (a : Double) : a.expo * 2 ^ 52 + a.mant = a.mag := by
  rcases lt_or_le a.mag (2 ^ 52) with h | h
  · rw [(mant_expo_small a h).1, (mant_expo_small a h).2]; simp
  · exact (mant_bounds_large a h).2.2

theorem num_lt (a : Double) (h : a.mag < infMag) : a.num < 2 ^ (2 ^ 14) := by
  unfold num
  have he := expo_le a h
  calc a.mant * 2 ^ a.expo < 2 ^ 53 * 2 ^ a.expo :=
        Nat.mul_lt_mul_of_pos_right (mant_lt a) (by positivity)
    _ = 2 ^ (53 + a.expo) := (pow_add 2 53 a.expo).symm
    _ ≤ 2 ^ (2 ^ 14) := Nat.pow_le_pow_right (by norm_num) (by norm_num; omega)

theorem num_eq_zero_iff (a : Double) : a.num = 0 ↔ a.mag = 0 := by
  unfold num
  rw [Nat.mul_eq_zero]
  constructor
  · rintro (h | h)
    · rcases lt_or_le a.mag (2 ^ 52) with h' | h'
      · rw [(mant_expo_small a h').1] at h; exact h
      · have := (mant_bounds_large a h').1
        rw [h] at this
        exact absurd this (by norm_num)
    · exact absurd h (by positivity)
  · intro h
    left
    unfold mant
    rw [if_pos (by rw [h]; positivity), h]

theorem log2_num (a : Double) (h : a.mag < infMag) : log2 a.num - 52 = a.expo := by
  rw [log2_eq _ (num_lt a h)]
  rcases lt_or_le a.mag (2 ^ 52) with h' | h'
  · obtain ⟨hm, he⟩ := mant_expo_small a h'
    unfold num
    rw [hm, he, pow_zero, mul_one]
    have : Nat.log 2 a.mag < 52 := by
      rcases Nat.eq_zero_or_pos a.mag with h0 | h0
      · rw [h0]; simp
      · exact Nat.log_lt_of_lt_pow h0.ne' h'
    omega
  · obtain ⟨h1, h2, _⟩ := mant_bounds_large a h'
    have : Nat.log 2 a.num = 52 + a.expo := by
      apply (Nat.log_eq_iff (Or.inr ⟨by norm_num, ?_⟩)).mpr
      · unfold num
        constructor
        · rw [pow_add]; exact Nat.mul_le_mul_right _ h1
        · rw [show 52 + a.expo + 1 = 53 + a.expo by ring, pow_add]
          exact Nat.mul_lt_mul_of_pos_right h2 (by positivity)
      · unfold num
        have : 0 < a.mant := lt_of_lt_of_le (by positivity) h1
        positivity
    omega

/-- A value that a finite double holds exactly is not changed by rounding. -/
theorem round_exact (s : Bool) (a : Double) (h : a.mag < infMag) (n d : Nat) (hd : 0 < d)
    (hv : n * 2 ^ 1074 = a.num * d) : round s n d = ⟨s, a.mag⟩ := by
  unfold round
  simp only
  have hQ : n * 2 ^ 1074 / d = a.num := by rw [hv]; exact Nat.mul_div_cancel _ hd
  rw [hQ, log2_num a h, hv]
  have hD : 0 < d * 2 ^ a.expo := by positivity
  have hN : a.num * d = a.mant * (d * 2 ^ a.expo) := by unfold num; ring
  rw [hN, Nat.mul_div_cancel _ hD, Nat.mul_mod_left]
  have c1 : ¬ (d * 2 ^ a.expo < 2 * 0 ∨ (2 * 0 = d * 2 ^ a.expo ∧ a.mant % 2 = 1)) := by
    rintro (h1 | ⟨h1, _⟩) <;> omega
  rw [if_neg c1, expo_mant_mag, Nat.min_eq_left h.le]

end Double

section DoubleTheorems

open Double

/-! ### Comparisons of doubles -/

theorem Double.isNaN_zero (s : Bool) : (Double.zero s).isNaN = false := by
  simp [Double.isNaN, Double.zero, Double.infMag]

theorem Double.key_zero (s : Bool) : (Double.zero s).key = 0 := by
  cases s <;> simp [Double.key, Double.zero]

theorem Double.isNaN_eq_false_of_finite {a : Double} (h : a.isFinite = true) :
    a.isNaN = false := by
  simp only [Double.isFinite, decide_eq_true_eq] at h
  simp only [Double.isNaN, decide_eq_false_iff_not, not_lt]
  exact h.le

theorem Double.sval_nonneg_iff (a : Double) : 0 ≤ a.sval ↔ 0 ≤ a.key := by
  unfold Double.sval Double.key
  cases hn : a.neg
  · simp
  · simp only [if_true, Left.nonneg_neg_iff, Nat.cast_nonpos]
    exact Double.num_eq_zero_iff a

theorem Double.toRat_nonneg_iff (a : Double) : 0 ≤ a.toRat ↔ 0 ≤ a.key := by
  rw [← Double.sval_nonneg_iff]
  unfold Double.toRat
  rw [div_nonneg_iff]
  constructor
  · rintro (⟨h, _⟩ | ⟨_, h⟩)
    · exact_mod_cast h
    · exact absurd h (not_le.mpr (by positivity))
  · intro h
    exact Or.inl ⟨by exact_mod_cast h, by positivity⟩

theorem fp_simple_sign_eq (a : Double) :
    Fp.simple_sign a = (!a.isNaN && decide (0 ≤ a.key)) := by
  simp [Fp.simple_sign, Double.ge, Double.le, Double.isNaN_zero, Double.key_zero]

/-- For a finite double `simple_sign` is the sign test of its exact value. -/
theorem fp_simple_sign_exact (a : Double) (h : a.isFinite = true) :
    Fp.simple_sign a = simple_sign a.toRat := by
  rw [fp_simple_sign_eq, Double.isNaN_eq_false_of_finite h]
  simp only [Bool.not_false, Bool.true_and, simple_sign, ge_iff_le]
  rw [decide_eq_decide]
  exact (Double.toRat_nonneg_iff a).symm

theorem Double.eq_zero_iff (a : Double) (s : Bool) :
    Double.eq a (Double.zero s) = true ↔ a.isNaN = false ∧ a.mag = 0 := by
  simp only [Double.eq, Double.isNaN_zero, Double.key_zero, Bool.not_false, Bool.and_true,
    Bool.and_eq_true, Bool.not_eq_true', decide_eq_true_eq]
  unfold Double.key
  cases a.neg <;> simp

theorem Double.round_neg (s : Bool) (n d : Nat) : (Double.round s n d).neg = s := rfl

theorem Double.round_mag_pos (s : Bool) (n : Nat) (hn : 0 < n) :
    (Double.round s n (2 ^ 1074)).mag ≠ 0 := by
  unfold Double.round
  simp only
  rw [Nat.mul_div_cancel _ (by positivity)]
  intro h
  have hinf : 0 < Double.infMag := by unfold Double.infMag; positivity
  rcases Nat.eq_zero_or_pos (Double.log2 n - 52) with he | he
  · rw [he] at h
    simp only [pow_zero, mul_one, zero_mul, zero_add] at h
    rw [Nat.mul_div_cancel _ (by positivity)] at h
    split_ifs at h <;> omega
  · have : 2 ^ 52 ≤ (Double.log2 n - 52) * 2 ^ 52 := Nat.le_mul_of_pos_left _ he
    have h52 : 0 < 2 ^ 52 := by positivity
    omega

theorem Double.num_pos_of_mag (a : Double) (h : a.mag ≠ 0) : 0 < a.num :=
  Nat.pos_of_ne_zero (fun h0 => h ((Double.num_eq_zero_iff a).mp h0))

theorem Double.negate_num (a : Double) : (Double.negate a).num = a.num := rfl

theorem Double.negate_isNaN (a : Double) : (Double.negate a).isNaN = a.isNaN := rfl

theorem Double.negate_isInf (a : Double) : (Double.negate a).isInf = a.isInf := rfl

theorem Double.isNaN_nan : Double.nan.isNaN = true := by
  simp [Double.isNaN, Double.nan]

/-- The sum of two values is a NaN or differs from zero when the exact sum of
two finite arguments differs from zero. -/
theorem Double.add_ne_zero (a b : Double)
    (h : a.isFinite = true → b.isFinite = true →
      (a.neg = b.neg ∧ 0 < a.num + b.num) ∨ (a.neg ≠ b.neg ∧ a.num ≠ b.num)) :
    Double.eq (Double.add a b) (Double.zero false) = false := by
  rw [Bool.eq_false_iff, Ne, Double.eq_zero_iff]
  rintro ⟨hnan, hmag⟩
  unfold Double.add at hnan hmag
  by_cases h1 : (a.isNaN || b.isNaN) = true
  · rw [if_pos h1] at hnan
    rw [Double.isNaN_nan] at hnan
    exact Bool.noConfusion hnan
  · rw [if_neg h1] at hnan hmag
    simp only [Bool.or_eq_true, not_or, Bool.not_eq_true] at h1
    have hinf : 0 < Double.infMag := by unfold Double.infMag; positivity
    by_cases h2 : a.isInf = true
    · rw [if_pos h2] at hnan hmag
      split_ifs at hnan hmag
      · rw [Double.isNaN_nan] at hnan; exact Bool.noConfusion hnan
      · simp only [Double.isInf, decide_eq_true_eq] at h2
        omega
    · rw [if_neg h2] at hmag
      by_cases h3 : b.isInf = true
      · rw [if_pos h3] at hmag
        simp only [Double.isInf, decide_eq_true_eq] at h3
        omega
      · rw [if_neg h3] at hmag
        have fa : a.isFinite = true := by
          simp only [Double.isFinite, Double.isNaN, Double.isInf, decide_eq_true_eq,
            decide_eq_false_iff_not] at h1 h2 ⊢
          omega
        have fb : b.isFinite = true := by
          simp only [Double.isFinite, Double.isNaN, Double.isInf, decide_eq_true_eq,
            decide_eq_false_iff_not] at h1 h3 ⊢
          omega
        rcases h fa fb with ⟨hs, hp⟩ | ⟨hs, hp⟩
        · rw [if_pos hs] at hmag
          exact Double.round_mag_pos _ _ hp hmag
        · rw [if_neg hs, if_neg hp] at hmag
          split_ifs at hmag with h4
          · exact Double.round_mag_pos _ _ (by omega) hmag
          · exact Double.round_mag_pos _ _ (by omega) hmag

theorem fp_simple_sign_true (a : Double) :
    Fp.simple_sign a = true ↔ a.isNaN = false ∧ (a.neg = false ∨ a.mag = 0) := by
  rw [fp_simple_sign_eq]
  simp only [Bool.and_eq_true, Bool.not_eq_true', decide_eq_true_eq]
  unfold Double.key
  cases a.neg <;> simp

/-- When `simple_sign` separates two values their difference is not zero. -/
theorem sub_ne_zero_of_simple_sign (a b : Double)
    (hs : Fp.simple_sign a ≠ Fp.simple_sign b) :
    Double.eq (Double.sub b a) (Double.zero false) = false := by
  unfold Double.sub
  apply Double.add_ne_zero
  intro fb fa
  have fa' : a.isFinite = true := fa
  have na := Double.isNaN_eq_false_of_finite fa'
  have nb := Double.isNaN_eq_false_of_finite fb
  rw [Double.negate_num]
  have hneg : (Double.negate a).neg = !a.neg := rfl
  rw [hneg]
  cases ha : Fp.simple_sign a <;> cases hb : Fp.simple_sign b
  · exact absurd (ha.trans hb.symm) hs
  · have h1 := (fp_simple_sign_true b).mp hb
    have h0 : ¬ (a.isNaN = false ∧ (a.neg = false ∨ a.mag = 0)) :=
      fun h => by rw [(fp_simple_sign_true a).mpr h] at ha; exact Bool.noConfusion ha
    have han : a.neg = true ∧ a.mag ≠ 0 := by
      constructor
      · cases h : a.neg
        · exact absurd ⟨na, Or.inl h⟩ h0
        · rfl
      · intro h; exact h0 ⟨na, Or.inr h⟩
    have hpa := Double.num_pos_of_mag a han.2
    rcases h1.2 with hbn | hbm
    · left; rw [han.1, hbn]; exact ⟨rfl, by omega⟩
    · rcases Bool.eq_false_or_eq_true b.neg with hbn | hbn
      · right
        rw [han.1, hbn]
        refine ⟨by simp, ?_⟩
        have : b.num = 0 := (Double.num_eq_zero_iff b).mpr hbm
        omega
      · left; rw [han.1, hbn]; exact ⟨rfl, by omega⟩
  · have h1 := (fp_simple_sign_true a).mp ha
    have h0 : ¬ (b.isNaN = false ∧ (b.neg = false ∨ b.mag = 0)) :=
      fun h => by rw [(fp_simple_sign_true b).mpr h] at hb; exact Bool.noConfusion hb
    have hbn : b.neg = true ∧ b.mag ≠ 0 := by
      constructor
      · cases h : b.neg
        · exact absurd ⟨nb, Or.inl h⟩ h0
        · rfl
      · intro h; exact h0 ⟨nb, Or.inr h⟩
    have hpb := Double.num_pos_of_mag b hbn.2
    rcases h1.2 with han | ham
    · left; rw [hbn.1, han]; exact ⟨rfl, by omega⟩
    · rcases Bool.eq_false_or_eq_true a.neg with han | han
      · right
        rw [hbn.1, han]
        refine ⟨by simp, ?_⟩
        have : a.num = 0 := (Double.num_eq_zero_iff a).mpr ham
        omega
      · left; rw [hbn.1, han]; exact ⟨rfl, by omega⟩
  · exact absurd (ha.trans hb.symm) hs

/-! ### The crossing rule in double arithmetic -/

/-- C26 fails as stated: in double arithmetic the edge from (-15,-11) to (15,11)
is not counted, the same edge passed from (15,11) to (-15,-11) is counted. -/
theorem edge_order_changes_result :
    Fp.edge_crosses_x_axis ⟨Fp.int (-15), Fp.int (-11)⟩ ⟨Fp.int 15, Fp.int 11⟩ = false ∧
    Fp.edge_crosses_x_axis ⟨Fp.int 15, Fp.int 11⟩ ⟨Fp.int (-15), Fp.int (-11)⟩ = true := by
  decide!

/-- C26 amended: `edge_crosses_x_axis(p0,p1) = edge_crosses_x_axis(p1,p0)` in
double arithmetic whenever the x-intercept is not computed, that is when both
`y` are zero, or `simple_sign` agrees on the two `y`, or `simple_sign` agrees
on the two `x`. -/
theorem edge_crossing_symmetric_without_intercept (p0 p1 : Point2d Double)
    (h : (Double.eq p0.y (Double.zero false) && Double.eq p1.y (Double.zero false)) = true ∨
      Fp.simple_sign p0.y = Fp.simple_sign p1.y ∨
      Fp.simple_sign p0.x = Fp.simple_sign p1.x) :
    Fp.edge_crosses_x_axis p0 p1 = Fp.edge_crosses_x_axis p1 p0 := by
  unfold Fp.edge_crosses_x_axis
  simp only
  generalize Double.eq p0.y (Double.zero false) = a at *
  generalize Double.eq p1.y (Double.zero false) = b at *
  generalize Fp.simple_sign p0.y = c at *
  generalize Fp.simple_sign p1.y = d at *
  generalize Fp.simple_sign p0.x = e at *
  generalize Fp.simple_sign p1.x = f at *
  generalize Double.gt p0.x (Double.zero false) = g at *
  generalize Double.gt p1.x (Double.zero false) = k at *
  generalize Fp.simple_sign (Double.sub p0.x (Double.mul
    (Double.div (Double.sub p1.x p0.x) (Double.sub p1.y p0.y)) p0.y)) = r1 at *
  generalize Fp.simple_sign (Double.sub p1.x (Double.mul
    (Double.div (Double.sub p0.x p1.x) (Double.sub p0.y p1.y)) p1.y)) = r2 at *
  revert h
  cases a <;> cases b <;> cases c <;> cases d <;> cases e <;> cases f <;> cases g <;>
    cases k <;> simp

/-- The hypothesis holds for the edge from (1,0) to (3,0), which lies on the
X-axis. -/
theorem edge_crossing_symmetric_without_intercept_witness :
    (Double.eq (Fp.int 0) (Double.zero false) && Double.eq (Fp.int 0) (Double.zero false))
      = true ∧
    Fp.edge_crosses_x_axis ⟨Fp.int 1, Fp.int 0⟩ ⟨Fp.int 3, Fp.int 0⟩ =
      Fp.edge_crosses_x_axis ⟨Fp.int 3, Fp.int 0⟩ ⟨Fp.int 1, Fp.int 0⟩ :=
  ⟨by decide!, edge_crossing_symmetric_without_intercept ⟨Fp.int 1, Fp.int 0⟩
    ⟨Fp.int 3, Fp.int 0⟩ (Or.inl (by decide!))⟩

/-- C25 fails as stated: the `y` coordinates of (-15,-11) and (15,11) are on
different sides, the exact x-intercept of the edge is 0, which is `>= 0`, and
`edge_crosses_x_axis` returns false, because the intercept as rounded is
negative. -/
theorem intercept_test_disagrees :
    Fp.simple_sign (Fp.int (-11)) ≠ Fp.simple_sign (Fp.int 11) ∧
    (Fp.int (-15)).toRat - (Fp.int (-11)).toRat *
      ((Fp.int 15).toRat - (Fp.int (-15)).toRat) /
      ((Fp.int 11).toRat - (Fp.int (-11)).toRat) ≥ 0 ∧
    Fp.edge_crosses_x_axis ⟨Fp.int (-15), Fp.int (-11)⟩ ⟨Fp.int 15, Fp.int 11⟩ = false ∧
    Double.lt (Double.sub (Fp.int (-15)) (Double.mul
      (Double.div (Double.sub (Fp.int 15) (Fp.int (-15))) (Double.sub (Fp.int 11) (Fp.int (-11))))
      (Fp.int (-11)))) (Double.zero false) = true := by
  decide!

/-- C25 amended: for finite endpoints whose `y` coordinates fall on different
sides under `simple_sign`, the divisor `p1.y - p0.y` as computed is not zero;
when both `x >= 0` the function returns true and the exact intercept is `>= 0`;
when both `x < 0` it returns false and the exact intercept is negative; in the
remaining case it returns the sign test of the intercept as rounded. -/
theorem edge_shortcuts_in_doubles (p0 p1 : Point2d Double)
    (hfin : p0.x.isFinite = true ∧ p0.y.isFinite = true ∧ p1.x.isFinite = true ∧
      p1.y.isFinite = true)
    (hs : Fp.simple_sign p0.y ≠ Fp.simple_sign p1.y) :
    Double.eq (Double.sub p1.y p0.y) (Double.zero false) = false ∧
    (Fp.simple_sign p0.x = true ∧ Fp.simple_sign p1.x = true →
      Fp.edge_crosses_x_axis p0 p1 = true ∧
      p0.x.toRat - p0.y.toRat * (p1.x.toRat - p0.x.toRat) / (p1.y.toRat - p0.y.toRat) ≥ 0) ∧
    (Fp.simple_sign p0.x = false ∧ Fp.simple_sign p1.x = false →
      Fp.edge_crosses_x_axis p0 p1 = false ∧
      p0.x.toRat - p0.y.toRat * (p1.x.toRat - p0.x.toRat) / (p1.y.toRat - p0.y.toRat) < 0) ∧
    (Fp.simple_sign p0.x ≠ Fp.simple_sign p1.x →
      Fp.edge_crosses_x_axis p0 p1 =
        Fp.simple_sign (Double.sub p0.x (Double.mul
          (Double.div (Double.sub p1.x p0.x) (Double.sub p1.y p0.y)) p0.y))) := by
  obtain ⟨f0x, f0y, f1x, f1y⟩ := hfin
  have hzero : ¬ ((Double.eq p0.y (Double.zero false) &&
      Double.eq p1.y (Double.zero false)) = true) := by
    intro h
    simp only [Bool.and_eq_true] at h
    apply hs
    rw [(fp_simple_sign_true _).mpr ⟨((Double.eq_zero_iff _ _).mp h.1).1,
        Or.inr ((Double.eq_zero_iff _ _).mp h.1).2⟩,
      (fp_simple_sign_true _).mpr ⟨((Double.eq_zero_iff _ _).mp h.2).1,
        Or.inr ((Double.eq_zero_iff _ _).mp h.2).2⟩]
  have hex : simple_sign (Fp.exact2d p0).y ≠ simple_sign (Fp.exact2d p1).y := by
    show simple_sign p0.y.toRat ≠ simple_sign p1.y.toRat
    rw [← fp_simple_sign_exact _ f0y, ← fp_simple_sign_exact _ f1y]
    exact hs
  obtain ⟨_, _, hpos, hneg⟩ := exact_edge_shortcuts (Fp.exact2d p0) (Fp.exact2d p1) hex
  refine ⟨sub_ne_zero_of_simple_sign _ _ hs, ?_, ?_, ?_⟩
  · rintro ⟨h0, h1⟩
    refine ⟨?_, ?_⟩
    · unfold Fp.edge_crosses_x_axis
      rw [if_neg hzero, if_neg hs]
      simp [h0, h1]
    · apply hpos
      show simple_sign p0.x.toRat = true ∧ simple_sign p1.x.toRat = true
      rw [← fp_simple_sign_exact _ f0x, ← fp_simple_sign_exact _ f1x]
      exact ⟨h0, h1⟩
  · rintro ⟨h0, h1⟩
    refine ⟨?_, ?_⟩
    · unfold Fp.edge_crosses_x_axis
      rw [if_neg hzero, if_neg hs]
      simp [h0, h1]
    · apply lt_of_not_ge
      apply hneg
      show simple_sign p0.x.toRat = false ∧ simple_sign p1.x.toRat = false
      rw [← fp_simple_sign_exact _ f0x, ← fp_simple_sign_exact _ f1x]
      exact ⟨h0, h1⟩
  · intro hx
    unfold Fp.edge_crosses_x_axis
    rw [if_neg hzero, if_neg hs]
    revert hx
    cases Fp.simple_sign p0.x <;> cases Fp.simple_sign p1.x <;> simp

/-- The hypotheses hold for the edge from (1,-1) to (3,1), which is counted and
has the exact intercept 2. -/
theorem edge_shortcuts_in_doubles_witness :
    (((Fp.int 1).isFinite = true ∧ (Fp.int (-1)).isFinite = true ∧
        (Fp.int 3).isFinite = true ∧ (Fp.int 1).isFinite = true) ∧
      Fp.simple_sign (Fp.int (-1)) ≠ Fp.simple_sign (Fp.int 1)) ∧
    Double.eq (Double.sub (Fp.int 1) (Fp.int (-1))) (Double.zero false) = false ∧
    Fp.edge_crosses_x_axis ⟨Fp.int 1, Fp.int (-1)⟩ ⟨Fp.int 3, Fp.int 1⟩ = true :=
  ⟨⟨by decide!, by decide!⟩,
    (edge_shortcuts_in_doubles ⟨Fp.int 1, Fp.int (-1)⟩ ⟨Fp.int 3, Fp.int 1⟩ (by decide!)
      (by decide!)).1,
    ((edge_shortcuts_in_doubles ⟨Fp.int 1, Fp.int (-1)⟩ ⟨Fp.int 3, Fp.int 1⟩ (by decide!)
      (by decide!)).2.1 (by decide!)).1⟩

/-! ### Classes of values -/

theorem Double.infMag_pos : 0 < Double.infMag := by unfold Double.infMag; positivity

theorem Double.finite_iff (a : Double) :
    a.isFinite = true ↔ a.isNaN = false ∧ a.isInf = false := by
  simp only [Double.isFinite, Double.isNaN, Double.isInf, decide_eq_true_eq,
    decide_eq_false_iff_not]
  omega

theorem Double.isFinite_eq_false (a : Double) :
    a.isFinite = false ↔ a.isNaN = true ∨ a.isInf = true := by
  simp only [Double.isFinite, Double.isNaN, Double.isInf, decide_eq_true_eq,
    decide_eq_false_iff_not]
  omega

theorem Double.isZero_iff (a : Double) : a.isZero = true ↔ a.mag = 0 := by
  simp [Double.isZero]

theorem Double.isFinite_of_mag_zero (a : Double) (h : a.mag = 0) : a.isFinite = true := by
  simp only [Double.isFinite, decide_eq_true_eq, h]
  exact Double.infMag_pos

theorem Double.isFinite_zero (s : Bool) : (Double.zero s).isFinite = true :=
  Double.isFinite_of_mag_zero _ rfl

theorem Double.isFinite_nan : Double.nan.isFinite = false := by
  rw [Double.isFinite_eq_false]; exact Or.inl Double.isNaN_nan

theorem Double.isFinite_inf (s : Bool) : (Double.inf s).isFinite = false := by
  rw [Double.isFinite_eq_false]; right; simp [Double.isInf, Double.inf]

theorem Double.num_of_mag_eq {a b : Double} (h : a.mag = b.mag) : a.num = b.num := by
  unfold Double.num Double.mant Double.expo
  rw [h]

theorem Double.num_zero (s : Bool) : (Double.zero s).num = 0 :=
  (Double.num_eq_zero_iff _).mpr rfl

/-! ### Rounding -/

theorem Double.round_zero (s : Bool) (d : Nat) (hd : 0 < d) :
    Double.round s 0 d = Double.zero s := by
  have h := Double.round_exact s (Double.zero s) Double.infMag_pos 0 d hd
    (by rw [Double.num_zero, Nat.zero_mul, Nat.zero_mul])
  exact h

/-! ### Finite results come from finite arguments -/

theorem Double.add_finite (a b : Double) (h : (Double.add a b).isFinite = true) :
    a.isFinite = true ∧ b.isFinite = true := by
  unfold Double.add at h
  by_cases h1 : (a.isNaN || b.isNaN) = true
  · rw [if_pos h1, Double.isFinite_nan] at h; exact Bool.noConfusion h
  · rw [if_neg h1] at h
    simp only [Bool.or_eq_true, not_or, Bool.not_eq_true] at h1
    by_cases h2 : a.isInf = true
    · rw [if_pos h2] at h
      split_ifs at h
      · rw [Double.isFinite_nan] at h; exact Bool.noConfusion h
      · rw [(Double.isFinite_eq_false a).mpr (Or.inr h2)] at h; exact Bool.noConfusion h
    · rw [if_neg h2] at h
      by_cases h3 : b.isInf = true
      · rw [if_pos h3, (Double.isFinite_eq_false b).mpr (Or.inr h3)] at h
        exact Bool.noConfusion h
      · exact ⟨(Double.finite_iff a).mpr ⟨h1.1, by simpa using h2⟩,
          (Double.finite_iff b).mpr ⟨h1.2, by simpa using h3⟩⟩

theorem Double.sub_finite (a b : Double) (h : (Double.sub a b).isFinite = true) :
    a.isFinite = true ∧ b.isFinite = true := by
  have := Double.add_finite a (Double.negate b) h
  exact this

theorem Double.mul_finite (a b : Double) (h : (Double.mul a b).isFinite = true) :
    a.isFinite = true ∧ b.isFinite = true := by
  unfold Double.mul at h
  by_cases h1 : (a.isNaN || b.isNaN) = true
  · rw [if_pos h1, Double.isFinite_nan] at h; exact Bool.noConfusion h
  · rw [if_neg h1] at h
    simp only [Bool.or_eq_true, not_or, Bool.not_eq_true] at h1
    by_cases h2 : (a.isInf || b.isInf) = true
    · rw [if_pos h2] at h
      split_ifs at h
      · rw [Double.isFinite_nan] at h; exact Bool.noConfusion h
      · rw [Double.isFinite_inf] at h; exact Bool.noConfusion h
    · simp only [Bool.or_eq_true, not_or, Bool.not_eq_true] at h2
      exact ⟨(Double.finite_iff a).mpr ⟨h1.1, h2.1⟩, (Double.finite_iff b).mpr ⟨h1.2, h2.2⟩⟩

theorem Double.sqrt_finite (a : Double) (h : (Double.sqrt a).isFinite = true) :
    a.isFinite = true := by
  unfold Double.sqrt at h
  by_cases h1 : a.isNaN = true
  · rw [if_pos h1, Double.isFinite_nan] at h; exact Bool.noConfusion h
  · rw [if_neg h1] at h
    by_cases h2 : a.isZero = true
    · exact Double.isFinite_of_mag_zero a ((Double.isZero_iff a).mp h2)
    · rw [if_neg h2] at h
      by_cases h3 : a.neg = true
      · rw [if_pos h3, Double.isFinite_nan] at h; exact Bool.noConfusion h
      · rw [if_neg h3] at h
        by_cases h4 : a.isInf = true
        · rw [if_pos h4] at h; exact h
        · exact (Double.finite_iff a).mpr ⟨by simpa using h1, by simpa using h4⟩

/-- The sign bit of a square root that is finite and not zero is clear. -/
theorem Double.sqrt_neg (a : Double)
    (hz : (Double.sqrt a).isZero = false) : (Double.sqrt a).neg = false := by
  unfold Double.sqrt at hz ⊢
  by_cases h1 : a.isNaN = true
  · rw [if_pos h1]; rfl
  · rw [if_neg h1] at hz ⊢
    by_cases h2 : a.isZero = true
    · rw [if_pos h2] at hz; rw [h2] at hz; exact Bool.noConfusion hz
    · rw [if_neg h2] at hz ⊢
      by_cases h3 : a.neg = true
      · rw [if_pos h3]; rfl
      · rw [if_neg h3] at hz ⊢
        by_cases h4 : a.isInf = true
        · rw [if_pos h4]; simpa using h3
        · rw [if_neg h4]

/-! ### Zeros -/

theorem Double.sub_self (a : Double) (h : a.isFinite = true) :
    Double.sub a a = Double.zero false := by
  have hn := Double.isNaN_eq_false_of_finite h
  have hi := ((Double.finite_iff a).mp h).2
  unfold Double.sub Double.add
  rw [Double.negate_isNaN, Double.negate_isInf, hn, hi]
  simp only [Bool.or_self, Bool.false_eq_true, if_false, Double.negate_num, if_true]
  have : ¬ (a.neg = (Double.negate a).neg) := by
    show ¬ (a.neg = !a.neg)
    cases a.neg <;> simp
  rw [if_neg this]

theorem Double.mul_zero_left (z a : Double) (hz : z.mag = 0) (ha : a.isFinite = true) :
    Double.mul z a = Double.zero (z.neg != a.neg) := by
  have fz := Double.isFinite_of_mag_zero z hz
  unfold Double.mul
  rw [Double.isNaN_eq_false_of_finite fz, Double.isNaN_eq_false_of_finite ha,
    ((Double.finite_iff z).mp fz).2, ((Double.finite_iff a).mp ha).2]
  simp only [Bool.or_self, Bool.false_eq_true, if_false]
  rw [(Double.num_eq_zero_iff z).mpr hz, Nat.zero_mul]
  exact Double.round_zero _ _ (by positivity)

theorem Double.mul_zero_right (a z : Double) (hz : z.mag = 0) (ha : a.isFinite = true) :
    Double.mul a z = Double.zero (a.neg != z.neg) := by
  have fz := Double.isFinite_of_mag_zero z hz
  unfold Double.mul
  rw [Double.isNaN_eq_false_of_finite fz, Double.isNaN_eq_false_of_finite ha,
    ((Double.finite_iff z).mp fz).2, ((Double.finite_iff a).mp ha).2]
  simp only [Bool.or_self, Bool.false_eq_true, if_false]
  rw [(Double.num_eq_zero_iff z).mpr hz, Nat.mul_zero]
  exact Double.round_zero _ _ (by positivity)

/-- The sum of two zeros is a zero. -/
theorem Double.add_zeros (a b : Double) (ha : a.mag = 0) (hb : b.mag = 0) :
    (Double.add a b).mag = 0 := by
  have fa := Double.isFinite_of_mag_zero a ha
  have fb := Double.isFinite_of_mag_zero b hb
  unfold Double.add
  rw [Double.isNaN_eq_false_of_finite fa, Double.isNaN_eq_false_of_finite fb,
    ((Double.finite_iff a).mp fa).2, ((Double.finite_iff b).mp fb).2]
  simp only [Bool.or_self, Bool.false_eq_true, if_false]
  rw [(Double.num_eq_zero_iff a).mpr ha, (Double.num_eq_zero_iff b).mpr hb]
  simp only [Nat.add_zero, if_true]
  split_ifs
  · rw [Double.round_zero _ _ (by positivity)]; rfl
  · rfl

theorem Double.sub_zeros (a b : Double) (ha : a.mag = 0) (hb : b.mag = 0) :
    (Double.sub a b).mag = 0 :=
  Double.add_zeros a (Double.negate b) ha hb

/-! ### Exact results -/

theorem Double.one_eq : Double.ofNat 1 = ⟨false, 1023 * 2 ^ 52⟩ := by decide!

theorem Double.num_one : (Double.ofNat 1).num = 2 ^ 1074 := by decide!

theorem Double.isFinite_one : (Double.ofNat 1).isFinite = true := by decide!

/-- Multiplying a finite double by 1 does not change it. -/
theorem Double.mul_one (a : Double) (h : a.isFinite = true) :
    Double.mul a (Double.ofNat 1) = a := by
  unfold Double.mul
  rw [Double.isNaN_eq_false_of_finite h, Double.isNaN_eq_false_of_finite Double.isFinite_one,
    ((Double.finite_iff a).mp h).2, ((Double.finite_iff _).mp Double.isFinite_one).2]
  simp only [Bool.or_self, Bool.false_eq_true, if_false]
  rw [Double.num_one]
  have hneg : (Double.ofNat 1).neg = false := rfl
  rw [hneg, Double.round_exact _ a ((Double.isFinite_iff a).mp h) _ _ (by positivity)
    (by rw [Nat.mul_assoc, ← pow_add])]
  rcases a with ⟨n, m⟩
  cases n <;> rfl

/-- Dividing a finite double that is not zero by itself gives 1. -/
theorem Double.div_self (a : Double) (h : a.isFinite = true) (hz : a.isZero = false) :
    Double.div a a = Double.ofNat 1 := by
  have hm : a.mag ≠ 0 := fun h0 => by
    rw [(Double.isZero_iff a).mpr h0] at hz; exact Bool.noConfusion hz
  unfold Double.div
  rw [Double.isNaN_eq_false_of_finite h, ((Double.finite_iff a).mp h).2, hz]
  simp only [Bool.or_self, Bool.false_eq_true, if_false, bne_self_eq_false]
  rw [Double.one_eq]
  have h1 : (⟨false, 1023 * 2 ^ 52⟩ : Double).mag < Double.infMag := by
    show 1023 * 2 ^ 52 < 2047 * 2 ^ 52
    exact Nat.mul_lt_mul_of_pos_right (by norm_num) (by positivity)
  have hnum : (⟨false, 1023 * 2 ^ 52⟩ : Double).num = 2 ^ 1074 := by
    rw [← Double.one_eq]; exact Double.num_one
  exact Double.round_exact false ⟨false, 1023 * 2 ^ 52⟩ h1 a.num a.num
    (Double.num_pos_of_mag a hm) (by rw [hnum, Nat.mul_comm])

/-- Adding a zero to a finite double keeps its value. -/
theorem Double.add_zero_right (a z : Double) (h : a.isFinite = true) (hz : z.mag = 0) :
    (Double.add a z).isFinite = true ∧ (Double.add a z).key = a.key := by
  have fz := Double.isFinite_of_mag_zero z hz
  have hnz : z.num = 0 := (Double.num_eq_zero_iff z).mpr hz
  unfold Double.add
  rw [Double.isNaN_eq_false_of_finite fz, Double.isNaN_eq_false_of_finite h,
    ((Double.finite_iff z).mp fz).2, ((Double.finite_iff a).mp h).2]
  simp only [Bool.or_self, Bool.false_eq_true, if_false]
  rw [hnz, Nat.add_zero, Nat.sub_zero]
  have hex : ∀ s, Double.round s a.num (2 ^ 1074) = ⟨s, a.mag⟩ := fun s =>
    Double.round_exact s a ((Double.isFinite_iff a).mp h) _ _ (by positivity) rfl
  have hself : (⟨a.neg, a.mag⟩ : Double) = a := by cases a; rfl
  split_ifs with h1 h2 h3
  · rw [hex, hself]; exact ⟨h, rfl⟩
  · refine ⟨Double.isFinite_zero _, ?_⟩
    have : a.mag = 0 := (Double.num_eq_zero_iff a).mp h2
    rw [Double.key_zero]
    unfold Double.key
    rw [this]
    simp
  · rw [hex, hself]; exact ⟨h, rfl⟩
  · exact absurd (Nat.pos_of_ne_zero h2) h3

theorem Double.add_zero_left (z a : Double) (h : a.isFinite = true) (hz : z.mag = 0) :
    (Double.add z a).isFinite = true ∧ (Double.add z a).key = a.key := by
  have fz := Double.isFinite_of_mag_zero z hz
  have hnz : z.num = 0 := (Double.num_eq_zero_iff z).mpr hz
  unfold Double.add
  rw [Double.isNaN_eq_false_of_finite fz, Double.isNaN_eq_false_of_finite h,
    ((Double.finite_iff z).mp fz).2, ((Double.finite_iff a).mp h).2]
  simp only [Bool.or_self, Bool.false_eq_true, if_false]
  rw [hnz, Nat.zero_add, Nat.sub_zero]
  have hex : ∀ s, Double.round s a.num (2 ^ 1074) = ⟨s, a.mag⟩ := fun s =>
    Double.round_exact s a ((Double.isFinite_iff a).mp h) _ _ (by positivity) rfl
  have hself : (⟨a.neg, a.mag⟩ : Double) = a := by cases a; rfl
  split_ifs with h1 h2 h3
  · rw [hex, h1, hself]; exact ⟨h, rfl⟩
  · refine ⟨Double.isFinite_zero _, ?_⟩
    have : a.mag = 0 := (Double.num_eq_zero_iff a).mp h2.symm
    rw [Double.key_zero]
    unfold Double.key
    rw [this]
    simp
  · exact absurd h3 (Nat.not_lt_zero _)
  · rw [hex, hself]; exact ⟨h, rfl⟩

/-- Two doubles that are not NaNs and have the same key compare equal. -/
theorem Double.eq_of_key (a b : Double) (ha : a.isFinite = true) (hb : b.isFinite = true)
    (h : a.key = b.key) : Double.eq a b = true := by
  simp [Double.eq, Double.isNaN_eq_false_of_finite ha, Double.isNaN_eq_false_of_finite hb, h]

/-! ### Symmetry -/

theorem Double.mul_comm (a b : Double) : Double.mul a b = Double.mul b a := by
  unfold Double.mul
  rw [Bool.or_comm a.isNaN, Bool.or_comm a.isInf, Bool.or_comm a.isZero, Nat.mul_comm a.num]
  have : (a.neg != b.neg) = (b.neg != a.neg) := by cases a.neg <;> cases b.neg <;> rfl
  rw [this]

/-- The magnitude of a difference of finite doubles does not depend on the
order of the operands. -/
theorem Double.sub_mag_comm (a b : Double) (ha : a.isFinite = true) (hb : b.isFinite = true) :
    (Double.sub a b).mag = (Double.sub b a).mag := by
  unfold Double.sub Double.add
  rw [Double.negate_isNaN, Double.negate_isNaN, Double.negate_isInf, Double.negate_isInf,
    Double.isNaN_eq_false_of_finite ha, Double.isNaN_eq_false_of_finite hb,
    ((Double.finite_iff a).mp ha).2, ((Double.finite_iff b).mp hb).2]
  simp only [Bool.or_self, Bool.false_eq_true, if_false, Double.negate_num]
  have hn : ∀ x : Double, (Double.negate x).neg = !x.neg := fun _ => rfl
  rw [hn, hn]
  have hmag : ∀ s s' n, (Double.round s n (2 ^ 1074)).mag = (Double.round s' n (2 ^ 1074)).mag :=
    fun _ _ _ => rfl
  by_cases hs : a.neg = !b.neg
  · have hs' : b.neg = !a.neg := by rw [hs]; simp
    rw [if_pos hs, if_pos hs', Nat.add_comm]
    exact hmag _ _ _
  · have hs' : ¬ (b.neg = !a.neg) := fun h => hs (by rw [h]; simp)
    rw [if_neg hs, if_neg hs']
    rcases Nat.lt_trichotomy a.num b.num with h | h | h
    · rw [if_neg (Nat.ne_of_lt h), if_neg (Nat.lt_asymm h), if_neg (Nat.ne_of_gt h), if_pos h]
      exact hmag _ _ _
    · rw [if_pos h, if_pos h.symm]
    · rw [if_neg (Nat.ne_of_gt h), if_pos h, if_neg (Nat.ne_of_lt h), if_neg (Nat.lt_asymm h)]
      exact hmag _ _ _

/-- The square of a double depends on its magnitude only. -/
theorem Double.mul_self_of_mag (a b : Double) (h : a.mag = b.mag) :
    Double.mul a a = Double.mul b b := by
  unfold Double.mul Double.isNaN Double.isInf Double.isZero
  rw [h, Double.num_of_mag_eq h]
  simp only [bne_self_eq_false]

/-- The magnitude of a difference does not depend on the order of the operands. -/
theorem Double.sub_mag_comm_all (a b : Double) :
    (Double.sub a b).mag = (Double.sub b a).mag := by
  cases ha : a.isFinite <;> cases hb : b.isFinite
  · rcases (Double.isFinite_eq_false a).mp ha with ha1 | ha1 <;>
      rcases (Double.isFinite_eq_false b).mp hb with hb1 | hb1
    · simp [Double.sub, Double.add, ha1, hb1, Double.negate_isNaN]
    · simp [Double.sub, Double.add, ha1, hb1, Double.negate_isNaN]
    · simp [Double.sub, Double.add, ha1, hb1, Double.negate_isNaN]
    · have na : a.isNaN = false := by
        simp only [Double.isNaN, Double.isInf, decide_eq_true_eq, decide_eq_false_iff_not] at *
        omega
      have nb : b.isNaN = false := by
        simp only [Double.isNaN, Double.isInf, decide_eq_true_eq, decide_eq_false_iff_not] at *
        omega
      have ma : a.mag = Double.infMag := by simpa [Double.isInf] using ha1
      have mb : b.mag = Double.infMag := by simpa [Double.isInf] using hb1
      simp only [Double.sub, Double.add, Double.negate_isNaN, Double.negate_isInf, na, nb, ha1,
        hb1, Bool.or_self, Bool.false_eq_true, if_false, if_true, Bool.true_and]
      have hn : ∀ x : Double, (Double.negate x).neg = !x.neg := fun _ => rfl
      rw [hn, hn]
      cases a.neg <;> cases b.neg <;> simp [ma, mb]
  · rcases (Double.isFinite_eq_false a).mp ha with ha1 | ha1
    · simp [Double.sub, Double.add, ha1, Double.negate_isNaN]
    · have na : a.isNaN = false := by
        simp only [Double.isNaN, Double.isInf, decide_eq_true_eq, decide_eq_false_iff_not] at *
        omega
      have nb := Double.isNaN_eq_false_of_finite hb
      have ib := ((Double.finite_iff b).mp hb).2
      simp only [Double.sub, Double.add, Double.negate_isNaN, Double.negate_isInf, na, nb, ha1,
        ib, Bool.or_self, Bool.false_eq_true, if_false, if_true, Bool.false_and]
      rfl
  · rcases (Double.isFinite_eq_false b).mp hb with hb1 | hb1
    · simp [Double.sub, Double.add, hb1, Double.negate_isNaN]
    · have nb : b.isNaN = false := by
        simp only [Double.isNaN, Double.isInf, decide_eq_true_eq, decide_eq_false_iff_not] at *
        omega
      have na := Double.isNaN_eq_false_of_finite ha
      have ia := ((Double.finite_iff a).mp ha).2
      simp only [Double.sub, Double.add, Double.negate_isNaN, Double.negate_isInf, na, nb, hb1,
        ia, Bool.or_self, Bool.false_eq_true, if_false, if_true, Bool.false_and]
      rfl
  · exact Double.sub_mag_comm a b ha hb

theorem Double.isFinite_of_mag_eq {a b : Double} (h : a.mag = b.mag) :
    a.isFinite = b.isFinite := by
  unfold Double.isFinite; rw [h]

/-! ### Vectors -/

theorem length_cross_comm (a b : MVector Double) :
    Fp.length (Fp.cross a b) = Fp.length (Fp.cross b a) := by
  unfold Fp.length Fp.cross
  simp only
  rw [Double.mul_self_of_mag _ _ (Double.sub_mag_comm_all (Double.mul a.y b.z) (Double.mul a.z b.y)),
    Double.mul_self_of_mag _ _ (Double.sub_mag_comm_all (Double.mul a.z b.x) (Double.mul a.x b.z)),
    Double.mul_self_of_mag _ _ (Double.sub_mag_comm_all (Double.mul a.x b.y) (Double.mul a.y b.x)),
    Double.mul_comm a.z b.y, Double.mul_comm a.y b.z, Double.mul_comm a.x b.z,
    Double.mul_comm a.z b.x, Double.mul_comm a.y b.x, Double.mul_comm a.x b.y]

theorem length_finite (v : MVector Double) (h : (Fp.length v).isFinite = true) :
    Fp.FiniteVector v := by
  unfold Fp.length at h
  have h1 := Double.add_finite _ _ (Double.sqrt_finite _ h)
  have h2 := Double.add_finite _ _ h1.1
  exact ⟨(Double.mul_finite _ _ h2.1).1, (Double.mul_finite _ _ h2.2).1,
    (Double.mul_finite _ _ h1.2).1⟩

theorem cross_finite (a b : MVector Double) (h : Fp.FiniteVector (Fp.cross a b)) :
    Fp.FiniteVector a ∧ Fp.FiniteVector b := by
  obtain ⟨hx, hy, hz⟩ := h
  unfold Fp.cross at hx hy hz
  simp only at hx hy hz
  have x1 := Double.sub_finite _ _ hx
  have y1 := Double.sub_finite _ _ hy
  have z1 := Double.sub_finite _ _ hz
  exact ⟨⟨(Double.mul_finite _ _ y1.2).1, (Double.mul_finite _ _ x1.1).1,
      (Double.mul_finite _ _ x1.2).1⟩,
    ⟨(Double.mul_finite _ _ y1.1).2, (Double.mul_finite _ _ x1.2).2,
      (Double.mul_finite _ _ x1.1).2⟩⟩

theorem vsub_finite_comm (a b : MVector Double) (h : Fp.FiniteVector (Fp.vsub a b)) :
    Fp.FiniteVector (Fp.vsub b a) := by
  obtain ⟨hx, hy, hz⟩ := h
  unfold Fp.vsub at hx hy hz ⊢
  exact ⟨by rw [Double.isFinite_of_mag_eq (Double.sub_mag_comm_all _ _)]; exact hx,
    by rw [Double.isFinite_of_mag_eq (Double.sub_mag_comm_all _ _)]; exact hy,
    by rw [Double.isFinite_of_mag_eq (Double.sub_mag_comm_all _ _)]; exact hz⟩

theorem vsub_self (a : MVector Double) (h : Fp.FiniteVector a) :
    Fp.vsub a a = ⟨Double.zero false, Double.zero false, Double.zero false⟩ := by
  unfold Fp.vsub
  rw [Double.sub_self _ h.1, Double.sub_self _ h.2.1, Double.sub_self _ h.2.2]

theorem cross_zero_left (z f : MVector Double) (hz : Fp.ZeroVector z) (hf : Fp.FiniteVector f) :
    Fp.ZeroVector (Fp.cross z f) := by
  obtain ⟨z1, z2, z3⟩ := hz
  obtain ⟨f1, f2, f3⟩ := hf
  unfold Fp.cross
  refine ⟨?_, ?_, ?_⟩
  · apply Double.sub_zeros
    · rw [Double.mul_zero_left _ _ z2 f3]; rfl
    · rw [Double.mul_zero_left _ _ z3 f2]; rfl
  · apply Double.sub_zeros
    · rw [Double.mul_zero_left _ _ z3 f1]; rfl
    · rw [Double.mul_zero_left _ _ z1 f3]; rfl
  · apply Double.sub_zeros
    · rw [Double.mul_zero_left _ _ z1 f2]; rfl
    · rw [Double.mul_zero_left _ _ z2 f1]; rfl

theorem cross_zero_right (f z : MVector Double) (hz : Fp.ZeroVector z) (hf : Fp.FiniteVector f) :
    Fp.ZeroVector (Fp.cross f z) := by
  obtain ⟨z1, z2, z3⟩ := hz
  obtain ⟨f1, f2, f3⟩ := hf
  unfold Fp.cross
  refine ⟨?_, ?_, ?_⟩
  · apply Double.sub_zeros
    · rw [Double.mul_zero_right _ _ z3 f2]; rfl
    · rw [Double.mul_zero_right _ _ z2 f3]; rfl
  · apply Double.sub_zeros
    · rw [Double.mul_zero_right _ _ z1 f3]; rfl
    · rw [Double.mul_zero_right _ _ z3 f1]; rfl
  · apply Double.sub_zeros
    · rw [Double.mul_zero_right _ _ z2 f1]; rfl
    · rw [Double.mul_zero_right _ _ z1 f2]; rfl

theorem Double.mul_zeros (a b : Double) (ha : a.mag = 0) (hb : b.mag = 0) :
    Double.mul a b = Double.zero (a.neg != b.neg) :=
  Double.mul_zero_left a b ha (Double.isFinite_of_mag_zero b hb)

theorem length_zero_vector (v : MVector Double) (h : Fp.ZeroVector v) :
    Fp.length v = Double.zero false := by
  obtain ⟨h1, h2, h3⟩ := h
  unfold Fp.length
  rw [Double.mul_zeros _ _ h1 h1, Double.mul_zeros _ _ h2 h2, Double.mul_zeros _ _ h3 h3]
  simp only [bne_self_eq_false]
  decide!

/-- Zero divided by a finite double that is not zero and not negative is `+0`. -/
theorem Double.zero_div (a : Double) (h : a.isFinite = true) (hz : a.isZero = false)
    (hn : a.neg = false) : Double.div (Double.zero false) a = Double.zero false := by
  unfold Double.div
  rw [Double.isNaN_zero, Double.isNaN_eq_false_of_finite h, ((Double.finite_iff a).mp h).2, hz,
    ((Double.finite_iff _).mp (Double.isFinite_zero false)).2]
  simp only [Bool.or_self, Bool.false_eq_true, if_false]
  rw [Double.num_zero, Double.round_zero _ _ (Double.num_pos_of_mag a (fun h0 => by
    rw [(Double.isZero_iff a).mpr h0] at hz; exact Bool.noConfusion hz))]
  have : (Double.zero false).neg = false := rfl
  rw [this, hn]
  rfl

/-! ### Barycentric coordinates at the vertices -/

theorem zero_vector_zero : Fp.ZeroVector ⟨Double.zero false, Double.zero false, Double.zero false⟩ :=
  ⟨rfl, rfl, rfl⟩

theorem toVector_finite_of_psub (a b : MPoint Double) (h : Fp.FiniteVector (Fp.psub a b)) :
    Fp.FiniteVector (Fp.toVector a) ∧ Fp.FiniteVector (Fp.toVector b) := by
  obtain ⟨hx, hy, hz⟩ := h
  unfold Fp.psub at hx hy hz
  exact ⟨⟨(Double.sub_finite _ _ hx).1, (Double.sub_finite _ _ hy).1, (Double.sub_finite _ _ hz).1⟩,
    ⟨(Double.sub_finite _ _ hx).2, (Double.sub_finite _ _ hy).2, (Double.sub_finite _ _ hz).2⟩⟩

theorem psub_eq_vsub (a b : MPoint Double) :
    Fp.psub a b = Fp.vsub (Fp.toVector a) (Fp.toVector b) := rfl

theorem set_vertices_area (v0 v1 v2 : WeightedVertex Double) :
    (Fp.set_vertices v0 v1 v2).area_times_2 =
      Fp.length (Fp.cross (Fp.psub v1.position v0.position)
        (Fp.psub v2.position v0.position)) := by
  simp only [Fp.set_vertices]

theorem set_vertices_v0 (v0 v1 v2 : WeightedVertex Double) :
    (Fp.set_vertices v0 v1 v2).v0 = v0 := by
  simp only [Fp.set_vertices]

theorem set_vertices_v1 (v0 v1 v2 : WeightedVertex Double) :
    (Fp.set_vertices v0 v1 v2).v1 = v1 := by
  simp only [Fp.set_vertices]

theorem set_vertices_v2 (v0 v1 v2 : WeightedVertex Double) :
    (Fp.set_vertices v0 v1 v2).v2 = v2 := by
  simp only [Fp.set_vertices]

theorem one_minus_zero_plus_one :
    Double.sub (Double.ofNat 1) (Double.add (Double.zero false) (Double.ofNat 1)) =
      Double.zero false := by
  decide!

theorem one_minus_zero_plus_zero :
    Double.sub (Double.ofNat 1) (Double.add (Double.zero false) (Double.zero false)) =
      Double.ofNat 1 := by
  decide!

/-- What a finite `area_times_2` says of the triangle: the two edge vectors
from the first vertex and the three positions are finite. -/
theorem area_finite (v0 v1 v2 : WeightedVertex Double)
    (h : (Fp.set_vertices v0 v1 v2).area_times_2.isFinite = true) :
    Fp.FiniteVector (Fp.psub v1.position v0.position) ∧
    Fp.FiniteVector (Fp.psub v2.position v0.position) ∧
    Fp.FiniteVector (Fp.toVector v0.position) ∧ Fp.FiniteVector (Fp.toVector v1.position) ∧
    Fp.FiniteVector (Fp.toVector v2.position) := by
  rw [set_vertices_area] at h
  obtain ⟨h1, h2⟩ := cross_finite _ _ (length_finite _ h)
  exact ⟨h1, h2, (toVector_finite_of_psub _ _ h1).2, (toVector_finite_of_psub _ _ h1).1,
    (toVector_finite_of_psub _ _ h2).1⟩

theorem area_neg (v0 v1 v2 : WeightedVertex Double)
    (hz : (Fp.set_vertices v0 v1 v2).area_times_2.isZero = false) :
    (Fp.set_vertices v0 v1 v2).area_times_2.neg = false := by
  rw [set_vertices_area] at hz ⊢
  exact Double.sqrt_neg _ hz

/-- A length of zero divided by a usable area is `+0`. -/
theorem zero_ratio (v0 v1 v2 : WeightedVertex Double)
    (hf : (Fp.set_vertices v0 v1 v2).area_times_2.isFinite = true)
    (hz : (Fp.set_vertices v0 v1 v2).area_times_2.isZero = false)
    (c : MVector Double) (hc : Fp.ZeroVector c) :
    Double.div (Fp.length c) (Fp.set_vertices v0 v1 v2).area_times_2 = Double.zero false := by
  rw [length_zero_vector c hc]
  exact Double.zero_div _ hf hz (area_neg v0 v1 v2 hz)

/-- In double arithmetic the barycentric coordinates at the position of the
first vertex are exactly (1, 0, 0), normalized or not. -/
theorem bary_at_v0 (v0 v1 v2 : WeightedVertex Double)
    (hf : (Fp.set_vertices v0 v1 v2).area_times_2.isFinite = true)
    (hz : (Fp.set_vertices v0 v1 v2).area_times_2.isZero = false) (normalized : Bool) :
    Fp.get_bary_coords (Fp.set_vertices v0 v1 v2) (Fp.toVector v0.position) normalized =
      ⟨Double.ofNat 1, Double.zero false, Double.zero false⟩ := by
  obtain ⟨fe0, fe1, fp0, _, _⟩ := area_finite v0 v1 v2 hf
  have hv0 := set_vertices_v0 v0 v1 v2
  have hv1 := set_vertices_v1 v0 v1 v2
  have hv2 := set_vertices_v2 v0 v1 v2
  have hA : (Fp.set_vertices v0 v1 v2).area_times_2 =
      Fp.length (Fp.cross (Fp.vsub (Fp.toVector v1.position) (Fp.toVector v0.position))
        (Fp.vsub (Fp.toVector v2.position) (Fp.toVector v0.position))) :=
    set_vertices_area v0 v1 v2
  have hx : Double.div (Fp.length (Fp.cross
      (Fp.vsub (Fp.toVector v2.position) (Fp.toVector v0.position))
      (Fp.vsub (Fp.toVector v1.position) (Fp.toVector v0.position))))
      (Fp.set_vertices v0 v1 v2).area_times_2 = Double.ofNat 1 := by
    rw [length_cross_comm, ← hA]
    exact Double.div_self _ hf hz
  have hy : Double.div (Fp.length (Fp.cross
      (Fp.vsub (Fp.toVector v0.position) (Fp.toVector v0.position))
      (Fp.vsub (Fp.toVector v2.position) (Fp.toVector v0.position))))
      (Fp.set_vertices v0 v1 v2).area_times_2 = Double.zero false := by
    apply zero_ratio v0 v1 v2 hf hz
    rw [vsub_self _ fp0]
    exact cross_zero_left _ _ zero_vector_zero fe1
  have hzc : Double.div (Fp.length (Fp.cross
      (Fp.vsub (Fp.toVector v0.position) (Fp.toVector v0.position))
      (Fp.vsub (Fp.toVector v1.position) (Fp.toVector v0.position))))
      (Fp.set_vertices v0 v1 v2).area_times_2 = Double.zero false := by
    apply zero_ratio v0 v1 v2 hf hz
    rw [vsub_self _ fp0]
    exact cross_zero_left _ _ zero_vector_zero fe0
  unfold Fp.get_bary_coords
  simp only [hv0, hv1, hv2, hx, hy, hzc]
  cases normalized
  · simp only [Bool.false_eq_true, if_false]
  · simp only [if_true, one_minus_zero_plus_one]

/-- In double arithmetic the first two barycentric coordinates at the position
of the last vertex are exactly 0 and the normalized third one is exactly 1. -/
theorem bary_at_v2 (v0 v1 v2 : WeightedVertex Double)
    (hf : (Fp.set_vertices v0 v1 v2).area_times_2.isFinite = true)
    (hz : (Fp.set_vertices v0 v1 v2).area_times_2.isZero = false)
    (hov : Fp.FiniteVector (Fp.psub v1.position v2.position)) :
    Fp.get_bary_coords (Fp.set_vertices v0 v1 v2) (Fp.toVector v2.position) true =
      ⟨Double.zero false, Double.zero false, Double.ofNat 1⟩ ∧
    (Fp.get_bary_coords (Fp.set_vertices v0 v1 v2) (Fp.toVector v2.position) false).x =
      Double.zero false ∧
    (Fp.get_bary_coords (Fp.set_vertices v0 v1 v2) (Fp.toVector v2.position) false).y =
      Double.zero false := by
  obtain ⟨_, fe1, _, _, fp2⟩ := area_finite v0 v1 v2 hf
  have fe02 : Fp.FiniteVector (Fp.vsub (Fp.toVector v0.position) (Fp.toVector v2.position)) :=
    vsub_finite_comm _ _ fe1
  have hv0 := set_vertices_v0 v0 v1 v2
  have hv1 := set_vertices_v1 v0 v1 v2
  have hv2 := set_vertices_v2 v0 v1 v2
  have hx : Double.div (Fp.length (Fp.cross
      (Fp.vsub (Fp.toVector v2.position) (Fp.toVector v2.position))
      (Fp.vsub (Fp.toVector v1.position) (Fp.toVector v2.position))))
      (Fp.set_vertices v0 v1 v2).area_times_2 = Double.zero false := by
    apply zero_ratio v0 v1 v2 hf hz
    rw [vsub_self _ fp2]
    exact cross_zero_left _ _ zero_vector_zero hov
  have hy : Double.div (Fp.length (Fp.cross
      (Fp.vsub (Fp.toVector v0.position) (Fp.toVector v2.position))
      (Fp.vsub (Fp.toVector v2.position) (Fp.toVector v2.position))))
      (Fp.set_vertices v0 v1 v2).area_times_2 = Double.zero false := by
    apply zero_ratio v0 v1 v2 hf hz
    rw [vsub_self _ fp2]
    exact cross_zero_right _ _ zero_vector_zero fe02
  unfold Fp.get_bary_coords
  simp only [hv0, hv1, hv2, hx, hy]
  refine ⟨?_, by simp only [Bool.false_eq_true, if_false], by simp only [Bool.false_eq_true, if_false]⟩
  rw [if_pos trivial, one_minus_zero_plus_zero]

/-- In double arithmetic the first barycentric coordinate at the position of
the middle vertex is exactly 0, and so is the third unnormalized one. -/
theorem bary_at_v1 (v0 v1 v2 : WeightedVertex Double)
    (hf : (Fp.set_vertices v0 v1 v2).area_times_2.isFinite = true)
    (hz : (Fp.set_vertices v0 v1 v2).area_times_2.isZero = false)
    (hov : Fp.FiniteVector (Fp.psub v2.position v1.position)) (normalized : Bool) :
    (Fp.get_bary_coords (Fp.set_vertices v0 v1 v2) (Fp.toVector v1.position) normalized).x =
      Double.zero false ∧
    (Fp.get_bary_coords (Fp.set_vertices v0 v1 v2) (Fp.toVector v1.position) normalized).y =
      Double.div (Fp.length (Fp.cross (Fp.psub v0.position v1.position)
        (Fp.psub v2.position v1.position))) (Fp.set_vertices v0 v1 v2).area_times_2 ∧
    (Fp.get_bary_coords (Fp.set_vertices v0 v1 v2) (Fp.toVector v1.position) false).z =
      Double.zero false := by
  obtain ⟨fe0, _, _, fp1, _⟩ := area_finite v0 v1 v2 hf
  have fe01 : Fp.FiniteVector (Fp.vsub (Fp.toVector v0.position) (Fp.toVector v1.position)) :=
    vsub_finite_comm _ _ fe0
  have hv0 := set_vertices_v0 v0 v1 v2
  have hv1 := set_vertices_v1 v0 v1 v2
  have hv2 := set_vertices_v2 v0 v1 v2
  have hx : Double.div (Fp.length (Fp.cross
      (Fp.vsub (Fp.toVector v2.position) (Fp.toVector v1.position))
      (Fp.vsub (Fp.toVector v1.position) (Fp.toVector v1.position))))
      (Fp.set_vertices v0 v1 v2).area_times_2 = Double.zero false := by
    apply zero_ratio v0 v1 v2 hf hz
    rw [vsub_self _ fp1]
    exact cross_zero_right _ _ zero_vector_zero hov
  have hzc : Double.div (Fp.length (Fp.cross
      (Fp.vsub (Fp.toVector v0.position) (Fp.toVector v1.position))
      (Fp.vsub (Fp.toVector v1.position) (Fp.toVector v1.position))))
      (Fp.set_vertices v0 v1 v2).area_times_2 = Double.zero false := by
    apply zero_ratio v0 v1 v2 hf hz
    rw [vsub_self _ fp1]
    exact cross_zero_right _ _ zero_vector_zero fe01
  unfold Fp.get_bary_coords
  simp only [hv0, hv1, hv2, hx, hzc]
  rw [psub_eq_vsub, psub_eq_vsub]
  refine ⟨?_, ?_, by simp only [Bool.false_eq_true, if_false]⟩
  · cases normalized <;> simp only [Bool.false_eq_true, if_true, if_false]
  · cases normalized <;> simp only [Bool.false_eq_true, if_true, if_false]

/-! ### Sampling at the vertices -/

theorem psub_finite_comm (a b : MPoint Double) (h : Fp.FiniteVector (Fp.psub a b)) :
    Fp.FiniteVector (Fp.psub b a) :=
  vsub_finite_comm (Fp.toVector a) (Fp.toVector b) h

/-- The value `sample_weights` adds up from three weights and three coordinates. -/
theorem sample_weights_eq (t : WeightedTriangle Double) (p : MPoint Double) (i : Fin 4) :
    Fp.sample_weights t p i =
      Double.add (Double.add
        (Double.mul (t.v0.weights i) (Fp.get_bary_coords t (Fp.toVector p) true).x)
        (Double.mul (t.v1.weights i) (Fp.get_bary_coords t (Fp.toVector p) true).y))
        (Double.mul (t.v2.weights i) (Fp.get_bary_coords t (Fp.toVector p) true).z) := by
  simp only [Fp.sample_weights]

/-- At the position of the first vertex `sample_weights` returns a value equal
to that vertex's weight. -/
theorem sample_weights_at_v0 (v0 v1 v2 : WeightedVertex Double)
    (hf : (Fp.set_vertices v0 v1 v2).area_times_2.isFinite = true)
    (hz : (Fp.set_vertices v0 v1 v2).area_times_2.isZero = false) (i : Fin 4)
    (h0 : (v0.weights i).isFinite = true) (h1 : (v1.weights i).isFinite = true)
    (h2 : (v2.weights i).isFinite = true) :
    (Fp.sample_weights (Fp.set_vertices v0 v1 v2) v0.position i).isFinite = true ∧
    (Fp.sample_weights (Fp.set_vertices v0 v1 v2) v0.position i).key = (v0.weights i).key := by
  rw [sample_weights_eq, bary_at_v0 v0 v1 v2 hf hz true, set_vertices_v0, set_vertices_v1,
    set_vertices_v2]
  simp only
  rw [Double.mul_one _ h0, Double.mul_zero_right _ _ rfl h1, Double.mul_zero_right _ _ rfl h2]
  have a1 := Double.add_zero_right (v0.weights i) (Double.zero ((v1.weights i).neg !=
    (Double.zero false).neg)) h0 rfl
  have a2 := Double.add_zero_right _ (Double.zero ((v2.weights i).neg !=
    (Double.zero false).neg)) a1.1 rfl
  exact ⟨a2.1, a2.2.trans a1.2⟩

/-- At the position of the last vertex `sample_weights` returns a value equal
to that vertex's weight. -/
theorem sample_weights_at_v2 (v0 v1 v2 : WeightedVertex Double)
    (hf : (Fp.set_vertices v0 v1 v2).area_times_2.isFinite = true)
    (hz : (Fp.set_vertices v0 v1 v2).area_times_2.isZero = false)
    (hov : Fp.FiniteVector (Fp.psub v1.position v2.position)) (i : Fin 4)
    (h0 : (v0.weights i).isFinite = true) (h1 : (v1.weights i).isFinite = true)
    (h2 : (v2.weights i).isFinite = true) :
    (Fp.sample_weights (Fp.set_vertices v0 v1 v2) v2.position i).isFinite = true ∧
    (Fp.sample_weights (Fp.set_vertices v0 v1 v2) v2.position i).key = (v2.weights i).key := by
  rw [sample_weights_eq, (bary_at_v2 v0 v1 v2 hf hz hov).1, set_vertices_v0, set_vertices_v1,
    set_vertices_v2]
  simp only
  rw [Double.mul_one _ h2, Double.mul_zero_right _ _ rfl h0, Double.mul_zero_right _ _ rfl h1]
  have a1 := Double.add_zeros (Double.zero ((v0.weights i).neg != (Double.zero false).neg))
    (Double.zero ((v1.weights i).neg != (Double.zero false).neg)) rfl rfl
  exact Double.add_zero_left _ (v2.weights i) h2 a1

/-- C4 fails as stated: on the triangle (-725,-478,1.4), (-3.3,205,-80.8),
(-94.2,-114,42.5) with the weights 4, 5, 8, whose `area_times_2` is finite and
not zero, the normalized coordinates at the second vertex are
(0, 1 + 2^-52, -2^-52) and `sample_weights` returns 5 - 2^-50, which is not 5. -/
theorem sample_weights_rounds_at_vertex :
    (Fp.set_vertices Fp.skew_p Fp.skew_q Fp.skew_r).area_times_2.isFinite = true ∧
    (Fp.set_vertices Fp.skew_p Fp.skew_q Fp.skew_r).area_times_2.isZero = false ∧
    (Fp.get_bary_coords (Fp.set_vertices Fp.skew_p Fp.skew_q Fp.skew_r)
      (Fp.toVector Fp.skew_q.position) true).x = Double.zero false ∧
    (Fp.get_bary_coords (Fp.set_vertices Fp.skew_p Fp.skew_q Fp.skew_r)
      (Fp.toVector Fp.skew_q.position) true).y =
      Double.add (Double.ofNat 1) (Double.ofRatio false 1 (2 ^ 52)) ∧
    (Fp.get_bary_coords (Fp.set_vertices Fp.skew_p Fp.skew_q Fp.skew_r)
      (Fp.toVector Fp.skew_q.position) true).z = Double.ofRatio true 1 (2 ^ 52) ∧
    Fp.sample_weights (Fp.set_vertices Fp.skew_p Fp.skew_q Fp.skew_r) Fp.skew_q.position 0 =
      Double.sub (Fp.int 5) (Double.ofRatio false 1 (2 ^ 50)) ∧
    Double.eq (Fp.sample_weights (Fp.set_vertices Fp.skew_p Fp.skew_q Fp.skew_r)
      Fp.skew_q.position 0) (Fp.skew_q.weights 0) = false := by
  decide!

/-- C4 amended: for a triangle whose `area_times_2` is finite and not zero,
with finite weights and a finite difference of the second and third position,
the normalized coordinates in double arithmetic are exactly (1,0,0) at the
first vertex and (0,0,1) at the last one, the first coordinate at the second
vertex is exactly 0, and `sample_weights` returns at the first and at the last
vertex a value that compares equal to that vertex's weight, in each channel. -/
theorem sample_weights_at_end_vertices (v0 v1 v2 : WeightedVertex Double)
    (hf : (Fp.set_vertices v0 v1 v2).area_times_2.isFinite = true)
    (hz : (Fp.set_vertices v0 v1 v2).area_times_2.isZero = false)
    (hov : Fp.FiniteVector (Fp.psub v1.position v2.position))
    (hw : ∀ i, (v0.weights i).isFinite = true ∧ (v1.weights i).isFinite = true ∧
      (v2.weights i).isFinite = true) :
    Fp.get_bary_coords (Fp.set_vertices v0 v1 v2) (Fp.toVector v0.position) true =
      ⟨Double.ofNat 1, Double.zero false, Double.zero false⟩ ∧
    Fp.get_bary_coords (Fp.set_vertices v0 v1 v2) (Fp.toVector v2.position) true =
      ⟨Double.zero false, Double.zero false, Double.ofNat 1⟩ ∧
    (Fp.get_bary_coords (Fp.set_vertices v0 v1 v2) (Fp.toVector v1.position) true).x =
      Double.zero false ∧
    (∀ i, Double.eq (Fp.sample_weights (Fp.set_vertices v0 v1 v2) v0.position i)
      (v0.weights i) = true) ∧
    (∀ i, Double.eq (Fp.sample_weights (Fp.set_vertices v0 v1 v2) v2.position i)
      (v2.weights i) = true) := by
  refine ⟨bary_at_v0 v0 v1 v2 hf hz true, (bary_at_v2 v0 v1 v2 hf hz hov).1,
    (bary_at_v1 v0 v1 v2 hf hz (psub_finite_comm _ _ hov) true).1, ?_, ?_⟩
  · intro i
    obtain ⟨h0, h1, h2⟩ := hw i
    have := sample_weights_at_v0 v0 v1 v2 hf hz i h0 h1 h2
    exact Double.eq_of_key _ _ this.1 h0 this.2
  · intro i
    obtain ⟨h0, h1, h2⟩ := hw i
    have := sample_weights_at_v2 v0 v1 v2 hf hz hov i h0 h1 h2
    exact Double.eq_of_key _ _ this.1 h2 this.2

/-- The hypotheses hold for the skew triangle, where `sample_weights` returns
the weight 4 at the first vertex. -/
theorem sample_weights_at_end_vertices_witness :
    ((Fp.set_vertices Fp.skew_p Fp.skew_q Fp.skew_r).area_times_2.isFinite = true ∧
      (Fp.set_vertices Fp.skew_p Fp.skew_q Fp.skew_r).area_times_2.isZero = false ∧
      Fp.FiniteVector (Fp.psub Fp.skew_q.position Fp.skew_r.position) ∧
      ∀ i, (Fp.skew_p.weights i).isFinite = true ∧ (Fp.skew_q.weights i).isFinite = true ∧
        (Fp.skew_r.weights i).isFinite = true) ∧
    Double.eq (Fp.sample_weights (Fp.set_vertices Fp.skew_p Fp.skew_q Fp.skew_r)
      Fp.skew_p.position 0) (Fp.int 4) = true :=
  ⟨⟨by decide!, by decide!, by unfold Fp.FiniteVector; decide!, by decide!⟩,
    (sample_weights_at_end_vertices Fp.skew_p Fp.skew_q Fp.skew_r (by decide!) (by decide!)
      (by unfold Fp.FiniteVector; decide!) (by decide!)).2.2.2.1 0⟩

/-! ### The barycentric test at the vertices -/

theorem total_area_eq (t : WeightedTriangle Double) (p : MPoint Double) :
    Fp.total_area t p =
      Double.add (Double.add (Fp.get_bary_coords t (Fp.toVector p) false).x
        (Fp.get_bary_coords t (Fp.toVector p) false).y)
        (Fp.get_bary_coords t (Fp.toVector p) false).z := by
  simp only [Fp.total_area]

theorem bary_test_at_one :
    Double.lt (Double.abs (Double.sub (Double.ofNat 1)
      (Double.add (Double.add (Double.ofNat 1) (Double.zero false)) (Double.zero false))))
      Fp.EPSILON = true := by
  decide!

/-- C7 fails as stated: on the triangle (0,0,0), (153722261,153432378,0),
(461166782,460297133,0), whose vertices are not collinear and whose
`area_times_2` is finite and not zero, the unnormalized coordinates at the
second vertex are 0, a number below `1 - EPSILON`, 0, and
`point_is_inside_bary` returns false at that vertex. -/
theorem bary_test_rejects_own_vertex :
    Fp.thin_a.area_times_2.isFinite = true ∧ Fp.thin_a.area_times_2.isZero = false ∧
    (Fp.exact Fp.thin_a.v1.position).x * (Fp.exact Fp.thin_a.v2.position).y -
      (Fp.exact Fp.thin_a.v1.position).y * (Fp.exact Fp.thin_a.v2.position).x ≠ 0 ∧
    (Fp.get_bary_coords Fp.thin_a (Fp.toVector Fp.thin_a.v1.position) false).x =
      Double.zero false ∧
    Double.lt (Fp.get_bary_coords Fp.thin_a (Fp.toVector Fp.thin_a.v1.position) false).y
      (Double.sub (Double.ofNat 1) Fp.EPSILON) = true ∧
    (Fp.get_bary_coords Fp.thin_a (Fp.toVector Fp.thin_a.v1.position) false).z =
      Double.zero false ∧
    Fp.point_is_inside_bary Fp.thin_a Fp.thin_a.v1.position = false := by
  decide!

/-- C7 amended: for a triangle whose `area_times_2` is finite and not zero and
whose second and third position have a finite difference, the unnormalized
coordinates in double arithmetic are exactly (1,0,0) at the first vertex, where
`point_is_inside_bary` returns true; at the second vertex the first and the
third are exactly 0 and at the last vertex the first and the second are exactly
0, the remaining one being a rounded ratio of two lengths. -/
theorem bary_test_at_vertices_in_doubles (v0 v1 v2 : WeightedVertex Double)
    (hf : (Fp.set_vertices v0 v1 v2).area_times_2.isFinite = true)
    (hz : (Fp.set_vertices v0 v1 v2).area_times_2.isZero = false)
    (hov : Fp.FiniteVector (Fp.psub v1.position v2.position)) :
    Fp.get_bary_coords (Fp.set_vertices v0 v1 v2) (Fp.toVector v0.position) false =
      ⟨Double.ofNat 1, Double.zero false, Double.zero false⟩ ∧
    Fp.point_is_inside_bary (Fp.set_vertices v0 v1 v2) v0.position = true ∧
    ((Fp.get_bary_coords (Fp.set_vertices v0 v1 v2) (Fp.toVector v1.position) false).x =
        Double.zero false ∧
      (Fp.get_bary_coords (Fp.set_vertices v0 v1 v2) (Fp.toVector v1.position) false).y =
        Double.div (Fp.length (Fp.cross (Fp.psub v0.position v1.position)
          (Fp.psub v2.position v1.position))) (Fp.set_vertices v0 v1 v2).area_times_2 ∧
      (Fp.get_bary_coords (Fp.set_vertices v0 v1 v2) (Fp.toVector v1.position) false).z =
        Double.zero false) ∧
    ((Fp.get_bary_coords (Fp.set_vertices v0 v1 v2) (Fp.toVector v2.position) false).x =
        Double.zero false ∧
      (Fp.get_bary_coords (Fp.set_vertices v0 v1 v2) (Fp.toVector v2.position) false).y =
        Double.zero false) := by
  refine ⟨bary_at_v0 v0 v1 v2 hf hz false, ?_,
    bary_at_v1 v0 v1 v2 hf hz (psub_finite_comm _ _ hov) false,
    (bary_at_v2 v0 v1 v2 hf hz hov).2⟩
  unfold Fp.point_is_inside_bary
  rw [total_area_eq, bary_at_v0 v0 v1 v2 hf hz false]
  exact bary_test_at_one

/-- The hypotheses hold for the thin triangle, whose first vertex passes the
barycentric test. -/
theorem bary_test_at_vertices_in_doubles_witness :
    ((Fp.set_vertices (Fp.int_vertex 0 0 0 1) (Fp.int_vertex 153722261 153432378 0 2)
        (Fp.int_vertex 461166782 460297133 0 3)).area_times_2.isFinite = true ∧
      (Fp.set_vertices (Fp.int_vertex 0 0 0 1) (Fp.int_vertex 153722261 153432378 0 2)
        (Fp.int_vertex 461166782 460297133 0 3)).area_times_2.isZero = false ∧
      Fp.FiniteVector (Fp.psub (Fp.int_vertex 153722261 153432378 0 2).position
        (Fp.int_vertex 461166782 460297133 0 3).position)) ∧
    Fp.point_is_inside_bary
      (Fp.set_vertices (Fp.int_vertex 0 0 0 1) (Fp.int_vertex 153722261 153432378 0 2)
        (Fp.int_vertex 461166782 460297133 0 3)) (Fp.int_vertex 0 0 0 1).position = true :=
  ⟨⟨by decide!, by decide!, by unfold Fp.FiniteVector; decide!⟩,
    (bary_test_at_vertices_in_doubles (Fp.int_vertex 0 0 0 1)
      (Fp.int_vertex 153722261 153432378 0 2) (Fp.int_vertex 461166782 460297133 0 3)
      (by decide!) (by decide!) (by unfold Fp.FiniteVector; decide!)).2.1⟩

/-! ### Signs of the barycentric coordinates -/

theorem Double.notNegative_nan : Double.nan.NotNegative := Or.inl Double.isNaN_nan

theorem Double.mul_self_notNegative (a : Double) : (Double.mul a a).NotNegative := by
  unfold Double.mul
  split_ifs
  · exact Double.notNegative_nan
  · exact Double.notNegative_nan
  · right; simp only [Double.inf, bne_self_eq_false]
  · right; rw [Double.round_neg]; simp only [bne_self_eq_false]

theorem Double.add_notNegative (a b : Double) (ha : a.NotNegative) (hb : b.NotNegative) :
    (Double.add a b).NotNegative := by
  unfold Double.add
  by_cases h1 : (a.isNaN || b.isNaN) = true
  · rw [if_pos h1]; exact Double.notNegative_nan
  · rw [if_neg h1]
    simp only [Bool.or_eq_true, not_or, Bool.not_eq_true] at h1
    have na : a.neg = false := by
      rcases ha with h | h
      · rw [h1.1] at h; exact Bool.noConfusion h
      · exact h
    have nb : b.neg = false := by
      rcases hb with h | h
      · rw [h1.2] at h; exact Bool.noConfusion h
      · exact h
    split_ifs <;>
      first
      | (right; rw [Double.round_neg]; assumption)
      | exact Double.notNegative_nan
      | exact Or.inr na
      | exact Or.inr nb
      | (right; exact rfl)

theorem Double.sqrt_notNegative (a : Double) (ha : a.NotNegative) :
    (Double.sqrt a).NotNegative := by
  unfold Double.sqrt
  by_cases h1 : a.isNaN = true
  · rw [if_pos h1]; exact Double.notNegative_nan
  · rw [if_neg h1]
    have na : a.neg = false := by
      rcases ha with h | h
      · exact absurd h h1
      · exact h
    split_ifs
    · exact Or.inr na
    · exact Double.notNegative_nan
    · exact Or.inr na
    · right; rfl

theorem Double.div_notNegative (a b : Double) (ha : a.NotNegative) (hb : b.NotNegative) :
    (Double.div a b).NotNegative := by
  unfold Double.div
  by_cases h1 : (a.isNaN || b.isNaN) = true
  · rw [if_pos h1]; exact Double.notNegative_nan
  · rw [if_neg h1]
    simp only [Bool.or_eq_true, not_or, Bool.not_eq_true] at h1
    have na : a.neg = false := by
      rcases ha with h | h
      · rw [h1.1] at h; exact Bool.noConfusion h
      · exact h
    have nb : b.neg = false := by
      rcases hb with h | h
      · rw [h1.2] at h; exact Bool.noConfusion h
      · exact h
    rw [na, nb]
    split_ifs <;>
      first
      | (right; rw [Double.round_neg]; exact rfl)
      | exact Double.notNegative_nan
      | (right; exact rfl)

/-- A value that is a NaN or has a clear sign bit is not below zero. -/
theorem Double.not_lt_zero (a : Double) (h : a.NotNegative) :
    Double.lt a (Double.zero false) = false := by
  unfold Double.lt
  rcases h with h | h
  · rw [h]; rfl
  · rw [Double.key_zero]
    unfold Double.key
    rw [h]
    simp

theorem length_notNegative (v : MVector Double) : (Fp.length v).NotNegative := by
  unfold Fp.length
  exact Double.sqrt_notNegative _ (Double.add_notNegative _ _
    (Double.add_notNegative _ _ (Double.mul_self_notNegative _) (Double.mul_self_notNegative _))
    (Double.mul_self_notNegative _))

theorem area_notNegative (v0 v1 v2 : WeightedVertex Double) :
    (Fp.set_vertices v0 v1 v2).area_times_2.NotNegative := by
  rw [set_vertices_area]
  exact length_notNegative _

/-- The raw coordinates are NaNs or have a clear sign bit. -/
theorem bary_notNegative (v0 v1 v2 : WeightedVertex Double) (p : MVector Double) :
    (Fp.get_bary_coords (Fp.set_vertices v0 v1 v2) p false).x.NotNegative ∧
    (Fp.get_bary_coords (Fp.set_vertices v0 v1 v2) p false).y.NotNegative ∧
    (Fp.get_bary_coords (Fp.set_vertices v0 v1 v2) p false).z.NotNegative := by
  have hA := area_notNegative v0 v1 v2
  unfold Fp.get_bary_coords
  simp only [Bool.false_eq_true, if_false]
  exact ⟨Double.div_notNegative _ _ (length_notNegative _) hA,
    Double.div_notNegative _ _ (length_notNegative _) hA,
    Double.div_notNegative _ _ (length_notNegative _) hA⟩

/-- C27 fails as stated: on the triangle (0,0,0), (6,0,0), (0,6,0) the sum of
the unnormalized coordinates at (1,1,0) is `1 - 2^-53`, below 1; on the triangle
(0,0,0), (222330211,222286833,0), (444660424,444573668,0), whose `area_times_2`
is finite and not zero, the sum at the second vertex is below `1 - EPSILON` and
`point_is_inside_bary` rejects the vertex. -/
theorem raw_sum_below_one :
    Fp.six_triangle.area_times_2.isFinite = true ∧
    Fp.six_triangle.area_times_2.isZero = false ∧
    Fp.total_area Fp.six_triangle ⟨Fp.int 1, Fp.int 1, Fp.int 0, Double.ofNat 1⟩ =
      Double.sub (Double.ofNat 1) (Double.ofRatio false 1 (2 ^ 53)) ∧
    Double.lt (Fp.total_area Fp.six_triangle ⟨Fp.int 1, Fp.int 1, Fp.int 0, Double.ofNat 1⟩)
      (Double.ofNat 1) = true ∧
    Fp.thin_b.area_times_2.isFinite = true ∧ Fp.thin_b.area_times_2.isZero = false ∧
    Double.lt (Fp.total_area Fp.thin_b Fp.thin_b.v1.position)
      (Double.sub (Double.ofNat 1) Fp.EPSILON) = true ∧
    Fp.point_is_inside_bary Fp.thin_b Fp.thin_b.v1.position = false := by
  decide!

/-- C27 amended: for every triangle built by `set_vertices` and every sample
point, none of the three unnormalized coordinates of `get_bary_coords(p, false)`
is below zero in double arithmetic, and neither is their sum. -/
theorem raw_bary_not_negative (v0 v1 v2 : WeightedVertex Double) (p : MPoint Double) :
    Double.lt (Fp.get_bary_coords (Fp.set_vertices v0 v1 v2) (Fp.toVector p) false).x
      (Double.zero false) = false ∧
    Double.lt (Fp.get_bary_coords (Fp.set_vertices v0 v1 v2) (Fp.toVector p) false).y
      (Double.zero false) = false ∧
    Double.lt (Fp.get_bary_coords (Fp.set_vertices v0 v1 v2) (Fp.toVector p) false).z
      (Double.zero false) = false ∧
    Double.lt (Fp.total_area (Fp.set_vertices v0 v1 v2) p) (Double.zero false) = false := by
  obtain ⟨hx, hy, hz⟩ := bary_notNegative v0 v1 v2 (Fp.toVector p)
  refine ⟨Double.not_lt_zero _ hx, Double.not_lt_zero _ hy, Double.not_lt_zero _ hz, ?_⟩
  rw [total_area_eq]
  exact Double.not_lt_zero _ (Double.add_notNegative _ _ (Double.add_notNegative _ _ hx hy) hz)

/-! ### The barycentric test -/

theorem Double.ext_iff' (a b : Double) (h1 : a.neg = b.neg) (h2 : a.mag = b.mag) : a = b := by
  cases a; cases b; simp only at h1 h2; rw [h1, h2]

/-- Addition of doubles is commutative. -/
theorem Double.add_comm (a b : Double) : Double.add a b = Double.add b a := by
  unfold Double.add
  rw [Bool.or_comm b.isNaN a.isNaN]
  by_cases h1 : (a.isNaN || b.isNaN) = true
  · rw [if_pos h1, if_pos h1]
  · rw [if_neg h1, if_neg h1]
    by_cases h2 : a.isInf = true <;> by_cases h3 : b.isInf = true
    · rw [if_pos h2, if_pos h3, h2, h3]
      simp only [Bool.true_and]
      by_cases h4 : a.neg = b.neg
      · have e1 : (a.neg != b.neg) = false := by rw [h4]; simp
        have e2 : (b.neg != a.neg) = false := by rw [h4]; simp
        rw [e1, e2]
        simp only [Bool.false_eq_true, if_false]
        apply Double.ext_iff' _ _ h4
        simp only [Double.isInf, decide_eq_true_eq] at h2 h3
        rw [h2, h3]
      · have e1 : (a.neg != b.neg) = true := by
          cases ha : a.neg <;> cases hb : b.neg <;> simp_all
        have e2 : (b.neg != a.neg) = true := by
          cases ha : a.neg <;> cases hb : b.neg <;> simp_all
        rw [e1, e2]
        simp only [if_true]
    · rw [if_pos h2, if_neg h3, if_pos h2]
      have : (b.isInf && (a.neg != b.neg)) = false := by
        rw [Bool.not_eq_true] at h3; rw [h3]; rfl
      rw [this]
      simp only [Bool.false_eq_true, if_false]
    · rw [if_neg h2, if_pos h3, if_pos h3]
      have : (a.isInf && (b.neg != a.neg)) = false := by
        rw [Bool.not_eq_true] at h2; rw [h2]; rfl
      rw [this]
      simp only [Bool.false_eq_true, if_false]
    · rw [if_neg h2, if_neg h3, if_neg h3, if_neg h2]
      by_cases h4 : a.neg = b.neg
      · rw [if_pos h4, if_pos h4.symm, Nat.add_comm, h4]
      · have h4' : ¬ (b.neg = a.neg) := fun h => h4 h.symm
        rw [if_neg h4, if_neg h4']
        rcases Nat.lt_trichotomy a.num b.num with h | h | h
        · rw [if_neg (Nat.ne_of_lt h), if_neg (Nat.lt_asymm h), if_neg (Nat.ne_of_gt h),
            if_pos h]
        · rw [if_pos h, if_pos h.symm]
        · rw [if_neg (Nat.ne_of_gt h), if_pos h, if_neg (Nat.ne_of_lt h),
            if_neg (Nat.lt_asymm h)]

theorem set_vertices_normal (v0 v1 v2 : WeightedVertex Double) :
    (Fp.set_vertices v0 v1 v2).normal =
      Fp.vdiv (Fp.cross (Fp.psub v1.position v0.position) (Fp.psub v2.position v0.position))
        (Fp.set_vertices v0 v1 v2).area_times_2 := by
  simp only [Fp.set_vertices]

theorem set_vertices_major_axis (v0 v1 v2 : WeightedVertex Double) :
    (Fp.set_vertices v0 v1 v2).major_axis =
      if Double.gt (Double.abs (Fp.set_vertices v0 v1 v2).normal.x)
          (Double.abs (Fp.set_vertices v0 v1 v2).normal.y) then
        if Double.gt (Double.abs (Fp.set_vertices v0 v1 v2).normal.x)
            (Double.abs (Fp.set_vertices v0 v1 v2).normal.z) then MajorAxis.X_AXIS
        else if Double.gt (Double.abs (Fp.set_vertices v0 v1 v2).normal.y)
            (Double.abs (Fp.set_vertices v0 v1 v2).normal.z) then MajorAxis.Y_AXIS
        else MajorAxis.Z_AXIS
      else
        if Double.gt (Double.abs (Fp.set_vertices v0 v1 v2).normal.y)
            (Double.abs (Fp.set_vertices v0 v1 v2).normal.z) then MajorAxis.Y_AXIS
        else MajorAxis.Z_AXIS := by
  simp only [Fp.set_vertices]

theorem set_vertices_projections (v0 v1 v2 : WeightedVertex Double) :
    (Fp.set_vertices v0 v1 v2).v0_2d =
      project_to_2d (Fp.set_vertices v0 v1 v2).major_axis v0.position ∧
    (Fp.set_vertices v0 v1 v2).v1_2d =
      project_to_2d (Fp.set_vertices v0 v1 v2).major_axis v1.position ∧
    (Fp.set_vertices v0 v1 v2).v2_2d =
      project_to_2d (Fp.set_vertices v0 v1 v2).major_axis v2.position := by
  simp only [Fp.set_vertices, and_self]

theorem Double.round_not_nan (s : Bool) (n d : Nat) : (Double.round s n d).isNaN = false := by
  unfold Double.round Double.isNaN
  simp only [decide_eq_false_iff_not, not_lt]
  exact Nat.min_le_right _ _

theorem Double.div_not_nan (a b : Double) (ha : a.isFinite = true) (hb : b.isFinite = true)
    (hz : b.isZero = false) : (Double.div a b).isNaN = false := by
  unfold Double.div
  rw [((Double.finite_iff a).mp ha).1, ((Double.finite_iff a).mp ha).2,
    ((Double.finite_iff b).mp hb).1, ((Double.finite_iff b).mp hb).2, hz]
  simp only [Bool.or_self, Bool.false_eq_true, if_false]
  exact Double.round_not_nan _ _ _

theorem normal_not_nan (v0 v1 v2 : WeightedVertex Double)
    (hf : (Fp.set_vertices v0 v1 v2).area_times_2.isFinite = true)
    (hz : (Fp.set_vertices v0 v1 v2).area_times_2.isZero = false) :
    (Fp.set_vertices v0 v1 v2).normal.x.isNaN = false ∧
    (Fp.set_vertices v0 v1 v2).normal.y.isNaN = false ∧
    (Fp.set_vertices v0 v1 v2).normal.z.isNaN = false := by
  have hc : Fp.FiniteVector
      (Fp.cross (Fp.psub v1.position v0.position) (Fp.psub v2.position v0.position)) := by
    apply length_finite
    rw [← set_vertices_area]; exact hf
  rw [set_vertices_normal]
  unfold Fp.vdiv
  exact ⟨Double.div_not_nan _ _ hc.1 hf hz, Double.div_not_nan _ _ hc.2.1 hf hz,
    Double.div_not_nan _ _ hc.2.2 hf hz⟩

theorem major_axis_chain (n : MVector Double) (m : MajorAxis)
    (hm : m = if Double.gt (Double.abs n.x) (Double.abs n.y) then
        if Double.gt (Double.abs n.x) (Double.abs n.z) then MajorAxis.X_AXIS
        else if Double.gt (Double.abs n.y) (Double.abs n.z) then MajorAxis.Y_AXIS
        else MajorAxis.Z_AXIS
      else
        if Double.gt (Double.abs n.y) (Double.abs n.z) then MajorAxis.Y_AXIS
        else MajorAxis.Z_AXIS) :
    (m = MajorAxis.X_AXIS ↔
      Double.gt (Double.abs n.x) (Double.abs n.y) = true ∧
        Double.gt (Double.abs n.x) (Double.abs n.z) = true) ∧
    (m = MajorAxis.Y_AXIS ↔
      ¬ (Double.gt (Double.abs n.x) (Double.abs n.y) = true ∧
        Double.gt (Double.abs n.x) (Double.abs n.z) = true) ∧
      Double.gt (Double.abs n.y) (Double.abs n.z) = true) ∧
    (m = MajorAxis.Z_AXIS ↔
      ¬ (Double.gt (Double.abs n.x) (Double.abs n.y) = true ∧
        Double.gt (Double.abs n.x) (Double.abs n.z) = true) ∧
      Double.gt (Double.abs n.y) (Double.abs n.z) = false) := by
  subst hm
  cases h1 : Double.gt (Double.abs n.x) (Double.abs n.y) <;>
    cases h2 : Double.gt (Double.abs n.x) (Double.abs n.z) <;>
    cases h3 : Double.gt (Double.abs n.y) (Double.abs n.z) <;>
    simp

theorem major_axis_largest (n : MVector Double) (m : MajorAxis)
    (hm : m = if Double.gt (Double.abs n.x) (Double.abs n.y) then
        if Double.gt (Double.abs n.x) (Double.abs n.z) then MajorAxis.X_AXIS
        else if Double.gt (Double.abs n.y) (Double.abs n.z) then MajorAxis.Y_AXIS
        else MajorAxis.Z_AXIS
      else
        if Double.gt (Double.abs n.y) (Double.abs n.z) then MajorAxis.Y_AXIS
        else MajorAxis.Z_AXIS)
    (hx : n.x.isNaN = false) (hy : n.y.isNaN = false) (hz : n.z.isNaN = false)
    (axis : MajorAxis) :
    Double.ge (Double.abs (Fp.axis_component m n)) (Double.abs (Fp.axis_component axis n))
      = true := by
  have ax : (Double.abs n.x).isNaN = false := hx
  have ay : (Double.abs n.y).isNaN = false := hy
  have az : (Double.abs n.z).isNaN = false := hz
  have kx : (Double.abs n.x).key = (n.x.mag : Int) := rfl
  have ky : (Double.abs n.y).key = (n.y.mag : Int) := rfl
  have kz : (Double.abs n.z).key = (n.z.mag : Int) := rfl
  subst hm
  simp only [Double.gt, Double.lt, ax, ay, az, kx, ky, kz, Bool.not_false, Bool.true_and,
    decide_eq_true_eq, Nat.cast_lt]
  cases axis <;> split_ifs <;>
    simp only [Fp.axis_component, Double.ge, Double.le, ax, ay, az, kx, ky, kz, Bool.not_false,
      Bool.true_and, decide_eq_true_eq, Nat.cast_le] <;> omega

/-- C17 fails as stated: the normal that `set_vertices` stores for the triangle
(0,0,0), (1,0,0), (2,0,0) has three NaN components, the major axis is Z, and the
absolute component along Z is not greater than or equal to the one along X. -/
theorem major_axis_not_largest :
    Fp.flat_triangle.normal.x.isNaN = true ∧ Fp.flat_triangle.normal.y.isNaN = true ∧
    Fp.flat_triangle.normal.z.isNaN = true ∧
    Fp.flat_triangle.major_axis = MajorAxis.Z_AXIS ∧
    Double.ge (Double.abs (Fp.axis_component Fp.flat_triangle.major_axis Fp.flat_triangle.normal))
      (Double.abs (Fp.axis_component MajorAxis.X_AXIS Fp.flat_triangle.normal)) = false := by
  decide!

/-- C17 amended: with the comparisons of doubles, `set_vertices` stores the
major axis X exactly when `|nx| > |ny|` and `|nx| > |nz|`, otherwise Y exactly
when `|ny| > |nz|`, otherwise Z; when no component of the stored normal is a
NaN, the absolute component along the major axis is greater than or equal to
the absolute component along every axis, and no component is a NaN when
`area_times_2` is finite and not zero. -/
theorem major_axis_in_doubles (v0 v1 v2 : WeightedVertex Double) :
    ((Fp.set_vertices v0 v1 v2).major_axis = MajorAxis.X_AXIS ↔
      Double.gt (Double.abs (Fp.set_vertices v0 v1 v2).normal.x)
          (Double.abs (Fp.set_vertices v0 v1 v2).normal.y) = true ∧
        Double.gt (Double.abs (Fp.set_vertices v0 v1 v2).normal.x)
          (Double.abs (Fp.set_vertices v0 v1 v2).normal.z) = true) ∧
    ((Fp.set_vertices v0 v1 v2).major_axis = MajorAxis.Y_AXIS ↔
      ¬ (Double.gt (Double.abs (Fp.set_vertices v0 v1 v2).normal.x)
          (Double.abs (Fp.set_vertices v0 v1 v2).normal.y) = true ∧
        Double.gt (Double.abs (Fp.set_vertices v0 v1 v2).normal.x)
          (Double.abs (Fp.set_vertices v0 v1 v2).normal.z) = true) ∧
      Double.gt (Double.abs (Fp.set_vertices v0 v1 v2).normal.y)
        (Double.abs (Fp.set_vertices v0 v1 v2).normal.z) = true) ∧
    ((Fp.set_vertices v0 v1 v2).major_axis = MajorAxis.Z_AXIS ↔
      ¬ (Double.gt (Double.abs (Fp.set_vertices v0 v1 v2).normal.x)
          (Double.abs (Fp.set_vertices v0 v1 v2).normal.y) = true ∧
        Double.gt (Double.abs (Fp.set_vertices v0 v1 v2).normal.x)
          (Double.abs (Fp.set_vertices v0 v1 v2).normal.z) = true) ∧
      Double.gt (Double.abs (Fp.set_vertices v0 v1 v2).normal.y)
        (Double.abs (Fp.set_vertices v0 v1 v2).normal.z) = false) ∧
    ((Fp.set_vertices v0 v1 v2).normal.x.isNaN = false →
      (Fp.set_vertices v0 v1 v2).normal.y.isNaN = false →
      (Fp.set_vertices v0 v1 v2).normal.z.isNaN = false →
      ∀ axis, Double.ge
        (Double.abs (Fp.axis_component (Fp.set_vertices v0 v1 v2).major_axis
          (Fp.set_vertices v0 v1 v2).normal))
        (Double.abs (Fp.axis_component axis (Fp.set_vertices v0 v1 v2).normal)) = true) ∧
    ((Fp.set_vertices v0 v1 v2).area_times_2.isFinite = true →
      (Fp.set_vertices v0 v1 v2).area_times_2.isZero = false →
      (Fp.set_vertices v0 v1 v2).normal.x.isNaN = false ∧
      (Fp.set_vertices v0 v1 v2).normal.y.isNaN = false ∧
      (Fp.set_vertices v0 v1 v2).normal.z.isNaN = false) := by
  have hc := major_axis_chain (Fp.set_vertices v0 v1 v2).normal
    (Fp.set_vertices v0 v1 v2).major_axis (set_vertices_major_axis v0 v1 v2)
  exact ⟨hc.1, hc.2.1, hc.2.2,
    fun hx hy hz axis => major_axis_largest _ _ (set_vertices_major_axis v0 v1 v2) hx hy hz axis,
    fun hf hz => normal_not_nan v0 v1 v2 hf hz⟩

/-- The hypotheses of the last two parts hold for the skew triangle, whose
major axis carries the largest absolute component of its normal. -/
theorem major_axis_in_doubles_witness :
    ((Fp.set_vertices Fp.skew_p Fp.skew_q Fp.skew_r).area_times_2.isFinite = true ∧
      (Fp.set_vertices Fp.skew_p Fp.skew_q Fp.skew_r).area_times_2.isZero = false ∧
      (Fp.set_vertices Fp.skew_p Fp.skew_q Fp.skew_r).normal.x.isNaN = false ∧
      (Fp.set_vertices Fp.skew_p Fp.skew_q Fp.skew_r).normal.y.isNaN = false ∧
      (Fp.set_vertices Fp.skew_p Fp.skew_q Fp.skew_r).normal.z.isNaN = false) ∧
    ∀ axis, Double.ge
      (Double.abs (Fp.axis_component (Fp.set_vertices Fp.skew_p Fp.skew_q Fp.skew_r).major_axis
        (Fp.set_vertices Fp.skew_p Fp.skew_q Fp.skew_r).normal))
      (Double.abs (Fp.axis_component axis (Fp.set_vertices Fp.skew_p Fp.skew_q Fp.skew_r).normal))
        = true :=
  ⟨⟨by decide!, by decide!,
      ((major_axis_in_doubles Fp.skew_p Fp.skew_q Fp.skew_r).2.2.2.2 (by decide!) (by decide!)).1,
      by decide!, by decide!⟩,
    (major_axis_in_doubles Fp.skew_p Fp.skew_q Fp.skew_r).2.2.2.1 (by decide!) (by decide!)
      (by decide!)⟩

/-! ### Projections and stored triangle data -/

/-- Subtracting `+0` from a double that is not a NaN gives the double back. -/
theorem Double.sub_zero_right (a : Double) (h : a.isNaN = false) :
    Double.sub a (Double.zero false) = a := by
  have hself : (⟨a.neg, a.mag⟩ : Double) = a := by cases a; rfl
  have hb1 : (Double.negate (Double.zero false)).isNaN = false := Double.isNaN_zero true
  have hb2 : (Double.negate (Double.zero false)).isInf = false :=
    ((Double.finite_iff _).mp (Double.isFinite_zero true)).2
  have hb3 : (Double.negate (Double.zero false)).num = 0 := Double.num_zero true
  have hb4 : (Double.negate (Double.zero false)).neg = true := rfl
  unfold Double.sub Double.add
  rw [h, hb1, hb2, hb3, hb4]
  simp only [Bool.or_self, Bool.false_eq_true, if_false, Bool.false_and, Nat.add_zero,
    Nat.sub_zero]
  by_cases hi : a.isInf = true
  · rw [if_pos hi]
  · rw [if_neg hi]
    have hf : a.isFinite = true := (Double.finite_iff a).mpr ⟨h, by simpa using hi⟩
    have hex : ∀ s, Double.round s a.num (2 ^ 1074) = ⟨s, a.mag⟩ := fun s =>
      Double.round_exact s a ((Double.isFinite_iff a).mp hf) _ _ (by positivity) rfl
    by_cases hn : a.neg = true
    · rw [if_pos hn, hex]
    · rw [if_neg hn]
      have hn' : a.neg = false := by simpa using hn
      by_cases hz : a.num = 0
      · rw [if_pos hz]
        have hm : a.mag = 0 := (Double.num_eq_zero_iff a).mp hz
        rw [← hself, hn', hm]; rfl
      · rw [if_neg hz, if_pos (Nat.pos_of_ne_zero hz), hex, hself]

/-- The product of an infinity or a NaN with a zero is a NaN. -/
theorem Double.mul_zero_nan (q z : Double) (hq : q.isFinite = false) (hz : z.mag = 0) :
    Double.mul q z = Double.nan := by
  have hzz : z.isZero = true := (Double.isZero_iff z).mpr hz
  unfold Double.mul
  by_cases h1 : (q.isNaN || z.isNaN) = true
  · rw [if_pos h1]
  · rw [if_neg h1]
    have hqi : q.isInf = true := by
      rcases (Double.isFinite_eq_false q).mp hq with hn | hi
      · simp [hn] at h1
      · exact hi
    rw [hqi, hzz]
    simp only [Bool.true_or, Bool.or_true, if_true]

theorem Double.ge_nan_right (a : Double) : Double.ge Double.nan a = false := by
  unfold Double.ge Double.le
  rw [Double.isNaN_nan]
  simp only [Bool.not_true, Bool.and_false, Bool.false_and]

/-- The sign test of `0 - q * 0`: true exactly for a finite `q`. -/
theorem intercept_at_origin (q : Double) :
    Fp.simple_sign (Double.sub (Double.zero false) (Double.mul q (Double.zero false)))
      = q.isFinite := by
  cases hq : q.isFinite
  · rw [Double.mul_zero_nan q _ hq rfl]
    have : Double.sub (Double.zero false) Double.nan = Double.nan := by decide!
    rw [this]
    exact Double.ge_nan_right _
  · rw [Double.mul_zero_right q _ rfl hq]
    cases q.neg <;> decide!

theorem ge_zero_of_not_eq (a : Double) (h : a.isNaN = false)
    (he : Double.eq a (Double.zero false) = false) :
    Double.ge a (Double.zero false) = Double.gt a (Double.zero false) := by
  unfold Double.ge Double.le Double.gt Double.lt
  unfold Double.eq at he
  rw [h, Double.isNaN_zero, Double.key_zero] at *
  simp only [Bool.not_false, Bool.true_and, decide_eq_false_iff_not] at he
  simp only [Bool.not_false, Bool.true_and, decide_eq_decide]
  omega

/-- An edge from the origin `(+0, +0)` is counted without rounding. -/
theorem origin_edge_first (u : Point2d Double) (hy : u.y.isNaN = false)
    (hx : u.x.isNaN = false) :
    Fp.edge_crosses_x_axis ⟨Double.zero false, Double.zero false⟩ u =
      if Double.eq u.y (Double.zero false) then Double.gt u.x (Double.zero false)
      else if Double.gt u.y (Double.zero false) then false
      else if Double.ge u.x (Double.zero false) then true
      else (Double.div u.x u.y).isFinite := by
  have e00 : Double.eq (Double.zero false) (Double.zero false) = true := by decide!
  have g00 : Double.gt (Double.zero false) (Double.zero false) = false := by decide!
  have s00 : Fp.simple_sign (Double.zero false) = true := by decide!
  unfold Fp.edge_crosses_x_axis
  simp only [e00, g00, s00, Bool.true_and, Bool.false_or, Bool.not_true, Bool.false_and,
    Bool.false_eq_true, if_false, Double.sub_zero_right u.x hx, Double.sub_zero_right u.y hy,
    intercept_at_origin]
  cases he : Double.eq u.y (Double.zero false)
  · have hg := ge_zero_of_not_eq u.y hy he
    unfold Fp.simple_sign
    rw [hg]
    cases Double.gt u.y (Double.zero false) <;> cases Double.ge u.x (Double.zero false) <;> simp
  · simp

/-- An edge that ends at the origin `(+0, +0)` is counted by the same signs, but
its last case tests a rounded intercept. -/
theorem origin_edge_second (u : Point2d Double) (hy : u.y.isNaN = false) :
    Fp.edge_crosses_x_axis u ⟨Double.zero false, Double.zero false⟩ =
      if Double.eq u.y (Double.zero false) then Double.gt u.x (Double.zero false)
      else if Double.gt u.y (Double.zero false) then false
      else if Double.ge u.x (Double.zero false) then true
      else Fp.simple_sign (Double.sub u.x (Double.mul
        (Double.div (Double.sub (Double.zero false) u.x) (Double.sub (Double.zero false) u.y))
        u.y)) := by
  have e00 : Double.eq (Double.zero false) (Double.zero false) = true := by decide!
  have g00 : Double.gt (Double.zero false) (Double.zero false) = false := by decide!
  have s00 : Fp.simple_sign (Double.zero false) = true := by decide!
  unfold Fp.edge_crosses_x_axis
  simp only [e00, g00, s00, Bool.and_true, Bool.or_false, Bool.not_true, Bool.and_false,
    Bool.false_eq_true, if_false]
  cases he : Double.eq u.y (Double.zero false)
  · have hg := ge_zero_of_not_eq u.y hy he
    unfold Fp.simple_sign at *
    rw [hg]
  · simp

theorem adjust_self (q : Point2d Double) (hx : q.x.isFinite = true) (hy : q.y.isFinite = true) :
    Fp.adjust q q = ⟨Double.zero false, Double.zero false⟩ := by
  unfold Fp.adjust
  rw [Double.sub_self _ hx, Double.sub_self _ hy]

theorem project_finite (m : MajorAxis) (p : MPoint Double)
    (h : Fp.FiniteVector (Fp.toVector p)) :
    (project_to_2d m p).x.isFinite = true ∧ (project_to_2d m p).y.isFinite = true := by
  obtain ⟨hx, hy, hz⟩ := h
  cases m
  · exact ⟨hy, hz⟩
  · exact ⟨hx, hz⟩
  · exact ⟨hx, hy⟩

theorem fp_count_eq (t : WeightedTriangle Double) (p : MPoint Double) :
    Fp.count_intersections t p =
      (if Fp.edge_crosses_x_axis (Fp.adjust t.v0_2d (project_to_2d t.major_axis p))
          (Fp.adjust t.v1_2d (project_to_2d t.major_axis p)) then 1 else 0) +
      (if Fp.edge_crosses_x_axis (Fp.adjust t.v1_2d (project_to_2d t.major_axis p))
          (Fp.adjust t.v2_2d (project_to_2d t.major_axis p)) then 1 else 0) +
      (if Fp.edge_crosses_x_axis (Fp.adjust t.v0_2d (project_to_2d t.major_axis p))
          (Fp.adjust t.v2_2d (project_to_2d t.major_axis p)) then 1 else 0) := by
  unfold Fp.count_intersections
  simp only
  split_ifs <;> rfl

theorem fp_point_is_inside_iff (t : WeightedTriangle Double) (p : MPoint Double) :
    Fp.point_is_inside t p = true ↔
      Fp.point_is_on_plane t p = true ∧ Fp.count_intersections t p % 2 = 1 := by
  unfold Fp.point_is_inside
  cases Fp.point_is_on_plane t p <;> simp

/-- C6 amended: in double arithmetic, for a triangle with finite vertex
positions, `point_is_inside` translates each own vertex to exactly `(+0, +0)`;
at the first vertex it returns true exactly when `point_is_on_plane` holds and
an odd number of the edges origin to `u`, `u` to `w`, origin to `w` is counted,
`u` and `w` being the translated second and third vertex; an edge from the
origin to a point `u` without a NaN is counted exactly when `u.y == 0` and
`u.x > 0`, or `u.y < 0` and either `u.x >= 0` or the quotient `u.x / u.y` is
finite; an edge from `u` to the origin is counted by the same rule, except that
for `u.y < 0` and `u.x < 0` the sign of the rounded intercept decides. -/
theorem fast_test_at_vertices_in_doubles (v0 v1 v2 : WeightedVertex Double)
    (h0 : Fp.FiniteVector (Fp.toVector v0.position))
    (h1 : Fp.FiniteVector (Fp.toVector v1.position))
    (h2 : Fp.FiniteVector (Fp.toVector v2.position)) :
    (Fp.adjust (Fp.set_vertices v0 v1 v2).v0_2d
        (project_to_2d (Fp.set_vertices v0 v1 v2).major_axis v0.position) =
        ⟨Double.zero false, Double.zero false⟩ ∧
      Fp.adjust (Fp.set_vertices v0 v1 v2).v1_2d
        (project_to_2d (Fp.set_vertices v0 v1 v2).major_axis v1.position) =
        ⟨Double.zero false, Double.zero false⟩ ∧
      Fp.adjust (Fp.set_vertices v0 v1 v2).v2_2d
        (project_to_2d (Fp.set_vertices v0 v1 v2).major_axis v2.position) =
        ⟨Double.zero false, Double.zero false⟩) ∧
    (Fp.point_is_inside (Fp.set_vertices v0 v1 v2) v0.position = true ↔
      Fp.point_is_on_plane (Fp.set_vertices v0 v1 v2) v0.position = true ∧
      ((if Fp.edge_crosses_x_axis ⟨Double.zero false, Double.zero false⟩
            (Fp.adjust (Fp.set_vertices v0 v1 v2).v1_2d
              (project_to_2d (Fp.set_vertices v0 v1 v2).major_axis v0.position))
          then 1 else 0) +
        (if Fp.edge_crosses_x_axis
            (Fp.adjust (Fp.set_vertices v0 v1 v2).v1_2d
              (project_to_2d (Fp.set_vertices v0 v1 v2).major_axis v0.position))
            (Fp.adjust (Fp.set_vertices v0 v1 v2).v2_2d
              (project_to_2d (Fp.set_vertices v0 v1 v2).major_axis v0.position))
          then 1 else 0) +
        (if Fp.edge_crosses_x_axis ⟨Double.zero false, Double.zero false⟩
            (Fp.adjust (Fp.set_vertices v0 v1 v2).v2_2d
              (project_to_2d (Fp.set_vertices v0 v1 v2).major_axis v0.position))
          then 1 else 0)) % 2 = 1) ∧
    (∀ u : Point2d Double, u.y.isNaN = false → u.x.isNaN = false →
      Fp.edge_crosses_x_axis ⟨Double.zero false, Double.zero false⟩ u =
        if Double.eq u.y (Double.zero false) then Double.gt u.x (Double.zero false)
        else if Double.gt u.y (Double.zero false) then false
        else if Double.ge u.x (Double.zero false) then true
        else (Double.div u.x u.y).isFinite) ∧
    (∀ u : Point2d Double, u.y.isNaN = false →
      Fp.edge_crosses_x_axis u ⟨Double.zero false, Double.zero false⟩ =
        if Double.eq u.y (Double.zero false) then Double.gt u.x (Double.zero false)
        else if Double.gt u.y (Double.zero false) then false
        else if Double.ge u.x (Double.zero false) then true
        else Fp.simple_sign (Double.sub u.x (Double.mul
          (Double.div (Double.sub (Double.zero false) u.x) (Double.sub (Double.zero false) u.y))
          u.y))) := by
  obtain ⟨p0, p1, p2⟩ := set_vertices_projections v0 v1 v2
  have a0 : Fp.adjust (Fp.set_vertices v0 v1 v2).v0_2d
      (project_to_2d (Fp.set_vertices v0 v1 v2).major_axis v0.position) =
      ⟨Double.zero false, Double.zero false⟩ := by
    rw [p0]; exact adjust_self _ (project_finite _ _ h0).1 (project_finite _ _ h0).2
  have a1 : Fp.adjust (Fp.set_vertices v0 v1 v2).v1_2d
      (project_to_2d (Fp.set_vertices v0 v1 v2).major_axis v1.position) =
      ⟨Double.zero false, Double.zero false⟩ := by
    rw [p1]; exact adjust_self _ (project_finite _ _ h1).1 (project_finite _ _ h1).2
  have a2 : Fp.adjust (Fp.set_vertices v0 v1 v2).v2_2d
      (project_to_2d (Fp.set_vertices v0 v1 v2).major_axis v2.position) =
      ⟨Double.zero false, Double.zero false⟩ := by
    rw [p2]; exact adjust_self _ (project_finite _ _ h2).1 (project_finite _ _ h2).2
  refine ⟨⟨a0, a1, a2⟩, ?_, fun u hy hx => origin_edge_first u hy hx,
    fun u hy => origin_edge_second u hy⟩
  rw [fp_point_is_inside_iff, fp_count_eq, a0]

/-- The hypotheses hold for the first triangle of the quad, (0,0,0), (1,0,0),
(1,1,0), whose first vertex passes the fast test. -/
theorem fast_test_at_vertices_in_doubles_witness :
    (Fp.FiniteVector (Fp.toVector (Fp.int_vertex 0 0 0 0).position) ∧
      Fp.FiniteVector (Fp.toVector (Fp.int_vertex 1 0 0 1).position) ∧
      Fp.FiniteVector (Fp.toVector (Fp.int_vertex 1 1 0 1).position)) ∧
    Fp.adjust (Fp.set_vertices (Fp.int_vertex 0 0 0 0) (Fp.int_vertex 1 0 0 1)
        (Fp.int_vertex 1 1 0 1)).v0_2d
      (project_to_2d (Fp.set_vertices (Fp.int_vertex 0 0 0 0) (Fp.int_vertex 1 0 0 1)
        (Fp.int_vertex 1 1 0 1)).major_axis (Fp.int_vertex 0 0 0 0).position) =
      ⟨Double.zero false, Double.zero false⟩ ∧
    Fp.point_is_inside (Fp.set_vertices (Fp.int_vertex 0 0 0 0) (Fp.int_vertex 1 0 0 1)
      (Fp.int_vertex 1 1 0 1)) (Fp.int_vertex 0 0 0 0).position = true :=
  ⟨⟨by unfold Fp.FiniteVector; decide!, by unfold Fp.FiniteVector; decide!,
      by unfold Fp.FiniteVector; decide!⟩,
    (fast_test_at_vertices_in_doubles (Fp.int_vertex 0 0 0 0) (Fp.int_vertex 1 0 0 1)
      (Fp.int_vertex 1 1 0 1) (by unfold Fp.FiniteVector; decide!)
      (by unfold Fp.FiniteVector; decide!) (by unfold Fp.FiniteVector; decide!)).1.1,
    by decide!⟩

end DoubleTheorems

end WeightTransferTool
